import Mathlib

/-!
# CRAAM: robust MDP container and stateless simulator

A shallow embedding of `src/src/RMDP.cpp` (the `RMDP` container) and of
`src/include/Simulation.hpp` (the sample store and `simulate_stateless`)
together with the properties of them that are checked against the
specification.

Conventions of the embedding

* `long` is `Int` (container sizes are far below `2^63`, so no wrap-around is
  involved in any comparison the code makes) and memory is unbounded;
  `prec_t` is `ℚ`, i.e. numeric fields are taken as exact.  The threshold of an
  action is the one value that a comparison written in the sources guards
  (`RMDP::set_threshold`), and a NaN gets past that comparison: a threshold is
  a `Prec`, a number or NaN.
* `vector<T>` is `List T`; unchecked `operator[]` is a lookup that yields
  `Error.OutOfBounds` when the index does not exist (undefined behaviour in
  C++), which is different from every exception the code throws itself.
* Every `throw invalid_argument(...)` is mapped to the error kind of the
  specification that matches its message.
* A reading method returns `Except Error α`.  A mutating method returns an
  `Effect`: the object as the call leaves it together with the error it threw,
  if any, so that what a failed call did to the object stays visible.
-/

namespace craam

/-- Error kinds of the specification (section 7), plus `OutOfBounds` for an
unchecked access outside a container. -/
inductive Error where
  | InvalidIndex
  | ShapeMismatch
  | OutOfRange
  | NotNormalized
  | EmptyDistribution
  | OutOfBounds
deriving DecidableEq, Repr

/-- Result of a mutating method: the object after the call and the error
thrown, if any. -/
structure Effect (σ : Type) where
  state : σ
  error : Option Error
deriving DecidableEq, Repr

/-- Transition: three parallel vectors `indices`, `probabilities`, `rewards`
(fields as used by `RMDP.cpp`). -/
structure Transition where
  indices : List Int
  probabilities : List ℚ
  rewards : List ℚ
deriving DecidableEq, Repr

instance : Inhabited Transition := ⟨⟨[], [], []⟩⟩

/-- A `prec_t` value where the code compares it with `<` or `>`: a number, or
NaN.  An infinity compares like a number beyond every bound and needs no case
of its own. -/
inductive Prec where
  | num (q : ℚ)
  | nan
deriving DecidableEq, Repr

/-- The comparison `a < b` of two `prec_t` values: false as soon as one of them
is NaN. -/
def Prec.lt : Prec → Prec → Prop
  | Prec.num x, Prec.num y => x < y
  | _, _ => False

instance : LT Prec := ⟨Prec.lt⟩

instance (a b : Prec) : Decidable (a < b) := by
  cases a <;> cases b <;> simp only [LT.lt, Prec.lt] <;> infer_instance

/-- Action: the outcomes, the nominal distribution over them and the L1
threshold (default: no outcomes, empty distribution, threshold 0). -/
structure Action where
  outcomes : List Transition
  distribution : List ℚ
  threshold : Prec
deriving DecidableEq, Repr

instance : Inhabited Action := ⟨⟨[], [], Prec.num 0⟩⟩

/-- State: an ordered collection of actions. -/
structure State where
  actions : List Action
deriving DecidableEq, Repr

instance : Inhabited State := ⟨⟨[]⟩⟩

/-- RMDP: an ordered collection of states. -/
structure RMDP where
  states : List State
deriving DecidableEq, Repr

/-- The empty RMDP, `RMDP()`. -/
def RMDP.empty : RMDP := ⟨[]⟩

/-- Semantics of `vector::resize(n)`: truncate to `n` elements or pad with
default-constructed elements up to `n`. -/
def resize {α : Type} [Inhabited α] (v : List α) (n : Nat) : List α :=
  v.take n ++ List.replicate (n - v.length) default

/-! ## Lower levels: Transition, Action, State -/

/-- Modelled from the spec: `Transition::add` is not in the sources.  Section
4.1: "appends one branch"; `to ≥ 0` and `probability ≥ 0` are stated as a
precondition on the caller, not as a failure of the operation. -/
def Transition.add (t : Transition) (toid : Int) (probability reward : ℚ) : Transition :=
  { indices := t.indices ++ [toid]
    probabilities := t.probabilities ++ [probability]
    rewards := t.rewards ++ [reward] }

/-- Modelled from the spec: `Action::add_outcome` is not in the sources.
Section 4.2: "ensures the outcome vector has length ≥ outcomeid+1 (growing
with empty Transitions), then delegates an add to the selected outcome".  A
negative outcome id selects nothing and is an `InvalidIndex` (section 7). -/
def Action.add_outcome (a : Action) (outcomeid toid : Int) (probability reward : ℚ) :
    Effect Action :=
  let outcomes :=
    if outcomeid ≥ (a.outcomes.length : Int) then resize a.outcomes (outcomeid.toNat + 1)
    else a.outcomes
  if outcomeid < 0 then ⟨{ a with outcomes := outcomes }, some Error.InvalidIndex⟩
  else
    match outcomes[outcomeid.toNat]? with
    | none => ⟨{ a with outcomes := outcomes }, some Error.OutOfBounds⟩
    | some t =>
      ⟨{ a with outcomes := outcomes.set outcomeid.toNat (t.add toid probability reward) }, none⟩

/-- Modelled from the spec: `State::add_action` is not in the sources.
Section 4.3: "grows the action vector as needed, then delegates".  A negative
action id selects nothing and is an `InvalidIndex` (section 7); an error of the
delegate is passed on, the growth that preceded it stays (section 7). -/
def State.add_action (s : State) (actionid outcomeid toid : Int) (probability reward : ℚ) :
    Effect State :=
  let actions :=
    if actionid ≥ (s.actions.length : Int) then resize s.actions (actionid.toNat + 1)
    else s.actions
  if actionid < 0 then ⟨⟨actions⟩, some Error.InvalidIndex⟩
  else
    match actions[actionid.toNat]? with
    | none => ⟨⟨actions⟩, some Error.OutOfBounds⟩
    | some a =>
      let e := a.add_outcome outcomeid toid probability reward
      ⟨⟨actions.set actionid.toNat e.state⟩, e.error⟩

/-! ## RMDP: size queries and readers (`RMDP.cpp` lines 12-125, 230-262) -/

/-- Unchecked `v[i]` with a `long` index. -/
def index {α : Type} (v : List α) (i : Int) : Except Error α :=
  if i < 0 then Except.error Error.OutOfBounds
  else
    match v[i.toNat]? with
    | some x => Except.ok x
    | none => Except.error Error.OutOfBounds

/-- `RMDP::state_count`. -/
def RMDP.state_count (m : RMDP) : Int := m.states.length

/-- `RMDP::action_count`. -/
def RMDP.action_count (m : RMDP) (stateid : Int) : Except Error Int :=
  if stateid < 0 ∨ stateid ≥ (m.states.length : Int) then Except.error Error.InvalidIndex
  else
    match index m.states stateid with
    | Except.error e => Except.error e
    | Except.ok s => Except.ok (s.actions.length : Int)

/-- `RMDP::outcome_count`. -/
def RMDP.outcome_count (m : RMDP) (stateid actionid : Int) : Except Error Int :=
  if stateid < 0 ∨ stateid ≥ (m.states.length : Int) then Except.error Error.InvalidIndex
  else
    match index m.states stateid with
    | Except.error e => Except.error e
    | Except.ok s =>
      if actionid < 0 ∨ actionid ≥ (s.actions.length : Int) then Except.error Error.InvalidIndex
      else
        match index s.actions actionid with
        | Except.error e => Except.error e
        | Except.ok a => Except.ok (a.outcomes.length : Int)

/-- `RMDP::get_transition` (both overloads have the same body). -/
def RMDP.get_transition (m : RMDP) (stateid actionid outcomeid : Int) : Except Error Transition :=
  if stateid < 0 ∨ stateid ≥ (m.states.length : Int) then Except.error Error.InvalidIndex
  else
    match index m.states stateid with
    | Except.error e => Except.error e
    | Except.ok s =>
      if actionid < 0 ∨ actionid ≥ (s.actions.length : Int) then Except.error Error.InvalidIndex
      else
        match index s.actions actionid with
        | Except.error e => Except.error e
        | Except.ok a =>
          if outcomeid < 0 ∨ outcomeid ≥ (a.outcomes.length : Int) then
            Except.error Error.InvalidIndex
          else index a.outcomes outcomeid

/-- `RMDP::transition_count`: the checks of `get_transition` written out, then
`indices.size()`. -/
def RMDP.transition_count (m : RMDP) (stateid actionid outcomeid : Int) : Except Error Int :=
  if stateid < 0 ∨ stateid ≥ (m.states.length : Int) then Except.error Error.InvalidIndex
  else
    match index m.states stateid with
    | Except.error e => Except.error e
    | Except.ok s =>
      if actionid < 0 ∨ actionid ≥ (s.actions.length : Int) then Except.error Error.InvalidIndex
      else
        match index s.actions actionid with
        | Except.error e => Except.error e
        | Except.ok a =>
          if outcomeid < 0 ∨ outcomeid ≥ (a.outcomes.length : Int) then
            Except.error Error.InvalidIndex
          else
            match index a.outcomes outcomeid with
            | Except.error e => Except.error e
            | Except.ok t => Except.ok (t.indices.length : Int)

/-- `RMDP::sample_count`: `rewards.size()` of the addressed transition. -/
def RMDP.sample_count (m : RMDP) (stateid actionid outcomeid : Int) : Except Error Int :=
  match m.get_transition stateid actionid outcomeid with
  | Except.error e => Except.error e
  | Except.ok tran => Except.ok (tran.rewards.length : Int)

/-- `RMDP::get_reward`. -/
def RMDP.get_reward (m : RMDP) (stateid actionid outcomeid sampleid : Int) : Except Error ℚ :=
  match m.get_transition stateid actionid outcomeid with
  | Except.error e => Except.error e
  | Except.ok tran =>
    if sampleid < 0 ∨ sampleid ≥ (tran.rewards.length : Int) then Except.error Error.InvalidIndex
    else index tran.rewards sampleid

/-- `RMDP::get_toid`: the bound is checked against `rewards`, the read is from
`indices`; the result is converted to `prec_t`. -/
def RMDP.get_toid (m : RMDP) (stateid actionid outcomeid sampleid : Int) : Except Error ℚ :=
  match m.get_transition stateid actionid outcomeid with
  | Except.error e => Except.error e
  | Except.ok tran =>
    if sampleid < 0 ∨ sampleid ≥ (tran.rewards.length : Int) then Except.error Error.InvalidIndex
    else
      match index tran.indices sampleid with
      | Except.error e => Except.error e
      | Except.ok i => Except.ok (i : ℚ)

/-- `RMDP::get_probability`: the bound is checked against `rewards`, the read
is from `probabilities`. -/
def RMDP.get_probability (m : RMDP) (stateid actionid outcomeid sampleid : Int) :
    Except Error ℚ :=
  match m.get_transition stateid actionid outcomeid with
  | Except.error e => Except.error e
  | Except.ok tran =>
    if sampleid < 0 ∨ sampleid ≥ (tran.rewards.length : Int) then Except.error Error.InvalidIndex
    else index tran.probabilities sampleid

/-! ## RMDP: adding transitions (`RMDP.cpp` lines 127-155, 191-209) -/

/-- `RMDP::add_transition`. -/
def RMDP.add_transition (m : RMDP) (fromid actionid outcomeid toid : Int)
    (probability reward : ℚ) : Effect RMDP :=
  if fromid < 0 then ⟨m, some Error.InvalidIndex⟩
  else if toid < 0 then ⟨m, some Error.InvalidIndex⟩
  else
    let newid := max fromid toid
    let states :=
      if newid ≥ (m.states.length : Int) then resize m.states (newid.toNat + 1) else m.states
    match states[fromid.toNat]? with
    | none => ⟨⟨states⟩, some Error.OutOfBounds⟩
    | some s =>
      let e := s.add_action actionid outcomeid toid probability reward
      ⟨⟨states.set fromid.toNat e.state⟩, e.error⟩

/-- `RMDP::add_transition_d`. -/
def RMDP.add_transition_d (m : RMDP) (fromid actionid toid : Int) (probability reward : ℚ) :
    Effect RMDP :=
  m.add_transition fromid actionid 0 toid probability reward

/-- Sequencing with exceptions: once an error is raised nothing more runs. -/
def Effect.bind {σ : Type} (e : Effect σ) (f : σ → Effect σ) : Effect σ :=
  match e.error with
  | some _ => e
  | none => f e.state

/-- The loop `for (auto& x : v) f(x);` where `f` may throw: elements are
updated in place, in order, and the first error stops the loop. -/
def mapEffect {α : Type} (f : α → Effect α) : List α → Effect (List α)
  | [] => ⟨[], none⟩
  | x :: xs =>
    match (f x).error with
    | some e => ⟨(f x).state :: xs, some e⟩
    | none => ⟨(f x).state :: (mapEffect f xs).state, (mapEffect f xs).error⟩

/-! ## RMDP: bulk add (`RMDP.cpp` lines 191-209) -/

/-- `RMDP::add_transitions`: the size check, then the loop
`for (l = 0; l <= (long) s; l++)` with unchecked reads of the six vectors. -/
def RMDP.add_transitions (m : RMDP) (fromids actionids outcomeids toids : List Int)
    (probs rews : List ℚ) : Effect RMDP :=
  let s := fromids.length
  if s ≠ outcomeids.length ∨ s ≠ toids.length ∨ s ≠ actionids.length ∨ s ≠ probs.length
      ∨ s ≠ rews.length then
    ⟨m, some Error.ShapeMismatch⟩
  else
    (List.range (s + 1)).foldl
      (fun e (l : Nat) => e.bind fun cur =>
        match index fromids (l : Int), index actionids (l : Int), index outcomeids (l : Int),
            index toids (l : Int), index probs (l : Int), index rews (l : Int) with
        | Except.ok f, Except.ok a, Except.ok o, Except.ok t, Except.ok p, Except.ok r =>
          cur.add_transition f a o t p r
        | _, _, _, _, _, _ => ⟨cur, some Error.OutOfBounds⟩)
      ⟨m, none⟩

/-! ## RMDP: setters (`RMDP.cpp` lines 60-76, 177-228, 470-529) -/

/-- Write through the reference `states[s].actions[a].outcomes[o]`. -/
def RMDP.update_transition (m : RMDP) (s a o : Nat) (f : Transition → Transition) : RMDP :=
  ⟨m.states.modify
    (fun st => ⟨st.actions.modify (fun ac => { ac with outcomes := ac.outcomes.modify f o }) a⟩) s⟩

/-- Write through the reference `states[s].actions[a]`. -/
def RMDP.update_action (m : RMDP) (s a : Nat) (f : Action → Action) : RMDP :=
  ⟨m.states.modify (fun st => ⟨st.actions.modify f a⟩) s⟩

/-- `RMDP::set_reward`. -/
def RMDP.set_reward (m : RMDP) (stateid actionid outcomeid sampleid : Int) (reward : ℚ) :
    Effect RMDP :=
  match m.get_transition stateid actionid outcomeid with
  | Except.error e => ⟨m, some e⟩
  | Except.ok tran =>
    if sampleid < 0 ∨ sampleid ≥ (tran.rewards.length : Int) then ⟨m, some Error.InvalidIndex⟩
    else
      ⟨m.update_transition stateid.toNat actionid.toNat outcomeid.toNat
        (fun t => { t with rewards := t.rewards.set sampleid.toNat reward }), none⟩

/-- `RMDP::set_threshold` (lines 500-515).  The guard is the source's
`threshold < 0.0 || threshold > 2.0`, which is false for NaN. -/
def RMDP.set_threshold (m : RMDP) (stateid actionid : Int) (threshold : Prec) : Effect RMDP :=
  if stateid < 0 ∨ stateid ≥ (m.states.length : Int) then ⟨m, some Error.InvalidIndex⟩
  else
    match index m.states stateid with
    | Except.error e => ⟨m, some e⟩
    | Except.ok s =>
      if actionid < 0 ∨ actionid ≥ (s.actions.length : Int) then ⟨m, some Error.InvalidIndex⟩
      else if threshold < Prec.num 0 ∨ threshold > Prec.num 2 then ⟨m, some Error.OutOfRange⟩
      else
        ⟨m.update_action stateid.toNat actionid.toNat (fun a => { a with threshold := threshold }),
          none⟩

/-- `RMDP::get_threshold`. -/
def RMDP.get_threshold (m : RMDP) (stateid actionid : Int) : Except Error Prec :=
  if stateid < 0 ∨ stateid ≥ (m.states.length : Int) then Except.error Error.InvalidIndex
  else
    match index m.states stateid with
    | Except.error e => Except.error e
    | Except.ok s =>
      if actionid < 0 ∨ actionid ≥ (s.actions.length : Int) then Except.error Error.InvalidIndex
      else
        match index s.actions actionid with
        | Except.error e => Except.error e
        | Except.ok a => Except.ok a.threshold

/-- Modelled from the spec: `Action::set_threshold` is not in the sources.
Section 4.2: "validates t ∈ [0, 2] and assigns"; a rejected value is an
`OutOfRange` (section 7). -/
def Action.set_threshold (a : Action) (t : ℚ) : Effect Action :=
  if t < 0 ∨ t > 2 then ⟨a, some Error.OutOfRange⟩
  else ⟨{ a with threshold := Prec.num t }, none⟩

/-- Modelled from the spec: `State::set_thresholds` is not in the sources.
Section 4.3: "broadcasts t to every contained Action's threshold (validation
per-Action)". -/
def State.set_thresholds (s : State) (t : ℚ) : Effect State :=
  ⟨⟨(mapEffect (fun a => a.set_threshold t) s.actions).state⟩,
    (mapEffect (fun a => a.set_threshold t) s.actions).error⟩

/-- `RMDP::set_uniform_thresholds`. -/
def RMDP.set_uniform_thresholds (m : RMDP) (threshold : ℚ) : Effect RMDP :=
  ⟨⟨(mapEffect (fun s => s.set_thresholds threshold) m.states).state⟩,
    (mapEffect (fun s => s.set_thresholds threshold) m.states).error⟩

/-- Modelled from the spec: `Action::set_distribution` is not in the sources.
Section 4.2: "replaces the nominal outcome distribution. Fails with
ShapeMismatch if |dist| ≠ |outcomes|, with OutOfRange if threshold ∉ [0, 2] or
any entry < 0, with NotNormalized if entries do not sum to 1 within
tolerance".  The tolerance has no value in the spec and is the parameter
`tol`. -/
def Action.set_distribution (a : Action) (tol : ℚ) (dist : List ℚ) (threshold : ℚ) :
    Effect Action :=
  if dist.length ≠ a.outcomes.length then ⟨a, some Error.ShapeMismatch⟩
  else if threshold < 0 ∨ threshold > 2 ∨ ∃ x ∈ dist, x < 0 then ⟨a, some Error.OutOfRange⟩
  else if |dist.sum - 1| > tol then ⟨a, some Error.NotNormalized⟩
  else ⟨{ a with distribution := dist, threshold := Prec.num threshold }, none⟩

/-- `RMDP::set_distribution`. -/
def RMDP.set_distribution (m : RMDP) (tol : ℚ) (fromid actionid : Int) (distribution : List ℚ)
    (threshold : ℚ) : Effect RMDP :=
  if fromid ≥ (m.states.length : Int) ∨ fromid < 0 then ⟨m, some Error.InvalidIndex⟩
  else
    match index m.states fromid with
    | Except.error e => ⟨m, some e⟩
    | Except.ok s =>
      if actionid ≥ (s.actions.length : Int) ∨ actionid < 0 then ⟨m, some Error.InvalidIndex⟩
      else
        match index s.actions actionid with
        | Except.error e => ⟨m, some e⟩
        | Except.ok a =>
          ⟨m.update_action fromid.toNat actionid.toNat
              (fun x => (x.set_distribution tol distribution threshold).state),
            (a.set_distribution tol distribution threshold).error⟩

/-- `RMDP::set_uniform_distribution`. -/
def RMDP.set_uniform_distribution (m : RMDP) (tol : ℚ) (threshold : ℚ) : Effect RMDP :=
  let perAction : Action → Effect Action := fun a =>
    let outcomecount := a.outcomes.length
    let p : ℚ := 1 / (outcomecount : ℚ)
    a.set_distribution tol (List.replicate outcomecount p) threshold
  let perState : State → Effect State := fun s =>
    ⟨⟨(mapEffect perAction s.actions).state⟩, (mapEffect perAction s.actions).error⟩
  ⟨⟨(mapEffect perState m.states).state⟩, (mapEffect perState m.states).error⟩

/-- Modelled from the spec: `Transition::normalize` is not in the sources.
Section 4.1: "divides each probability by the current sum. Fails with
EmptyDistribution if sum ≤ 0".  A Transition without branches is left as it
is, without an error: `RMDP::normalize` calls this on every Transition with no
test of its own, and section 4.4 says of it that "empty Transitions are
skipped (not an error)". -/
def Transition.normalize (t : Transition) : Effect Transition :=
  if t.probabilities = [] then ⟨t, none⟩
  else if t.probabilities.sum ≤ 0 then ⟨t, some Error.EmptyDistribution⟩
  else ⟨{ t with probabilities := t.probabilities.map (fun p => p / t.probabilities.sum) }, none⟩

/-- Modelled from the spec: `Transition::is_normalized` is not in the sources.
Section 4.1: "true iff probabilities sum to 1 within a small tolerance"; the
tolerance has no value in the spec and is the parameter `tol`. -/
def Transition.is_normalized (t : Transition) (tol : ℚ) : Bool :=
  decide (|t.probabilities.sum - 1| ≤ tol)

/-- `RMDP::is_normalized` (lines 158-176). -/
def RMDP.is_normalized (m : RMDP) (tol : ℚ) : Bool :=
  m.states.all fun s => s.actions.all fun a => a.outcomes.all fun t => t.is_normalized tol

/-- `RMDP::normalize`. -/
def RMDP.normalize (m : RMDP) : Effect RMDP :=
  let perAction : Action → Effect Action := fun a =>
    ⟨{ a with outcomes := (mapEffect Transition.normalize a.outcomes).state },
      (mapEffect Transition.normalize a.outcomes).error⟩
  let perState : State → Effect State := fun s =>
    ⟨⟨(mapEffect perAction s.actions).state⟩, (mapEffect perAction s.actions).error⟩
  ⟨⟨(mapEffect perState m.states).state⟩, (mapEffect perState m.states).error⟩

/-! ## RMDP: copy (`RMDP.cpp` lines 384-440) -/

/-- Modelled from the spec: the constructor `RMDP(long state_count)` is declared
in `RMDP.hpp`, which is not in the sources; the spec has no word on it.  It is
taken to create `state_count` default (empty) states. -/
def RMDP.withStates (state_count : Nat) : RMDP := ⟨List.replicate state_count default⟩

/-- The loop `for (size_t l = 0; l < indices.size(); l++)` shared by
`copy_into` (lines 419-421) and `transitions_to_csv` (lines 375-378): `body`
gets `indices[l]`, `probabilities[l]`, `rewards[l]`, all read unchecked. -/
def for_each_branch {σ : Type} (t : Transition) (body : σ → Int → ℚ → ℚ → Effect σ)
    (e : Effect σ) : Effect σ :=
  (List.range t.indices.length).foldl
    (fun e (l : Nat) => e.bind fun st =>
      match index t.indices (l : Int), index t.probabilities (l : Int),
          index t.rewards (l : Int) with
      | Except.ok dst, Except.ok p, Except.ok r => body st dst p r
      | _, _, _ => ⟨st, some Error.OutOfBounds⟩)
    e

/-- The loop nest over states `i`, actions `j` and outcomes `k` shared by
`copy_into` (lines 405-424) and `transitions_to_csv` (lines 361-381). -/
def for_each_transition {σ : Type} (m : RMDP)
    (body : Nat → Nat → Nat → Transition → Effect σ → Effect σ) (e : Effect σ) : Effect σ :=
  m.states.enum.foldl
    (fun e1 is =>
      is.2.actions.enum.foldl
        (fun e2 ja => ja.2.outcomes.enum.foldl (fun e3 kt => body is.1 ja.1 kt.1 kt.2 e3) e2)
        e1)
    e

/-- First part of `copy_into` ("copy transitions"): every stored branch is
passed to `result.add_transition(i,j,k,indices[l],probabilities[l],rewards[l])`. -/
def copy_transitions (m : RMDP) (result : Effect RMDP) : Effect RMDP :=
  for_each_transition m
    (fun i j k t e => for_each_branch t (fun res dst p r => res.add_transition i j k dst p r) e)
    result

/-- Second part of `copy_into` ("copy distributions and thresholds") for one
state: `actions_dest[j]` is an unchecked access. -/
def copy_distributions_state (origin : State) (dest : State) : Effect State :=
  origin.actions.enum.foldl
    (fun e ja => e.bind fun d =>
      match d.actions[ja.1]? with
      | none => ⟨d, some Error.OutOfBounds⟩
      | some ad =>
        ⟨⟨d.actions.set ja.1
            { ad with distribution := ja.2.distribution, threshold := ja.2.threshold }⟩, none⟩)
    ⟨dest, none⟩

/-- Second part of `copy_into`: `result.states[i]` is an unchecked access. -/
def copy_distributions (m : RMDP) (result : RMDP) : Effect RMDP :=
  m.states.enum.foldl
    (fun e is => e.bind fun res =>
      match res.states[is.1]? with
      | none => ⟨res, some Error.OutOfBounds⟩
      | some sd =>
        ⟨⟨res.states.set is.1 (copy_distributions_state is.2 sd).state⟩,
          (copy_distributions_state is.2 sd).error⟩)
    ⟨result, none⟩

/-- `RMDP::copy_into`. -/
def RMDP.copy_into (m : RMDP) (result : RMDP) : Effect RMDP :=
  (copy_transitions m ⟨result, none⟩).bind (copy_distributions m)

/-- `RMDP::copy`: the new object is returned only if nothing was thrown. -/
def RMDP.copy (m : RMDP) : Except Error RMDP :=
  match (m.copy_into (RMDP.withStates m.states.length)).error with
  | some e => Except.error e
  | none => Except.ok (m.copy_into (RMDP.withStates m.states.length)).state

/-! ## RMDP: CSV at record level (`RMDP.cpp` lines 266-382)

Text formatting and parsing are not modelled: a line is the record of its six
fields, the numeric fields exact. -/

/-- One CSV line: `idstatefrom,idaction,idoutcome,idstateto,probability,reward`. -/
structure Record where
  idstatefrom : Int
  idaction : Int
  idoutcome : Int
  idstateto : Int
  probability : ℚ
  reward : ℚ
deriving DecidableEq, Repr

/-- `RMDP::transitions_to_csv` (the lines after the optional header): one line
`i,j,k,indices[l],probabilities[l],rewards[l]` per stored branch. -/
def RMDP.transitions_to_csv (m : RMDP) : Effect (List Record) :=
  for_each_transition m
    (fun i j k t e =>
      for_each_branch t (fun out dst p r => ⟨out ++ [⟨i, j, k, dst, p, r⟩], none⟩) e)
    ⟨[], none⟩

/-- `RMDP::transitions_from_csv` on the lines after the optional header: every
record is passed to `add_transition`, starting from `RMDP()`. -/
def RMDP.transitions_from_csv (lines : List Record) : Effect RMDP :=
  lines.foldl
    (fun e rec => e.bind fun res =>
      res.add_transition rec.idstatefrom rec.idaction rec.idoutcome rec.idstateto
        rec.probability rec.reward)
    ⟨RMDP.empty, none⟩

/-! ## Data-model invariants and reachability -/

/-- Sizing invariant of a Transition (spec section 3): the three vectors have
the same length. -/
def Transition.Sized (t : Transition) : Prop :=
  t.probabilities.length = t.indices.length ∧ t.rewards.length = t.indices.length

instance (t : Transition) : Decidable t.Sized := by
  unfold Transition.Sized; infer_instance

/-- Every Transition of the RMDP satisfies the sizing invariant. -/
def RMDP.Sized (m : RMDP) : Prop :=
  ∀ s ∈ m.states, ∀ a ∈ s.actions, ∀ t ∈ a.outcomes, t.Sized

instance (m : RMDP) : Decidable m.Sized := by
  unfold RMDP.Sized; infer_instance

/-- Data-model invariant of spec section 3 for the whole RMDP: in every
Transition the three vectors have the same length and the successor ids are
non-negative. -/
def RMDP.WellFormed (m : RMDP) : Prop :=
  ∀ s ∈ m.states, ∀ a ∈ s.actions, ∀ t ∈ a.outcomes, t.Sized ∧ ∀ x ∈ t.indices, 0 ≤ x

instance (m : RMDP) : Decidable m.WellFormed := by
  unfold RMDP.WellFormed; infer_instance

/-- RMDPs built from the empty RMDP by the public operations.  A call of
`add_transition` counts when it succeeds, and also when it is rejected for a
negative state or action id (it then leaves at most new empty states behind);
the setters and `normalize` count with whatever they leave behind, also when
they throw half-way.  Left out is the call of `add_transition` that is
rejected for a negative outcome id after the State has grown its action
vector: it leaves a last action without outcomes behind (`afterRejectedAdd`),
which `Built` counts and on which `copy` fails. -/
inductive Reachable : RMDP → Prop where
  | empty : Reachable RMDP.empty
  | add_transition (m : RMDP) (s a o dst : Int) (p r : ℚ) :
      Reachable m → (m.add_transition s a o dst p r).error = none →
      Reachable (m.add_transition s a o dst p r).state
  | add_transition_rejected (m : RMDP) (s a o dst : Int) (p r : ℚ) :
      Reachable m → s < 0 ∨ dst < 0 ∨ a < 0 →
      Reachable (m.add_transition s a o dst p r).state
  | set_reward (m : RMDP) (s a o k : Int) (r : ℚ) :
      Reachable m → Reachable (m.set_reward s a o k r).state
  | set_distribution (m : RMDP) (tol : ℚ) (s a : Int) (dist : List ℚ) (t : ℚ) :
      Reachable m → Reachable (m.set_distribution tol s a dist t).state
  | set_threshold (m : RMDP) (s a : Int) (t : Prec) :
      Reachable m → Reachable (m.set_threshold s a t).state
  | set_uniform_thresholds (m : RMDP) (t : ℚ) :
      Reachable m → Reachable (m.set_uniform_thresholds t).state
  | set_uniform_distribution (m : RMDP) (tol : ℚ) (t : ℚ) :
      Reachable m → Reachable (m.set_uniform_distribution tol t).state
  | normalize (m : RMDP) :
      Reachable m → Reachable m.normalize.state

/-- The Transition stored at `(s, a, o)`, an empty one if there is none. -/
def RMDP.transitionD (m : RMDP) (s a o : Nat) : Transition :=
  (((m.states.getD s default).actions.getD a default).outcomes.getD o default)

/-- A count, with a failed query counted as 0. -/
def countOr0 (x : Except Error Int) : Int :=
  match x with
  | Except.ok n => n
  | Except.error _ => 0

/-- Scenario S2 after its first call: `add_transition(0,0,0,1,0.5,1.0)` on the
empty RMDP. -/
def scenarioS2a : RMDP := (RMDP.empty.add_transition 0 0 0 1 (1/2) 1).state

/-- Scenario S2: `add_transition(0,0,0,1,0.5,1.0)` then
`add_transition(0,0,0,2,0.5,2.0)`. -/
def scenarioS2 : RMDP := (scenarioS2a.add_transition 0 0 0 2 (1/2) 2).state

/-- Scenario S3: `add_transition(2,1,0,2,2.0,0.0)` on the empty RMDP. -/
def scenarioS3 : RMDP := (RMDP.empty.add_transition 2 1 0 2 2 0).state

/-- The State stored at `s`, an empty one if there is none. -/
def RMDP.stateD (m : RMDP) (s : Nat) : State := m.states.getD s default

/-- The Action stored at `(s, a)`, an empty one if there is none. -/
def RMDP.actionD (m : RMDP) (s a : Nat) : Action := (m.stateD s).actions.getD a default

/-- The state id is neither negative nor `≥` the number of states. -/
def RMDP.validState (m : RMDP) (s : Int) : Prop := 0 ≤ s ∧ s < (m.states.length : Int)

/-- The state id is valid and the action id is neither negative nor `≥` the
number of actions of that state. -/
def RMDP.validAction (m : RMDP) (s a : Int) : Prop :=
  m.validState s ∧ 0 ≤ a ∧ a < ((m.stateD s.toNat).actions.length : Int)

/-- State and action ids are valid and the outcome id is neither negative nor
`≥` the number of outcomes of that action. -/
def RMDP.validOutcome (m : RMDP) (s a o : Int) : Prop :=
  m.validAction s a ∧ 0 ≤ o ∧ o < ((m.actionD s.toNat a.toNat).outcomes.length : Int)

/-- State, action and outcome ids are valid and the sample id is neither
negative nor `≥` the number of branches of that outcome. -/
def RMDP.validSample (m : RMDP) (s a o k : Int) : Prop :=
  m.validOutcome s a o ∧ 0 ≤ k ∧
    k < ((m.transitionD s.toNat a.toNat o.toNat).indices.length : Int)

instance (m : RMDP) (s : Int) : Decidable (m.validState s) := by
  unfold RMDP.validState; infer_instance

instance (m : RMDP) (s a : Int) : Decidable (m.validAction s a) := by
  unfold RMDP.validAction; infer_instance

instance (m : RMDP) (s a o : Int) : Decidable (m.validOutcome s a o) := by
  unfold RMDP.validOutcome; infer_instance

instance (m : RMDP) (s a o k : Int) : Decidable (m.validSample s a o k) := by
  unfold RMDP.validSample; infer_instance

/-! ## Stored branches in lexicographic order -/

/-- Concatenation of `f i x` over the elements `x` of a list with their
positions `i`, counted from `off`. -/
def concatIdx {α β : Type} (f : Nat → α → List β) : Nat → List α → List β
  | _, [] => []
  | off, x :: xs => f off x ++ concatIdx f (off + 1) xs

/-- The branches of the Transition stored at `(i, j, k)` as records, in branch
order. -/
def Transition.records (i j k : Nat) (t : Transition) : List Record :=
  (List.zip t.indices (List.zip t.probabilities t.rewards)).map
    fun x => ⟨i, j, k, x.1, x.2.1, x.2.2⟩

/-- The branches of the Action stored at `(i, j)`, outcome by outcome. -/
def Action.records (i j : Nat) (a : Action) : List Record :=
  concatIdx (fun k t => t.records i j k) 0 a.outcomes

/-- The branches of the State stored at `i`, action by action. -/
def State.records (i : Nat) (s : State) : List Record :=
  concatIdx (fun j a => a.records i j) 0 s.actions

/-- All stored branches `(s, a, o, s', p, r)` of the RMDP in lexicographic
(state, action, outcome, branch) order, as the spec words the export. -/
def RMDP.branches (m : RMDP) : List Record :=
  concatIdx (fun i s => s.records i) 0 m.states

/-- Passing a list of records to `add_transition` one after the other, starting
from `init`; an error stops the sequence. -/
def RMDP.replay (init : RMDP) (lines : List Record) : Effect RMDP :=
  lines.foldl
    (fun e rec => e.bind fun res =>
      res.add_transition rec.idstatefrom rec.idaction rec.idoutcome rec.idstateto
        rec.probability rec.reward)
    ⟨init, none⟩

/-- Lexicographic order of the keys `(state, action, outcome)` of two records. -/
def Record.keyLe (x y : Record) : Prop :=
  x.idstatefrom < y.idstatefrom ∨
    (x.idstatefrom = y.idstatefrom ∧
      (x.idaction < y.idaction ∨ (x.idaction = y.idaction ∧ x.idoutcome ≤ y.idoutcome)))

instance (x y : Record) : Decidable (x.keyLe y) := by
  unfold Record.keyLe; infer_instance

/-- The last element of the list, if there is one, satisfies `P`. -/
def Trimmed {α : Type} (P : α → Prop) (l : List α) : Prop :=
  ∀ x, l.getLast? = some x → P x

/-- Shape of a Transition in an RMDP with `n` states: sizing invariant and
successor ids within `[0, n)`. -/
def Transition.Canon (n : Nat) (t : Transition) : Prop :=
  t.Sized ∧ ∀ x ∈ t.indices, 0 ≤ x ∧ x < (n : Int)

/-- Shape of an Action built by `add_transition`: every outcome is well shaped
and the last outcome, if any, has a branch. -/
def Action.Canon (n : Nat) (a : Action) : Prop :=
  (∀ t ∈ a.outcomes, t.Canon n) ∧ Trimmed (fun t : Transition => t.indices ≠ []) a.outcomes

/-- Shape of a State built by `add_transition`: every action is well shaped and
the last action, if any, has an outcome. -/
def State.Canon (n : Nat) (s : State) : Prop :=
  (∀ a ∈ s.actions, a.Canon n) ∧ Trimmed (fun a : Action => a.outcomes ≠ []) s.actions

/-- Shape of an RMDP built by `add_transition`. -/
def RMDP.Canon (m : RMDP) : Prop := ∀ s ∈ m.states, s.Canon m.states.length

/-- The outcomes of all actions of a state, without distributions and
thresholds. -/
def State.shape (s : State) : List (List Transition) := s.actions.map Action.outcomes

/-- The transition tensor of the RMDP, without distributions and thresholds. -/
def RMDP.shape (m : RMDP) : List (List (List Transition)) := m.states.map State.shape

/-- Two Transitions with the same successor ids and equally long probability
and reward vectors. -/
def Transition.SameForm (t t' : Transition) : Prop :=
  t'.indices = t.indices ∧ t'.probabilities.length = t.probabilities.length ∧
    t'.rewards.length = t.rewards.length

/-- Two Actions whose outcomes have pairwise the same form. -/
def Action.SameForm (a a' : Action) : Prop :=
  List.Forall₂ Transition.SameForm a.outcomes a'.outcomes

/-- Two States whose actions have pairwise the same form. -/
def State.SameForm (s s' : State) : Prop := List.Forall₂ Action.SameForm s.actions s'.actions

/-- Two RMDPs whose states have pairwise the same form: they differ at most in
probabilities, rewards, distributions and thresholds. -/
def RMDP.SameForm (m m' : RMDP) : Prop := List.Forall₂ State.SameForm m.states m'.states

/-- Scenario S3 followed by `set_threshold(2,1,1.0)`: state 2 has the empty
action 0 and the action 1 with one branch and threshold 1. -/
def scenarioS3t : RMDP := (scenarioS3.set_threshold 2 1 (Prec.num 1)).state

/-- The RMDP a rejected `add_transition(0,0,-1,0,1.0,0.0)` leaves behind on the
empty RMDP: one state with one action without outcomes. -/
def afterRejectedAdd : RMDP := (RMDP.empty.add_transition 0 0 (-1) 0 1 0).state

/-- Calling `add_transition` on the entries `0, 1, ..., n-1` of the six vectors,
in order (the bulk add as the spec words it). -/
def RMDP.add_sequentially (m : RMDP) (n : Nat) (fromids actionids outcomeids toids : List Int)
    (probs rews : List ℚ) : Effect RMDP :=
  (List.range n).foldl
    (fun e (l : Nat) => e.bind fun cur =>
      cur.add_transition (fromids.getD l 0) (actionids.getD l 0) (outcomeids.getD l 0)
        (toids.getD l 0) (probs.getD l 0) (rews.getD l 0))
    ⟨m, none⟩

/-- Scenario S5: an action with two outcomes, `add_transition(0,0,0,1,0.5,1.0)`
then `add_transition(0,0,1,2,0.5,2.0)`. -/
def scenarioS5 : RMDP := (scenarioS2a.add_transition 0 0 1 2 (1/2) 2).state

/-- A Transition with one branch of probability 0:
`add_transition(0,0,0,0,0.0,0.0)` on the empty RMDP. -/
def zeroSumRMDP : RMDP := (RMDP.empty.add_transition 0 0 0 0 0 0).state

/-- RMDPs built from the empty RMDP by the public operations of `RMDP.cpp` that
create or change an RMDP.  Every call counts with the RMDP it leaves behind,
whether it returns or throws: `add_transition` (also when rejected for a
negative id after a vector has grown), `add_transition_d`, `add_transitions`,
the setters, `normalize`, the record-level CSV import, and `copy` when it
returns an RMDP. -/
inductive Built : RMDP → Prop where
  | empty : Built RMDP.empty
  | add_transition (m : RMDP) (s a o dst : Int) (p r : ℚ) :
      Built m → Built (m.add_transition s a o dst p r).state
  | add_transition_d (m : RMDP) (s a dst : Int) (p r : ℚ) :
      Built m → Built (m.add_transition_d s a dst p r).state
  | add_transitions (m : RMDP) (fromids actionids outcomeids toids : List Int)
      (probs rews : List ℚ) :
      Built m → Built (m.add_transitions fromids actionids outcomeids toids probs rews).state
  | set_reward (m : RMDP) (s a o k : Int) (r : ℚ) :
      Built m → Built (m.set_reward s a o k r).state
  | set_distribution (m : RMDP) (tol : ℚ) (s a : Int) (dist : List ℚ) (t : ℚ) :
      Built m → Built (m.set_distribution tol s a dist t).state
  | set_threshold (m : RMDP) (s a : Int) (t : Prec) :
      Built m → Built (m.set_threshold s a t).state
  | set_uniform_thresholds (m : RMDP) (t : ℚ) :
      Built m → Built (m.set_uniform_thresholds t).state
  | set_uniform_distribution (m : RMDP) (tol : ℚ) (t : ℚ) :
      Built m → Built (m.set_uniform_distribution tol t).state
  | normalize (m : RMDP) :
      Built m → Built m.normalize.state
  | transitions_from_csv (lines : List Record) :
      Built (RMDP.transitions_from_csv lines).state
  | copy (m m' : RMDP) :
      Built m → m.copy = Except.ok m' → Built m'

/-- Shape of an Action in a built RMDP: every outcome satisfies the sizing
invariant, the last outcome, if any, has a branch, and the distribution has at
most as many entries as there are outcomes. -/
def Action.Shaped (a : Action) : Prop :=
  (∀ t ∈ a.outcomes, t.Sized) ∧ Trimmed (fun t : Transition => t.indices ≠ []) a.outcomes ∧
    a.distribution.length ≤ a.outcomes.length

/-- Every action of every state has the shape of a built action. -/
def RMDP.Shaped (m : RMDP) : Prop := ∀ s ∈ m.states, ∀ a ∈ s.actions, a.Shaped

/-- Scenario for the distribution shape: `add_transition(0,0,0,0,1.0,0.0)`,
`set_distribution(0,0,[1.0],0.0)` with tolerance 0, then
`add_transition(0,0,1,0,1.0,0.0)`, which introduces outcome 1. -/
def staleDistribution : RMDP :=
  ((((RMDP.empty.add_transition 0 0 0 0 1 0).state.set_distribution 0 0 0 [1] 0).state
    ).add_transition 0 0 1 0 1 0).state

/-! ## Simulator (`Simulation.hpp`)

The template parameters `DState`, `Action`, `EState` are the types `D`, `A`,
`E`.  The static methods of the model provider `Simulator` and the `policy`
are arbitrary C++ functions: they may keep state and draw random numbers of
their own, so each takes and returns the state `W` of everything outside the
simulator.  A provider that throws yields no samples and is not modelled.  The
values that `distribution(generator)` returns, in the order of the calls, are
the sequence `draw`; `long` is `Int`, `prec_t` is `ℚ`. -/

/-- `ExpSample` (lines 11-29). -/
structure ExpSample (D E : Type) where
  expstate_from : E
  decstate_to : D
  reward : ℚ
  weight : ℚ
  step : Int
  run : Int
deriving DecidableEq, Repr

/-- `DecSample` (lines 31-48). -/
structure DecSample (D A E : Type) where
  decstate_from : D
  action : A
  expstate_to : E
  step : Int
  run : Int
deriving DecidableEq, Repr

/-- `Samples` (lines 50-88). -/
structure Samples (D A E : Type) where
  decsamples : List (DecSample D A E)
  initial : List D
  expsamples : List (ExpSample D E)
deriving DecidableEq, Repr

/-- `Samples::add_dec`. -/
def Samples.add_dec {D A E : Type} (s : Samples D A E) (decsample : DecSample D A E) :
    Samples D A E :=
  { s with decsamples := s.decsamples ++ [decsample] }

/-- `Samples::add_initial`. -/
def Samples.add_initial {D A E : Type} (s : Samples D A E) (decstate : D) : Samples D A E :=
  { s with initial := s.initial ++ [decstate] }

/-- `Samples::add_exp`. -/
def Samples.add_exp {D A E : Type} (s : Samples D A E) (expsample : ExpSample D E) :
    Samples D A E :=
  { s with expsamples := s.expsamples ++ [expsample] }

/-- The static methods that `simulate_stateless` calls on the model provider
(lines 94-97), each on the outside state `W`. -/
structure Simulator (W D A E : Type) where
  init_state : W → D × W
  transition_dec : D → A → W → E × W
  transition_exp : E → W → (ℚ × D) × W
  end_condition : D → W → Bool × W

/-- The local variables of `simulate_stateless` that live across iterations:
`samples`, `transitions`, the number of values drawn from `generator`, and the
outside state. -/
structure SimLocals (W D A E : Type) where
  samples : Samples D A E
  transitions : Int
  generator : Nat
  world : W

/-- The inner loop `for (step = 0; step < horizon; step++)` (lines 126-152) from
the iteration `step` on, with `n = horizon - step` iterations left, for the
run `run` in the decision state `decstate`.  Each `break` returns the locals. -/
def step_loop {W D A E : Type} (sim : Simulator W D A E) (policy : D → W → A × W)
    (draw : Nat → ℚ) (prob_term : ℚ) (tran_limit : Int) (run : Int) :
    Nat → Int → D → SimLocals W D A E → SimLocals W D A E
  | 0, _, _, l => l
  | n + 1, step, decstate, l =>
    let ended := sim.end_condition decstate l.world
    if ended.1 then { l with world := ended.2 }
    else if tran_limit > 0 ∧ l.transitions > tran_limit then { l with world := ended.2 }
    else
      let action := policy decstate ended.2
      let expstate := sim.transition_dec decstate action.1 action.2
      let samples1 := l.samples.add_dec ⟨decstate, action.1, expstate.1, step, run⟩
      let rewardstate := sim.transition_exp expstate.1 expstate.2
      let reward := rewardstate.1.1
      let decstate1 := rewardstate.1.2
      let samples2 := samples1.add_exp ⟨expstate.1, decstate1, reward, 1, step, run⟩
      if prob_term > 0 then
        if draw l.generator ≤ prob_term then
          ⟨samples2, l.transitions, l.generator + 1, rewardstate.2⟩
        else
          step_loop sim policy draw prob_term tran_limit run n (step + 1) decstate1
            ⟨samples2, l.transitions + 1, l.generator + 1, rewardstate.2⟩
      else
        step_loop sim policy draw prob_term tran_limit run n (step + 1) decstate1
          ⟨samples2, l.transitions + 1, l.generator, rewardstate.2⟩

/-- The outer loop `for (run = 0; run < runs; run++)` (lines 121-156) from the
run `run` on, with `n = runs - run` runs left. -/
def run_loop {W D A E : Type} (sim : Simulator W D A E) (policy : D → W → A × W)
    (draw : Nat → ℚ) (horizon : Int) (prob_term : ℚ) (tran_limit : Int) :
    Nat → Int → SimLocals W D A E → SimLocals W D A E
  | 0, _, l => l
  | n + 1, run, l =>
    let decstate := sim.init_state l.world
    let l1 : SimLocals W D A E :=
      { l with samples := l.samples.add_initial decstate.1, world := decstate.2 }
    let l2 := step_loop sim policy draw prob_term tran_limit run horizon.toNat 0 decstate.1 l1
    if tran_limit > 0 ∧ l2.transitions > tran_limit then l2
    else run_loop sim policy draw horizon prob_term tran_limit n (run + 1) l2

/-- `simulate_stateless` (lines 101-159); `world` is the outside state at the
call. -/
def simulate_stateless {W D A E : Type} (sim : Simulator W D A E) (policy : D → W → A × W)
    (draw : Nat → ℚ) (world : W) (horizon runs : Int) (prob_term : ℚ) (tran_limit : Int) :
    Samples D A E :=
  (run_loop sim policy draw horizon prob_term tran_limit runs.toNat 0
    ⟨⟨[], [], []⟩, 0, 0, world⟩).samples

/-- The simulator of scenario S6: `init_state` returns 0, `transition_dec` pairs
state and action, `transition_exp((d,a)) = (1.0, d+1)`, `end_condition(d)` is
`d ≥ 3`; nothing outside. -/
def simulatorS6 : Simulator Unit Int Int (Int × Int) where
  init_state := fun w => (0, w)
  transition_dec := fun d a w => ((d, a), w)
  transition_exp := fun e w => ((1, e.1 + 1), w)
  end_condition := fun d w => (decide (d ≥ 3), w)

/-- The policy of scenario S6: constant action 0. -/
def policyS6 : Int → Unit → Int × Unit := fun _ w => (0, w)

/-- A simulator that never ends a run: `end_condition` is always false, the
decision state counts the transitions. -/
def simulatorForever : Simulator Unit Int Int (Int × Int) where
  init_state := fun w => (0, w)
  transition_dec := fun d a w => ((d, a), w)
  transition_exp := fun e w => ((1, e.1 + 1), w)
  end_condition := fun _ w => (false, w)

/-- The samples of one run: the recorded initial state, the DecSamples and the
ExpSamples of the run, each in the order they were emitted. -/
structure RunBlock (D A E : Type) where
  initial : D
  decs : List (DecSample D A E)
  exps : List (ExpSample D E)

/-- The DecSamples and ExpSamples emitted by the run `run` from the iteration
`step` on, in the decision state `d`: they come in pairs with the run `run`
and the steps `step`, `step + 1`, ...; a DecSample starts where the run stands,
its ExpSample starts at the expectation state it leads to, has weight 1 and
leads to the decision state where the run stands next. -/
def ChainFrom {D A E : Type} (run : Int) :
    Int → D → List (DecSample D A E) → List (ExpSample D E) → Prop
  | _, _, [], [] => True
  | step, d, ds :: dt, es :: et =>
    ds.run = run ∧ ds.step = step ∧ ds.decstate_from = d ∧
      es.run = run ∧ es.step = step ∧ es.expstate_from = ds.expstate_to ∧ es.weight = 1 ∧
      ChainFrom run (step + 1) es.decstate_to dt et
  | _, _, _ :: _, [] => False
  | _, _, [], _ :: _ => False

/-- The blocks are the samples of the runs `run`, `run + 1`, ..., each a chain
from its initial state and step 0 with at most `horizon` ExpSamples. -/
def BlocksFrom {D A E : Type} (horizon : Int) : Int → List (RunBlock D A E) → Prop
  | _, [] => True
  | run, b :: bs =>
    ChainFrom run 0 b.initial b.decs b.exps ∧ b.exps.length ≤ horizon.toNat ∧
      BlocksFrom horizon (run + 1) bs

/-! ### A deterministic model and policy

The values a provider and a policy without state and without randomness
return: `d0` for `init_state()`, `pol d` for `policy(d)`, `tdec d a` for
`transition_dec(d, a)`, `texp e` for `transition_exp(e)` and `endc d` for
`end_condition(d)`. -/

/-- The decision state that follows `d`: the second component of
`transition_exp(transition_dec(d, policy(d)))`. -/
def next_decstate {D A E : Type} (pol : D → A) (tdec : D → A → E) (texp : E → ℚ × D)
    (d : D) : D :=
  (texp (tdec d (pol d))).2

/-- The decision state `k` steps after `d0`. -/
def trajectory {D A E : Type} (pol : D → A) (tdec : D → A → E) (texp : E → ℚ × D)
    (d0 : D) (k : Nat) : D :=
  (next_decstate pol tdec texp)^[k] d0

/-- The number of steps from `d`, at most `n`, before `end_condition` holds:
the smaller of `n` and the least number of steps after which it holds. -/
def run_length {D A E : Type} (endc : D → Bool) (pol : D → A) (tdec : D → A → E)
    (texp : E → ℚ × D) : Nat → D → Nat
  | 0, _ => 0
  | n + 1, d =>
    if endc d then 0 else run_length endc pol tdec texp n (next_decstate pol tdec texp d) + 1

/-- The DecSample of step `k` of run `run` along the trajectory from `d0`. -/
def trajectory_dec {D A E : Type} (pol : D → A) (tdec : D → A → E) (texp : E → ℚ × D)
    (d0 : D) (run : Int) (k : Nat) : DecSample D A E :=
  ⟨trajectory pol tdec texp d0 k, pol (trajectory pol tdec texp d0 k),
    tdec (trajectory pol tdec texp d0 k) (pol (trajectory pol tdec texp d0 k)), k, run⟩

/-- The ExpSample of step `k` of run `run` along the trajectory from `d0`. -/
def trajectory_exp {D A E : Type} (pol : D → A) (tdec : D → A → E) (texp : E → ℚ × D)
    (d0 : D) (run : Int) (k : Nat) : ExpSample D E :=
  ⟨tdec (trajectory pol tdec texp d0 k) (pol (trajectory pol tdec texp d0 k)),
    trajectory pol tdec texp d0 (k + 1),
    (texp (tdec (trajectory pol tdec texp d0 k) (pol (trajectory pol tdec texp d0 k)))).1,
    1, k, run⟩

/-! ## Structural form of a successful `add_transition`

For non-negative ids the three levels of `add_transition` never fail and are
"pad with defaults up to the id, then modify the addressed element". -/

/-- Pad `v` with default elements up to length `n` (no-op if long enough). -/
def growTo {α : Type} [Inhabited α] (v : List α) (n : Nat) : List α :=
  v ++ List.replicate (n - v.length) default

/-- Structural form of `Action::add_outcome` for an outcome id `o ≥ 0`. -/
def Action.addO (a : Action) (o : Nat) (toid : Int) (p r : ℚ) : Action :=
  { a with outcomes := (growTo a.outcomes (o + 1)).modify (fun t => t.add toid p r) o }

/-- Structural form of `State::add_action` for ids `a, o ≥ 0`. -/
def State.addA (s : State) (a o : Nat) (toid : Int) (p r : ℚ) : State :=
  ⟨(growTo s.actions (a + 1)).modify (fun x => x.addO o toid p r) a⟩

/-- Structural form of `RMDP::add_transition` for ids `s, a, o, s' ≥ 0`. -/
def RMDP.addT (m : RMDP) (s a o dst : Nat) (p r : ℚ) : RMDP :=
  ⟨(growTo m.states (max s dst + 1)).modify (fun x => x.addA a o (dst : Int) p r) s⟩

theorem length_growTo {α : Type} [Inhabited α] (v : List α) (n : Nat) :
    (growTo v n).length = max v.length n := by
  simp only [growTo, List.length_append, List.length_replicate]
  omega

theorem growTo_of_le {α : Type} [Inhabited α] (v : List α) (n : Nat) (h : n ≤ v.length) :
    growTo v n = v := by
  simp [growTo, Nat.sub_eq_zero_of_le h]

theorem getElem?_growTo {α : Type} [Inhabited α] (v : List α) (n i : Nat) :
    (growTo v n)[i]? = if i < v.length then v[i]? else if i < n then some default else none := by
  unfold growTo
  by_cases h : i < v.length
  · rw [List.getElem?_append_left h, if_pos h]
  · rw [List.getElem?_append_right (Nat.le_of_not_lt h), if_neg h]
    by_cases h2 : i < n
    · rw [if_pos h2, List.getElem?_replicate, if_pos (by omega)]
    · rw [if_neg h2, List.getElem?_replicate, if_neg (by omega)]

theorem resize_guard_eq_growTo {α : Type} [Inhabited α] (v : List α) (k : Int) (hk : 0 ≤ k) :
    (if k ≥ (v.length : Int) then resize v (k.toNat + 1) else v) = growTo v (k.toNat + 1) := by
  split
  · next h =>
    have : v.length ≤ k.toNat + 1 := by omega
    simp [resize, growTo, List.take_of_length_le this]
  · next h =>
    exact (growTo_of_le v _ (by omega)).symm

theorem set_eq_modify_of_getElem? {α : Type} (l : List α) (i : Nat) (x : α) (f : α → α)
    (h : l[i]? = some x) : l.set i (f x) = l.modify f i := by
  apply List.ext_getElem?
  intro j
  rw [List.getElem?_set, List.getElem?_modify]
  by_cases hij : i = j
  · subst hij
    have hlt : i < l.length := by
      rcases List.getElem?_eq_some_iff.mp h with ⟨hl, _⟩
      exact hl
    simp [h, hlt]
  · simp [hij]

theorem Action.add_outcome_nonneg (a : Action) (o : Int) (ho : 0 ≤ o) (toid : Int) (p r : ℚ) :
    a.add_outcome o toid p r = ⟨a.addO o.toNat toid p r, none⟩ := by
  unfold Action.add_outcome
  rw [resize_guard_eq_growTo _ _ ho]
  have hlt : o.toNat < (growTo a.outcomes (o.toNat + 1)).length := by
    rw [length_growTo]; omega
  simp only [not_lt.mpr ho, if_false]
  rw [List.getElem?_eq_getElem hlt]
  simp only [Action.addO]
  rw [set_eq_modify_of_getElem? _ _ _ (fun t => t.add toid p r) (List.getElem?_eq_getElem hlt)]

theorem State.add_action_nonneg (s : State) (a o : Int) (ha : 0 ≤ a) (ho : 0 ≤ o)
    (toid : Int) (p r : ℚ) :
    s.add_action a o toid p r = ⟨s.addA a.toNat o.toNat toid p r, none⟩ := by
  unfold State.add_action
  rw [resize_guard_eq_growTo _ _ ha]
  have hlt : a.toNat < (growTo s.actions (a.toNat + 1)).length := by
    rw [length_growTo]; omega
  simp only [not_lt.mpr ha, if_false]
  rw [List.getElem?_eq_getElem hlt]
  simp only [Action.add_outcome_nonneg _ _ ho, State.addA]
  rw [set_eq_modify_of_getElem? _ _ _ (fun x => x.addO o.toNat toid p r)
    (List.getElem?_eq_getElem hlt)]

theorem RMDP.add_transition_nonneg (m : RMDP) (s a o dst : Int) (hs : 0 ≤ s) (ha : 0 ≤ a)
    (ho : 0 ≤ o) (hto : 0 ≤ dst) (p r : ℚ) :
    m.add_transition s a o dst p r = ⟨m.addT s.toNat a.toNat o.toNat dst.toNat p r, none⟩ := by
  unfold RMDP.add_transition
  simp only [not_lt.mpr hs, not_lt.mpr hto, if_false]
  rw [resize_guard_eq_growTo _ _ (le_trans hs (le_max_left s dst))]
  have hmax : (max s dst).toNat = max s.toNat dst.toNat := by omega
  rw [hmax]
  have hlt : s.toNat < (growTo m.states (max s.toNat dst.toNat + 1)).length := by
    rw [length_growTo]; omega
  rw [List.getElem?_eq_getElem hlt]
  simp only [State.add_action_nonneg _ _ _ ha ho, RMDP.addT, Int.toNat_of_nonneg hto]
  rw [set_eq_modify_of_getElem? _ _ _ (fun x => x.addA a.toNat o.toNat dst p r)
    (List.getElem?_eq_getElem hlt)]

theorem getElem?_growTo_of_lt {α : Type} [Inhabited α] (v : List α) (n i : Nat)
    (h : i < max v.length n) : (growTo v n)[i]? = some (v.getD i default) := by
  rw [getElem?_growTo]
  by_cases h1 : i < v.length
  · rw [if_pos h1, List.getD_eq_getElem?_getD, List.getElem?_eq_getElem h1]
    rfl
  · rw [if_neg h1, if_pos (by omega), List.getD_eq_getElem?_getD,
      List.getElem?_eq_none (by omega)]
    rfl

theorem Action.addO_outcomes_length (a : Action) (o : Nat) (toid : Int) (p r : ℚ) :
    (a.addO o toid p r).outcomes.length = max a.outcomes.length (o + 1) := by
  simp [Action.addO, length_growTo]

theorem Action.addO_getElem? (a : Action) (o : Nat) (toid : Int) (p r : ℚ) :
    (a.addO o toid p r).outcomes[o]? = some ((a.outcomes.getD o default).add toid p r) := by
  simp only [Action.addO, List.getElem?_modify_eq]
  rw [getElem?_growTo_of_lt _ _ _ (by omega)]
  rfl

theorem State.addA_actions_length (s : State) (a o : Nat) (toid : Int) (p r : ℚ) :
    (s.addA a o toid p r).actions.length = max s.actions.length (a + 1) := by
  simp [State.addA, length_growTo]

theorem State.addA_getElem? (s : State) (a o : Nat) (toid : Int) (p r : ℚ) :
    (s.addA a o toid p r).actions[a]? = some ((s.actions.getD a default).addO o toid p r) := by
  simp only [State.addA, List.getElem?_modify_eq]
  rw [getElem?_growTo_of_lt _ _ _ (by omega)]
  rfl

theorem RMDP.addT_states_length (m : RMDP) (s a o dst : Nat) (p r : ℚ) :
    (m.addT s a o dst p r).states.length = max m.states.length (max s dst + 1) := by
  simp [RMDP.addT, length_growTo]

theorem RMDP.addT_getElem? (m : RMDP) (s a o dst : Nat) (p r : ℚ) :
    (m.addT s a o dst p r).states[s]? =
      some ((m.states.getD s default).addA a o (dst : Int) p r) := by
  simp only [RMDP.addT, List.getElem?_modify_eq]
  rw [getElem?_growTo_of_lt _ _ _ (by omega)]
  rfl

/-! ## Readers at indices that exist -/

theorem index_natCast {α : Type} (v : List α) (i : Nat) (x : α) (h : v[i]? = some x) :
    index v (i : Int) = Except.ok x := by
  simp [index, h]

theorem RMDP.action_count_of (m : RMDP) (s : Nat) (st : State) (hs : m.states[s]? = some st) :
    m.action_count s = Except.ok (st.actions.length : Int) := by
  have h1 : s < m.states.length := (List.getElem?_eq_some_iff.mp hs).1
  have : ¬ ((s : Int) < 0 ∨ (s : Int) ≥ (m.states.length : Int)) := by omega
  simp only [RMDP.action_count, if_neg this, index_natCast _ _ _ hs]

theorem RMDP.outcome_count_of (m : RMDP) (s a : Nat) (st : State) (ac : Action)
    (hs : m.states[s]? = some st) (ha : st.actions[a]? = some ac) :
    m.outcome_count s a = Except.ok (ac.outcomes.length : Int) := by
  have h1 : s < m.states.length := (List.getElem?_eq_some_iff.mp hs).1
  have h2 : a < st.actions.length := (List.getElem?_eq_some_iff.mp ha).1
  have n1 : ¬ ((s : Int) < 0 ∨ (s : Int) ≥ (m.states.length : Int)) := by omega
  have n2 : ¬ ((a : Int) < 0 ∨ (a : Int) ≥ (st.actions.length : Int)) := by omega
  simp only [RMDP.outcome_count, if_neg n1, index_natCast _ _ _ hs, if_neg n2,
    index_natCast _ _ _ ha]

theorem RMDP.get_transition_of (m : RMDP) (s a o : Nat) (st : State) (ac : Action)
    (t : Transition) (hs : m.states[s]? = some st) (ha : st.actions[a]? = some ac)
    (ho : ac.outcomes[o]? = some t) :
    m.get_transition s a o = Except.ok t := by
  have h1 : s < m.states.length := (List.getElem?_eq_some_iff.mp hs).1
  have h2 : a < st.actions.length := (List.getElem?_eq_some_iff.mp ha).1
  have h3 : o < ac.outcomes.length := (List.getElem?_eq_some_iff.mp ho).1
  have n1 : ¬ ((s : Int) < 0 ∨ (s : Int) ≥ (m.states.length : Int)) := by omega
  have n2 : ¬ ((a : Int) < 0 ∨ (a : Int) ≥ (st.actions.length : Int)) := by omega
  have n3 : ¬ ((o : Int) < 0 ∨ (o : Int) ≥ (ac.outcomes.length : Int)) := by omega
  simp only [RMDP.get_transition, if_neg n1, index_natCast _ _ _ hs, if_neg n2,
    index_natCast _ _ _ ha, if_neg n3, index_natCast _ _ _ ho]

theorem RMDP.transition_count_of (m : RMDP) (s a o : Nat) (st : State) (ac : Action)
    (t : Transition) (hs : m.states[s]? = some st) (ha : st.actions[a]? = some ac)
    (ho : ac.outcomes[o]? = some t) :
    m.transition_count s a o = Except.ok (t.indices.length : Int) := by
  have h1 : s < m.states.length := (List.getElem?_eq_some_iff.mp hs).1
  have h2 : a < st.actions.length := (List.getElem?_eq_some_iff.mp ha).1
  have h3 : o < ac.outcomes.length := (List.getElem?_eq_some_iff.mp ho).1
  have n1 : ¬ ((s : Int) < 0 ∨ (s : Int) ≥ (m.states.length : Int)) := by omega
  have n2 : ¬ ((a : Int) < 0 ∨ (a : Int) ≥ (st.actions.length : Int)) := by omega
  have n3 : ¬ ((o : Int) < 0 ∨ (o : Int) ≥ (ac.outcomes.length : Int)) := by omega
  simp only [RMDP.transition_count, if_neg n1, index_natCast _ _ _ hs, if_neg n2,
    index_natCast _ _ _ ha, if_neg n3, index_natCast _ _ _ ho]

/-! ## C1: grow-on-write -/

/-- C1. Grow-on-write: for non-negative `s, a, o, s'` the call
`add_transition(s,a,o,s',p,r)` succeeds; afterwards `state_count` is
`max(old state_count, max(s,s')+1)`, `action_count(s) ≥ a+1` and
`outcome_count(s,a) ≥ o+1`. -/
theorem add_transition_grow_on_write (m : RMDP) (s a o s' : Int) (p r : ℚ)
    (hs : 0 ≤ s) (ha : 0 ≤ a) (ho : 0 ≤ o) (hs' : 0 ≤ s') :
    (m.add_transition s a o s' p r).error = none ∧
    (m.add_transition s a o s' p r).state.state_count = max m.state_count (max s s' + 1) ∧
    (∃ n, (m.add_transition s a o s' p r).state.action_count s = Except.ok n ∧ a + 1 ≤ n) ∧
    (∃ n, (m.add_transition s a o s' p r).state.outcome_count s a = Except.ok n ∧ o + 1 ≤ n) := by
  rw [RMDP.add_transition_nonneg m s a o s' hs ha ho hs' p r]
  obtain ⟨sn, rfl⟩ := Int.eq_ofNat_of_zero_le hs
  obtain ⟨an, rfl⟩ := Int.eq_ofNat_of_zero_le ha
  obtain ⟨ok, rfl⟩ := Int.eq_ofNat_of_zero_le ho
  obtain ⟨dn, rfl⟩ := Int.eq_ofNat_of_zero_le hs'
  simp only [Int.toNat_ofNat]
  refine ⟨trivial, ?_, ?_, ?_⟩
  · simp only [RMDP.state_count, RMDP.addT_states_length]
    omega
  · refine ⟨_, RMDP.action_count_of _ sn _ (RMDP.addT_getElem? m sn an ok dn p r), ?_⟩
    rw [State.addA_actions_length]
    omega
  · refine ⟨_, RMDP.outcome_count_of _ sn an _ _ (RMDP.addT_getElem? m sn an ok dn p r)
      (State.addA_getElem? _ an ok _ p r), ?_⟩
    rw [Action.addO_outcomes_length]
    omega

/-- Witness for C1: adding `(2,1,0,2)` to the empty RMDP. -/
theorem add_transition_grow_on_write_witness :
    (RMDP.empty.add_transition 2 1 0 2 2 0).error = none ∧
    (RMDP.empty.add_transition 2 1 0 2 2 0).state.state_count
      = max RMDP.empty.state_count (max 2 2 + 1) ∧
    (∃ n, (RMDP.empty.add_transition 2 1 0 2 2 0).state.action_count 2 = Except.ok n
      ∧ (1 : Int) + 1 ≤ n) ∧
    (∃ n, (RMDP.empty.add_transition 2 1 0 2 2 0).state.outcome_count 2 1 = Except.ok n
      ∧ (0 : Int) + 1 ≤ n) :=
  add_transition_grow_on_write RMDP.empty 2 1 0 2 2 0 (by decide) (by decide) (by decide)
    (by decide)

/-! ## C2: append postcondition -/

theorem RMDP.get_reward_of (m : RMDP) (s a o k : Nat) (st : State) (ac : Action)
    (t : Transition) (x : ℚ) (hs : m.states[s]? = some st) (ha : st.actions[a]? = some ac)
    (ho : ac.outcomes[o]? = some t) (hk : t.rewards[k]? = some x) :
    m.get_reward s a o k = Except.ok x := by
  have h1 : k < t.rewards.length := (List.getElem?_eq_some_iff.mp hk).1
  have n1 : ¬ ((k : Int) < 0 ∨ (k : Int) ≥ (t.rewards.length : Int)) := by omega
  simp only [RMDP.get_reward, RMDP.get_transition_of m s a o st ac t hs ha ho, if_neg n1,
    index_natCast _ _ _ hk]

theorem RMDP.get_toid_of (m : RMDP) (s a o k : Nat) (st : State) (ac : Action)
    (t : Transition) (x : Int) (hs : m.states[s]? = some st) (ha : st.actions[a]? = some ac)
    (ho : ac.outcomes[o]? = some t) (h1 : k < t.rewards.length) (hk : t.indices[k]? = some x) :
    m.get_toid s a o k = Except.ok (x : ℚ) := by
  have n1 : ¬ ((k : Int) < 0 ∨ (k : Int) ≥ (t.rewards.length : Int)) := by omega
  simp only [RMDP.get_toid, RMDP.get_transition_of m s a o st ac t hs ha ho, if_neg n1,
    index_natCast _ _ _ hk]

theorem RMDP.get_probability_of (m : RMDP) (s a o k : Nat) (st : State) (ac : Action)
    (t : Transition) (x : ℚ) (hs : m.states[s]? = some st) (ha : st.actions[a]? = some ac)
    (ho : ac.outcomes[o]? = some t) (h1 : k < t.rewards.length)
    (hk : t.probabilities[k]? = some x) :
    m.get_probability s a o k = Except.ok x := by
  have n1 : ¬ ((k : Int) < 0 ∨ (k : Int) ≥ (t.rewards.length : Int)) := by omega
  simp only [RMDP.get_probability, RMDP.get_transition_of m s a o st ac t hs ha ho, if_neg n1,
    index_natCast _ _ _ hk]

theorem getD_default_of_none {α : Type} [Inhabited α] (l : List α) (i : Nat)
    (h : l.length ≤ i) : l.getD i default = default := by
  rw [List.getD_eq_getElem?_getD, List.getElem?_eq_none h]
  rfl

theorem getD_of_getElem? {α : Type} [Inhabited α] (l : List α) (i : Nat) (x : α)
    (h : l[i]? = some x) : l.getD i default = x := by
  rw [List.getD_eq_getElem?_getD, h]
  rfl

theorem getD_mem_or_default {α : Type} [Inhabited α] (l : List α) (i : Nat) :
    l.getD i default ∈ l ∨ l.getD i default = default := by
  by_cases h : i < l.length
  · left
    rw [getD_of_getElem? l i _ (List.getElem?_eq_getElem h)]
    exact List.getElem_mem h
  · right
    exact getD_default_of_none l i (by omega)

theorem RMDP.transitionD_sized (m : RMDP) (hm : m.Sized) (s a o : Nat) :
    (m.transitionD s a o).Sized := by
  unfold RMDP.transitionD
  rcases getD_mem_or_default m.states s with h1 | h1
  · rcases getD_mem_or_default (m.states.getD s default).actions a with h2 | h2
    · rcases getD_mem_or_default ((m.states.getD s default).actions.getD a default).outcomes o
        with h3 | h3
      · exact hm _ h1 _ h2 _ h3
      · rw [h3]; exact ⟨rfl, rfl⟩
    · rw [h2]; exact ⟨rfl, rfl⟩
  · rw [h1]; exact ⟨rfl, rfl⟩

theorem RMDP.countOr0_transition_count (m : RMDP) (s a o : Nat) :
    countOr0 (m.transition_count s a o) = ((m.transitionD s a o).indices.length : Int) := by
  unfold RMDP.transitionD
  by_cases h1 : s < m.states.length
  · have e1 := List.getElem?_eq_getElem h1
    have n1 : ¬ ((s : Int) < 0 ∨ (s : Int) ≥ (m.states.length : Int)) := by omega
    rw [getD_of_getElem? _ _ _ e1]
    by_cases h2 : a < (m.states[s]).actions.length
    · have e2 := List.getElem?_eq_getElem h2
      have n2 : ¬ ((a : Int) < 0 ∨ (a : Int) ≥ ((m.states[s]).actions.length : Int)) := by
        omega
      rw [getD_of_getElem? _ _ _ e2]
      by_cases h3 : o < ((m.states[s]).actions[a]).outcomes.length
      · have e3 := List.getElem?_eq_getElem h3
        rw [getD_of_getElem? _ _ _ e3, RMDP.transition_count_of m s a o _ _ _ e1 e2 e3]
        rfl
      · rw [getD_default_of_none ((m.states[s]).actions[a]).outcomes o (by omega)]
        have n3 : ((o : Int) < 0 ∨ (o : Int) ≥ (((m.states[s]).actions[a]).outcomes.length : Int))
          := by omega
        simp only [RMDP.transition_count, if_neg n1, index_natCast _ _ _ e1, if_neg n2,
          index_natCast _ _ _ e2, if_pos n3]
        rfl
    · rw [getD_default_of_none (m.states[s]).actions a (by omega)]
      have n2 : ((a : Int) < 0 ∨ (a : Int) ≥ ((m.states[s]).actions.length : Int)) := by omega
      simp only [RMDP.transition_count, if_neg n1, index_natCast _ _ _ e1, if_pos n2]
      rfl
  · rw [getD_default_of_none m.states s (by omega)]
    have n1 : ((s : Int) < 0 ∨ (s : Int) ≥ (m.states.length : Int)) := by omega
    simp only [RMDP.transition_count, if_pos n1]
    rfl

/-- C2. Append postcondition: on an RMDP whose Transitions satisfy the sizing
invariant, for non-negative `s, a, o, s'`, after `add_transition(s,a,o,s',p,r)`
the value `transition_count(s,a,o)` is one more than before (a missing outcome
counting as 0) and at the last sample id the readers return `s'`, `p`, `r`. -/
theorem add_transition_appends (m : RMDP) (hm : m.Sized) (s a o s' : Int) (p r : ℚ)
    (hs : 0 ≤ s) (ha : 0 ≤ a) (ho : 0 ≤ o) (hs' : 0 ≤ s') :
    (m.add_transition s a o s' p r).state.transition_count s a o
      = Except.ok (countOr0 (m.transition_count s a o) + 1) ∧
    (m.add_transition s a o s' p r).state.get_toid s a o (countOr0 (m.transition_count s a o))
      = Except.ok (s' : ℚ) ∧
    (m.add_transition s a o s' p r).state.get_probability s a o
      (countOr0 (m.transition_count s a o)) = Except.ok p ∧
    (m.add_transition s a o s' p r).state.get_reward s a o
      (countOr0 (m.transition_count s a o)) = Except.ok r := by
  rw [RMDP.add_transition_nonneg m s a o s' hs ha ho hs' p r]
  obtain ⟨sn, rfl⟩ := Int.eq_ofNat_of_zero_le hs
  obtain ⟨an, rfl⟩ := Int.eq_ofNat_of_zero_le ha
  obtain ⟨ok, rfl⟩ := Int.eq_ofNat_of_zero_le ho
  obtain ⟨dn, rfl⟩ := Int.eq_ofNat_of_zero_le hs'
  simp only [Int.toNat_ofNat, RMDP.countOr0_transition_count]
  have e1 := RMDP.addT_getElem? m sn an ok dn p r
  have e2 := State.addA_getElem? (m.states.getD sn default) an ok (dn : Int) p r
  have e3 := Action.addO_getElem? ((m.states.getD sn default).actions.getD an default) ok
    (dn : Int) p r
  have hsz := RMDP.transitionD_sized m hm sn an ok
  unfold RMDP.transitionD at hsz ⊢
  generalize (((m.states.getD sn default).actions.getD an default).outcomes.getD ok default)
    = told at hsz e3 ⊢
  obtain ⟨hp, hr⟩ := hsz
  refine ⟨?_, ?_, ?_, ?_⟩
  · rw [RMDP.transition_count_of _ sn an ok _ _ _ e1 e2 e3]
    simp [Transition.add]
  · refine RMDP.get_toid_of _ sn an ok _ _ _ _ _ e1 e2 e3 ?_ ?_
    · simp [Transition.add, hr]
    · simp [Transition.add]
  · refine RMDP.get_probability_of _ sn an ok _ _ _ _ _ e1 e2 e3 ?_ ?_
    · simp [Transition.add, hr]
    · simp [Transition.add, ← hp]
  · refine RMDP.get_reward_of _ sn an ok _ _ _ _ _ e1 e2 e3 ?_
    simp [Transition.add, ← hr]

/-- Witness for C2: the second call of scenario S2, after which
`state_count = 3`, `transition_count(0,0,0) = 2` and `get_reward(0,0,0,1) = 2.0`. -/
theorem add_transition_appends_witness :
    scenarioS2a.Sized ∧
    scenarioS2.state_count = 3 ∧
    scenarioS2.transition_count 0 0 0 = Except.ok 2 ∧
    scenarioS2.get_reward 0 0 0 1 = Except.ok 2 ∧
    scenarioS2.transition_count 0 0 0
      = Except.ok (countOr0 (scenarioS2a.transition_count 0 0 0) + 1) ∧
    scenarioS2.get_toid 0 0 0 (countOr0 (scenarioS2a.transition_count 0 0 0))
      = Except.ok ((2 : Int) : ℚ) ∧
    scenarioS2.get_probability 0 0 0 (countOr0 (scenarioS2a.transition_count 0 0 0))
      = Except.ok (1 / 2) ∧
    scenarioS2.get_reward 0 0 0 (countOr0 (scenarioS2a.transition_count 0 0 0))
      = Except.ok 2 :=
  ⟨by decide, by decide, rfl, rfl,
    add_transition_appends scenarioS2a (by decide) 0 0 0 2 (1/2) 2 (by decide)
      (by decide) (by decide) (by decide)⟩

/-! ## C3: rejected ids leave the RMDP unchanged -/

/-- C3. `add_transition(s,a,o,s',p,r)` with `s < 0` or `s' < 0` fails with
InvalidIndex and leaves the RMDP exactly as it was, whatever the other ids. -/
theorem add_transition_rejects_negative (m : RMDP) (s a o s' : Int) (p r : ℚ)
    (h : s < 0 ∨ s' < 0) :
    m.add_transition s a o s' p r = ⟨m, some Error.InvalidIndex⟩ := by
  unfold RMDP.add_transition
  by_cases hs : s < 0
  · rw [if_pos hs]
  · rw [if_neg hs]
    rcases h with h | h
    · exact absurd h hs
    · rw [if_pos h]

/-- Witness for C3: a negative source id with a destination beyond the
current state count. -/
theorem add_transition_rejects_negative_witness :
    ((-1 : Int) < 0 ∨ (5 : Int) < 0) ∧
    scenarioS2.add_transition (-1) 0 0 5 1 1 = ⟨scenarioS2, some Error.InvalidIndex⟩ :=
  ⟨by decide, add_transition_rejects_negative scenarioS2 (-1) 0 0 5 1 1 (by decide)⟩

/-! ## C4: index validation of the readers -/

theorem index_of_lt {α : Type} [Inhabited α] (v : List α) (i : Int) (h0 : 0 ≤ i)
    (h : i < (v.length : Int)) : index v i = Except.ok (v.getD i.toNat default) := by
  have hlt : i.toNat < v.length := by omega
  unfold index
  rw [if_neg (by omega), List.getElem?_eq_getElem hlt,
    getD_of_getElem? v _ _ (List.getElem?_eq_getElem hlt)]

theorem RMDP.action_count_eq (m : RMDP) (s : Int) :
    m.action_count s =
      if m.validState s then Except.ok ((m.stateD s.toNat).actions.length : Int)
      else Except.error Error.InvalidIndex := by
  unfold RMDP.action_count RMDP.validState RMDP.stateD
  by_cases h : s < 0 ∨ s ≥ (m.states.length : Int)
  · rw [if_pos h, if_neg (by omega)]
  · rw [if_neg h, if_pos (by omega), index_of_lt _ _ (by omega) (by omega)]

theorem RMDP.outcome_count_eq (m : RMDP) (s a : Int) :
    m.outcome_count s a =
      if m.validAction s a then
        Except.ok ((m.actionD s.toNat a.toNat).outcomes.length : Int)
      else Except.error Error.InvalidIndex := by
  unfold RMDP.outcome_count RMDP.validAction RMDP.validState RMDP.actionD RMDP.stateD
  by_cases h : s < 0 ∨ s ≥ (m.states.length : Int)
  · rw [if_pos h, if_neg (by omega)]
  · rw [if_neg h, index_of_lt _ _ (by omega) (by omega)]
    by_cases h2 : a < 0 ∨ a ≥ ((m.states.getD s.toNat default).actions.length : Int)
    · simp only [if_pos h2]
      rw [if_neg (by omega)]
    · simp only [if_neg h2]
      rw [if_pos (by omega), index_of_lt _ _ (by omega) (by omega)]

theorem RMDP.get_transition_eq (m : RMDP) (s a o : Int) :
    m.get_transition s a o =
      if m.validOutcome s a o then Except.ok (m.transitionD s.toNat a.toNat o.toNat)
      else Except.error Error.InvalidIndex := by
  unfold RMDP.get_transition RMDP.validOutcome RMDP.validAction RMDP.validState
    RMDP.transitionD RMDP.actionD RMDP.stateD
  by_cases h : s < 0 ∨ s ≥ (m.states.length : Int)
  · rw [if_pos h, if_neg (by omega)]
  · rw [if_neg h, index_of_lt _ _ (by omega) (by omega)]
    by_cases h2 : a < 0 ∨ a ≥ ((m.states.getD s.toNat default).actions.length : Int)
    · simp only [if_pos h2]
      rw [if_neg (by omega)]
    · simp only [if_neg h2]
      rw [index_of_lt _ _ (by omega) (by omega)]
      by_cases h3 : o < 0 ∨ o ≥
          ((((m.states.getD s.toNat default).actions.getD a.toNat default).outcomes.length : Nat)
            : Int)
      · simp only [if_pos h3]
        rw [if_neg (by omega)]
      · simp only [if_neg h3]
        rw [if_pos (by omega), index_of_lt _ _ (by omega) (by omega)]

theorem RMDP.transition_count_eq (m : RMDP) (s a o : Int) :
    m.transition_count s a o =
      if m.validOutcome s a o then
        Except.ok ((m.transitionD s.toNat a.toNat o.toNat).indices.length : Int)
      else Except.error Error.InvalidIndex := by
  unfold RMDP.transition_count RMDP.validOutcome RMDP.validAction RMDP.validState
    RMDP.transitionD RMDP.actionD RMDP.stateD
  by_cases h : s < 0 ∨ s ≥ (m.states.length : Int)
  · rw [if_pos h, if_neg (by omega)]
  · rw [if_neg h, index_of_lt _ _ (by omega) (by omega)]
    by_cases h2 : a < 0 ∨ a ≥ ((m.states.getD s.toNat default).actions.length : Int)
    · simp only [if_pos h2]
      rw [if_neg (by omega)]
    · simp only [if_neg h2]
      rw [index_of_lt _ _ (by omega) (by omega)]
      by_cases h3 : o < 0 ∨ o ≥
          ((((m.states.getD s.toNat default).actions.getD a.toNat default).outcomes.length : Nat)
            : Int)
      · simp only [if_pos h3]
        rw [if_neg (by omega)]
      · simp only [if_neg h3]
        rw [if_pos (by omega), index_of_lt _ _ (by omega) (by omega)]

theorem RMDP.sample_count_eq (m : RMDP) (s a o : Int) :
    m.sample_count s a o =
      if m.validOutcome s a o then
        Except.ok ((m.transitionD s.toNat a.toNat o.toNat).rewards.length : Int)
      else Except.error Error.InvalidIndex := by
  unfold RMDP.sample_count
  rw [RMDP.get_transition_eq]
  by_cases h : m.validOutcome s a o
  · simp only [if_pos h]
  · simp only [if_neg h]

theorem RMDP.get_reward_eq (m : RMDP) (s a o k : Int) :
    m.get_reward s a o k =
      if m.validOutcome s a o ∧ 0 ≤ k ∧
          k < ((m.transitionD s.toNat a.toNat o.toNat).rewards.length : Int) then
        index (m.transitionD s.toNat a.toNat o.toNat).rewards k
      else Except.error Error.InvalidIndex := by
  unfold RMDP.get_reward
  rw [RMDP.get_transition_eq]
  by_cases h : m.validOutcome s a o
  · simp only [if_pos h, true_and]
    by_cases h2 : k < 0 ∨ k ≥ ((m.transitionD s.toNat a.toNat o.toNat).rewards.length : Int)
    · have h3 : ¬ (0 ≤ k ∧
          k < ((m.transitionD s.toNat a.toNat o.toNat).rewards.length : Int)) := by omega
      rw [if_pos h2, if_neg (fun hc => h3 hc.2)]
    · rw [if_neg h2, if_pos ⟨h, by omega, by omega⟩]
  · simp [h]

theorem RMDP.get_toid_eq (m : RMDP) (s a o k : Int) :
    m.get_toid s a o k =
      if m.validOutcome s a o ∧ 0 ≤ k ∧
          k < ((m.transitionD s.toNat a.toNat o.toNat).rewards.length : Int) then
        (match index (m.transitionD s.toNat a.toNat o.toNat).indices k with
          | Except.error e => Except.error e
          | Except.ok i => Except.ok (i : ℚ))
      else Except.error Error.InvalidIndex := by
  unfold RMDP.get_toid
  rw [RMDP.get_transition_eq]
  by_cases h : m.validOutcome s a o
  · simp only [if_pos h, true_and]
    by_cases h2 : k < 0 ∨ k ≥ ((m.transitionD s.toNat a.toNat o.toNat).rewards.length : Int)
    · have h3 : ¬ (0 ≤ k ∧
          k < ((m.transitionD s.toNat a.toNat o.toNat).rewards.length : Int)) := by omega
      rw [if_pos h2, if_neg (fun hc => h3 hc.2)]
    · rw [if_neg h2, if_pos ⟨h, by omega, by omega⟩]
  · simp [h]

theorem RMDP.get_probability_eq (m : RMDP) (s a o k : Int) :
    m.get_probability s a o k =
      if m.validOutcome s a o ∧ 0 ≤ k ∧
          k < ((m.transitionD s.toNat a.toNat o.toNat).rewards.length : Int) then
        index (m.transitionD s.toNat a.toNat o.toNat).probabilities k
      else Except.error Error.InvalidIndex := by
  unfold RMDP.get_probability
  rw [RMDP.get_transition_eq]
  by_cases h : m.validOutcome s a o
  · simp only [if_pos h, true_and]
    by_cases h2 : k < 0 ∨ k ≥ ((m.transitionD s.toNat a.toNat o.toNat).rewards.length : Int)
    · have h3 : ¬ (0 ≤ k ∧
          k < ((m.transitionD s.toNat a.toNat o.toNat).rewards.length : Int)) := by omega
      rw [if_pos h2, if_neg (fun hc => h3 hc.2)]
    · rw [if_neg h2, if_pos ⟨h, by omega, by omega⟩]
  · simp [h]

theorem index_getElem {α : Type} (v : List α) (k : Int) (h0 : 0 ≤ k)
    (h : k < (v.length : Int)) :
    ∃ x, v[k.toNat]? = some x ∧ index v k = Except.ok x := by
  have hlt : k.toNat < v.length := by omega
  refine ⟨v[k.toNat], List.getElem?_eq_getElem hlt, ?_⟩
  unfold index
  rw [if_neg (by omega), List.getElem?_eq_getElem hlt]

/-- C4. Index validation of the readers, on an RMDP whose Transitions satisfy
the sizing invariant: each of `action_count`, `outcome_count`,
`transition_count`, `sample_count`, `get_reward`, `get_probability`, `get_toid`
fails with InvalidIndex exactly when a supplied index is negative or `≥` the
size of its container at its level, and otherwise returns the size,
respectively the `k`-th stored value, of the addressed container. -/
theorem readers_validate_indices (m : RMDP) (hm : m.Sized) (s a o k : Int) :
    ((m.action_count s = Except.error Error.InvalidIndex ↔ ¬ m.validState s) ∧
      (m.validState s →
        m.action_count s = Except.ok ((m.stateD s.toNat).actions.length : Int))) ∧
    ((m.outcome_count s a = Except.error Error.InvalidIndex ↔ ¬ m.validAction s a) ∧
      (m.validAction s a →
        m.outcome_count s a = Except.ok ((m.actionD s.toNat a.toNat).outcomes.length : Int))) ∧
    ((m.transition_count s a o = Except.error Error.InvalidIndex ↔ ¬ m.validOutcome s a o) ∧
      (m.validOutcome s a o →
        m.transition_count s a o
          = Except.ok ((m.transitionD s.toNat a.toNat o.toNat).indices.length : Int))) ∧
    ((m.sample_count s a o = Except.error Error.InvalidIndex ↔ ¬ m.validOutcome s a o) ∧
      (m.validOutcome s a o →
        m.sample_count s a o
          = Except.ok ((m.transitionD s.toNat a.toNat o.toNat).rewards.length : Int))) ∧
    ((m.get_reward s a o k = Except.error Error.InvalidIndex ↔ ¬ m.validSample s a o k) ∧
      (m.validSample s a o k →
        ∃ x, (m.transitionD s.toNat a.toNat o.toNat).rewards[k.toNat]? = some x ∧
          m.get_reward s a o k = Except.ok x)) ∧
    ((m.get_probability s a o k = Except.error Error.InvalidIndex ↔ ¬ m.validSample s a o k) ∧
      (m.validSample s a o k →
        ∃ x, (m.transitionD s.toNat a.toNat o.toNat).probabilities[k.toNat]? = some x ∧
          m.get_probability s a o k = Except.ok x)) ∧
    ((m.get_toid s a o k = Except.error Error.InvalidIndex ↔ ¬ m.validSample s a o k) ∧
      (m.validSample s a o k →
        ∃ x, (m.transitionD s.toNat a.toNat o.toNat).indices[k.toNat]? = some x ∧
          m.get_toid s a o k = Except.ok (x : ℚ))) := by
  obtain ⟨hp, hr⟩ := RMDP.transitionD_sized m hm s.toNat a.toNat o.toNat
  refine ⟨⟨?_, ?_⟩, ⟨?_, ?_⟩, ⟨?_, ?_⟩, ⟨?_, ?_⟩, ⟨?_, ?_⟩, ⟨?_, ?_⟩, ⟨?_, ?_⟩⟩
  · rw [RMDP.action_count_eq]; by_cases h : m.validState s <;> simp [h]
  · intro h; rw [RMDP.action_count_eq, if_pos h]
  · rw [RMDP.outcome_count_eq]; by_cases h : m.validAction s a <;> simp [h]
  · intro h; rw [RMDP.outcome_count_eq, if_pos h]
  · rw [RMDP.transition_count_eq]; by_cases h : m.validOutcome s a o <;> simp [h]
  · intro h; rw [RMDP.transition_count_eq, if_pos h]
  · rw [RMDP.sample_count_eq]; by_cases h : m.validOutcome s a o <;> simp [h]
  · intro h; rw [RMDP.sample_count_eq, if_pos h]
  · rw [RMDP.get_reward_eq]
    by_cases h : m.validSample s a o k
    · obtain ⟨h1, h2, h3⟩ := h
      obtain ⟨x, -, hx⟩ := index_getElem (m.transitionD s.toNat a.toNat o.toNat).rewards k h2
        (by omega)
      rw [if_pos ⟨h1, h2, by omega⟩, hx]
      simp [RMDP.validSample, h1, h2, h3]
    · have h' : ¬ (m.validOutcome s a o ∧ 0 ≤ k ∧
          k < ((m.transitionD s.toNat a.toNat o.toNat).rewards.length : Int)) := by
        rw [hr]; exact h
      rw [if_neg h']
      simp [h]
  · rintro ⟨h1, h2, h3⟩
    obtain ⟨x, hx1, hx⟩ := index_getElem (m.transitionD s.toNat a.toNat o.toNat).rewards k h2
      (by omega)
    exact ⟨x, hx1, by rw [RMDP.get_reward_eq, if_pos ⟨h1, h2, by omega⟩, hx]⟩
  · rw [RMDP.get_probability_eq]
    by_cases h : m.validSample s a o k
    · obtain ⟨h1, h2, h3⟩ := h
      obtain ⟨x, -, hx⟩ := index_getElem (m.transitionD s.toNat a.toNat o.toNat).probabilities
        k h2 (by omega)
      rw [if_pos ⟨h1, h2, by omega⟩, hx]
      simp [RMDP.validSample, h1, h2, h3]
    · have h' : ¬ (m.validOutcome s a o ∧ 0 ≤ k ∧
          k < ((m.transitionD s.toNat a.toNat o.toNat).rewards.length : Int)) := by
        rw [hr]; exact h
      rw [if_neg h']
      simp [h]
  · rintro ⟨h1, h2, h3⟩
    obtain ⟨x, hx1, hx⟩ := index_getElem (m.transitionD s.toNat a.toNat o.toNat).probabilities
      k h2 (by omega)
    exact ⟨x, hx1, by rw [RMDP.get_probability_eq, if_pos ⟨h1, h2, by omega⟩, hx]⟩
  · rw [RMDP.get_toid_eq]
    by_cases h : m.validSample s a o k
    · obtain ⟨h1, h2, h3⟩ := h
      obtain ⟨x, -, hx⟩ := index_getElem (m.transitionD s.toNat a.toNat o.toNat).indices
        k h2 h3
      rw [if_pos ⟨h1, h2, by omega⟩, hx]
      simp [RMDP.validSample, h1, h2, h3]
    · have h' : ¬ (m.validOutcome s a o ∧ 0 ≤ k ∧
          k < ((m.transitionD s.toNat a.toNat o.toNat).rewards.length : Int)) := by
        rw [hr]; exact h
      rw [if_neg h']
      simp [h]
  · rintro ⟨h1, h2, h3⟩
    obtain ⟨x, hx1, hx⟩ := index_getElem (m.transitionD s.toNat a.toNat o.toNat).indices
      k h2 h3
    exact ⟨x, hx1, by rw [RMDP.get_toid_eq, if_pos ⟨h1, h2, by omega⟩, hx]⟩

/-- Witness for C4: the readers on scenario S2 at `(0,0,0,1)`. -/
theorem readers_validate_indices_witness :
    scenarioS2.Sized ∧
    ((scenarioS2.get_toid 0 0 0 1 = Except.error Error.InvalidIndex
        ↔ ¬ scenarioS2.validSample 0 0 0 1) ∧
      (scenarioS2.validSample 0 0 0 1 →
        ∃ x, (scenarioS2.transitionD (0 : Int).toNat (0 : Int).toNat
            (0 : Int).toNat).indices[(1 : Int).toNat]? = some x ∧
          scenarioS2.get_toid 0 0 0 1 = Except.ok (x : ℚ))) :=
  ⟨by decide, (readers_validate_indices scenarioS2 (by decide) 0 0 0 1).2.2.2.2.2.2⟩

/-! ## C5, C6: bulk add -/

theorem index_length {α : Type} (v : List α) :
    index v (v.length : Int) = Except.error Error.OutOfBounds := by
  unfold index
  rw [if_neg (by omega)]
  simp

theorem Effect.bind_error_ne_none {σ : Type} (e : Effect σ) (f : σ → Effect σ)
    (hf : ∀ x, (f x).error ≠ none) : (e.bind f).error ≠ none := by
  unfold Effect.bind
  cases h : e.error with
  | none => exact hf _
  | some err => simp [h]

/-- Whatever the six vectors are, `add_transitions`
never completes without an error: either the sizes differ, or an
`add_transition` throws, or the loop, whose bound is `l <= s`, reads all six
vectors at index `s`, one past their end. -/
theorem add_transitions_never_succeeds (m : RMDP) (fromids actionids outcomeids toids : List Int)
    (probs rews : List ℚ) :
    (m.add_transitions fromids actionids outcomeids toids probs rews).error ≠ none := by
  unfold RMDP.add_transitions
  simp only
  split
  · simp
  · rw [List.range_succ, List.foldl_append]
    simp only [List.foldl_cons, List.foldl_nil]
    apply Effect.bind_error_ne_none
    intro x
    rw [index_length]
    simp

theorem index_getD {α : Type} (v : List α) (l : Nat) (d : α) (h : l < v.length) :
    index v (l : Int) = Except.ok (v.getD l d) := by
  rw [index_natCast v l _ (List.getElem?_eq_getElem h), List.getD_eq_getElem?_getD,
    List.getElem?_eq_getElem h]
  rfl

/-- C5. What the bulk add does on six vectors of the same length `n`: it calls
`add_transition` on the entries `0, ..., n-1` in order and then, unless one of
these calls has thrown, reads the six vectors at index `n`, one past their
end, instead of returning. -/
theorem add_transitions_reads_past_end (m : RMDP) (fromids actionids outcomeids toids : List Int)
    (probs rews : List ℚ)
    (h : fromids.length = actionids.length ∧ fromids.length = outcomeids.length ∧
      fromids.length = toids.length ∧ fromids.length = probs.length ∧
      fromids.length = rews.length) :
    m.add_transitions fromids actionids outcomeids toids probs rews
      = (m.add_sequentially fromids.length fromids actionids outcomeids toids probs rews).bind
          (fun cur => ⟨cur, some Error.OutOfBounds⟩) := by
  obtain ⟨h1, h2, h3, h4, h5⟩ := h
  have hn : ¬ (fromids.length ≠ outcomeids.length ∨ fromids.length ≠ toids.length ∨
      fromids.length ≠ actionids.length ∨ fromids.length ≠ probs.length ∨
      fromids.length ≠ rews.length) := by
    push_neg
    exact ⟨h2, h3, h1, h4, h5⟩
  unfold RMDP.add_transitions RMDP.add_sequentially
  simp only [if_neg hn]
  rw [List.range_succ, List.foldl_append]
  simp only [List.foldl_cons, List.foldl_nil, index_length]
  congr 1
  apply List.foldl_ext
  intro e l hl
  have hl' : l < fromids.length := List.mem_range.mp hl
  rw [index_getD fromids l 0 hl', index_getD actionids l 0 (by omega),
    index_getD outcomeids l 0 (by omega), index_getD toids l 0 (by omega),
    index_getD probs l 0 (by omega), index_getD rews l 0 (by omega)]

/-- Witness for C5: with six empty vectors the RMDP is unchanged and index 0 is
read out of bounds; with six one-element vectors the entry is added and then
index 1 is read. -/
theorem add_transitions_reads_past_end_witness :
    RMDP.empty.add_transitions [] [] [] [] [] [] = ⟨RMDP.empty, some Error.OutOfBounds⟩ ∧
    RMDP.empty.add_transitions [0] [0] [0] [1] [1] [1]
      = (RMDP.empty.add_sequentially 1 [0] [0] [0] [1] [1] [1]).bind
          (fun cur => ⟨cur, some Error.OutOfBounds⟩) ∧
    RMDP.empty.add_transitions [0] [0] [0] [1] [1] [1]
      = ⟨(RMDP.empty.add_transition 0 0 0 1 1 1).state, some Error.OutOfBounds⟩ :=
  ⟨by decide,
    add_transitions_reads_past_end RMDP.empty [0] [0] [0] [1] [1] [1] (by decide),
    by decide⟩

/-- C6. If the six input vectors do not all have the same length,
`add_transitions` fails with ShapeMismatch and the RMDP is unchanged. -/
theorem add_transitions_shape_mismatch (m : RMDP) (fromids actionids outcomeids toids : List Int)
    (probs rews : List ℚ)
    (h : ¬ (fromids.length = actionids.length ∧ fromids.length = outcomeids.length ∧
      fromids.length = toids.length ∧ fromids.length = probs.length ∧
      fromids.length = rews.length)) :
    m.add_transitions fromids actionids outcomeids toids probs rews
      = ⟨m, some Error.ShapeMismatch⟩ := by
  unfold RMDP.add_transitions
  have h' : fromids.length ≠ outcomeids.length ∨ fromids.length ≠ toids.length ∨
      fromids.length ≠ actionids.length ∨ fromids.length ≠ probs.length ∨
      fromids.length ≠ rews.length := by
    by_contra hc
    push_neg at hc
    exact h ⟨hc.2.2.1, hc.1, hc.2.1, hc.2.2.2.1, hc.2.2.2.2⟩
  simp only [if_pos h']

/-- Witness for C6: the reward vector is one entry short. -/
theorem add_transitions_shape_mismatch_witness :
    ¬ (([0, 0] : List Int).length = ([0, 0] : List Int).length ∧
      ([0, 0] : List Int).length = ([0, 0] : List Int).length ∧
      ([0, 0] : List Int).length = ([1, 2] : List Int).length ∧
      ([0, 0] : List Int).length = ([1, 1] : List ℚ).length ∧
      ([0, 0] : List Int).length = ([1] : List ℚ).length) ∧
    scenarioS2.add_transitions [0, 0] [0, 0] [0, 0] [1, 2] [1, 1] [1]
      = ⟨scenarioS2, some Error.ShapeMismatch⟩ :=
  ⟨by decide, add_transitions_shape_mismatch scenarioS2 [0, 0] [0, 0] [0, 0] [1, 2] [1, 1] [1]
    (by decide)⟩

/-! ## C9: `set_threshold` -/

theorem getD_modify {α : Type} [Inhabited α] (l : List α) (f : α → α) (i j : Nat) :
    (l.modify f i).getD j default
      = if i = j ∧ j < l.length then f (l.getD j default) else l.getD j default := by
  rw [List.getD_eq_getElem?_getD, List.getD_eq_getElem?_getD, List.getElem?_modify]
  by_cases hj : j < l.length
  · rw [List.getElem?_eq_getElem hj]
    by_cases hij : i = j
    · simp [hij, hj]
    · simp [hij]
  · rw [List.getElem?_eq_none (by omega)]
    simp [hj]

theorem RMDP.update_action_states_length (m : RMDP) (s a : Nat) (f : Action → Action) :
    (m.update_action s a f).states.length = m.states.length := by
  simp [RMDP.update_action]

theorem RMDP.update_action_stateD_length (m : RMDP) (s a : Nat) (f : Action → Action)
    (s' : Nat) :
    ((m.update_action s a f).stateD s').actions.length = (m.stateD s').actions.length := by
  unfold RMDP.update_action RMDP.stateD
  rw [getD_modify]
  split <;> simp

theorem RMDP.update_action_actionD (m : RMDP) (s a : Nat) (f : Action → Action)
    (s' a' : Nat) :
    (m.update_action s a f).actionD s' a'
      = if (s = s' ∧ s' < m.states.length) ∧ (a = a' ∧ a' < (m.stateD s').actions.length)
        then f (m.actionD s' a') else m.actionD s' a' := by
  unfold RMDP.update_action RMDP.actionD RMDP.stateD
  rw [getD_modify]
  by_cases h1 : s = s' ∧ s' < m.states.length
  · rw [if_pos h1]
    simp only [getD_modify]
    by_cases h2 : a = a' ∧ a' < (m.states.getD s' default).actions.length
    · rw [if_pos h2, if_pos ⟨h1, h2⟩]
    · rw [if_neg h2, if_neg (fun hc => h2 hc.2)]
  · rw [if_neg h1, if_neg (fun hc => h1 hc.1)]

theorem RMDP.get_threshold_eq (m : RMDP) (s a : Int) :
    m.get_threshold s a =
      if m.validAction s a then Except.ok (m.actionD s.toNat a.toNat).threshold
      else Except.error Error.InvalidIndex := by
  unfold RMDP.get_threshold RMDP.validAction RMDP.validState RMDP.actionD RMDP.stateD
  by_cases h : s < 0 ∨ s ≥ (m.states.length : Int)
  · rw [if_pos h, if_neg (by omega)]
  · rw [if_neg h, index_of_lt _ _ (by omega) (by omega)]
    by_cases h2 : a < 0 ∨ a ≥ ((m.states.getD s.toNat default).actions.length : Int)
    · simp only [if_pos h2]
      rw [if_neg (by omega)]
    · simp only [if_neg h2]
      rw [if_pos ⟨by omega, by omega, by omega⟩, index_of_lt _ _ (by omega) (by omega)]

theorem RMDP.update_action_validAction (m : RMDP) (s a : Nat) (f : Action → Action)
    (s' a' : Int) : (m.update_action s a f).validAction s' a' ↔ m.validAction s' a' := by
  unfold RMDP.validAction RMDP.validState
  rw [RMDP.update_action_states_length, RMDP.update_action_stateD_length]

theorem Prec.num_lt_num (x y : ℚ) : Prec.num x < Prec.num y ↔ x < y := Iff.rfl

theorem Prec.not_nan_lt (b : Prec) : ¬ Prec.nan < b := by
  cases b <;> exact fun h => h

theorem Prec.not_lt_nan (a : Prec) : ¬ a < Prec.nan := by
  cases a <;> exact fun h => h

theorem RMDP.set_threshold_eq (m : RMDP) (s a : Int) (t : Prec) :
    m.set_threshold s a t =
      if m.validAction s a then
        if t < Prec.num 0 ∨ t > Prec.num 2 then ⟨m, some Error.OutOfRange⟩
        else ⟨m.update_action s.toNat a.toNat (fun x => { x with threshold := t }), none⟩
      else ⟨m, some Error.InvalidIndex⟩ := by
  unfold RMDP.set_threshold RMDP.validAction RMDP.validState RMDP.stateD
  by_cases h : s < 0 ∨ s ≥ (m.states.length : Int)
  · rw [if_pos h, if_neg (by omega)]
  · rw [if_neg h, index_of_lt _ _ (by omega) (by omega)]
    by_cases h2 : a < 0 ∨ a ≥ ((m.states.getD s.toNat default).actions.length : Int)
    · simp only [if_pos h2]
      rw [if_neg (by omega)]
    · simp only [if_neg h2]
      have hv : (0 ≤ s ∧ s < (m.states.length : Int)) ∧ 0 ≤ a ∧
          a < ((m.states.getD s.toNat default).actions.length : Int) :=
        ⟨⟨by omega, by omega⟩, by omega, by omega⟩
      rw [if_pos hv]

/-- What `set_threshold` does with a value that gets past its guard. -/
theorem RMDP.set_threshold_accepted (m : RMDP) (s a : Int) (t : Prec)
    (h : m.validAction s a) (ht : ¬ (t < Prec.num 0 ∨ t > Prec.num 2)) :
    (m.set_threshold s a t).error = none ∧
    (m.set_threshold s a t).state.get_threshold s a = Except.ok t ∧
    ∀ s' a' : Int, ¬ (s' = s ∧ a' = a) →
      (m.set_threshold s a t).state.get_threshold s' a' = m.get_threshold s' a' := by
  rw [RMDP.set_threshold_eq, if_pos h, if_neg ht]
  obtain ⟨⟨hs0, hs1⟩, ha0, ha1⟩ := h
  refine ⟨rfl, ?_, ?_⟩
  · rw [RMDP.get_threshold_eq,
      if_pos ((RMDP.update_action_validAction m _ _ _ s a).mpr ⟨⟨hs0, hs1⟩, ha0, ha1⟩),
      RMDP.update_action_actionD, if_pos ⟨⟨rfl, by omega⟩, rfl, by omega⟩]
  · intro s' a' hne
    rw [RMDP.get_threshold_eq, RMDP.get_threshold_eq]
    by_cases hv : m.validAction s' a'
    · rw [if_pos ((RMDP.update_action_validAction m _ _ _ s' a').mpr hv), if_pos hv,
        RMDP.update_action_actionD]
      obtain ⟨⟨hs0', hs1'⟩, ha0', ha1'⟩ := hv
      have hne' : ¬ ((s.toNat = s'.toNat ∧ s'.toNat < m.states.length) ∧
          (a.toNat = a'.toNat ∧ a'.toNat < (m.stateD s'.toNat).actions.length)) := by
        rintro ⟨⟨e1, -⟩, e2, -⟩
        exact hne ⟨by omega, by omega⟩
      rw [if_neg hne']
    · rw [if_neg (fun hc => hv ((RMDP.update_action_validAction m _ _ _ s' a').mp hc)),
        if_neg hv]

/-- C9. `set_threshold(s,a,t)`: for an invalid `s` or `a` it fails with
InvalidIndex; for valid `(s,a)` and a number `t` with `t < 0` or `t > 2` it
fails with OutOfRange, both times leaving the RMDP unchanged; for valid `(s,a)`
and a number `0 ≤ t ≤ 2` it succeeds, `get_threshold(s,a)` is then `t` and
`get_threshold` of every other `(s',a')` is what it was.  A NaN is not in
`[0,2]`, yet it gets past the guard `threshold < 0.0 || threshold > 2.0`: for
valid `(s,a)` the call succeeds and `get_threshold(s,a)` is then NaN. -/
theorem set_threshold_contract (m : RMDP) (s a : Int) (t : Prec) :
    (¬ m.validAction s a → m.set_threshold s a t = ⟨m, some Error.InvalidIndex⟩) ∧
    (m.validAction s a → ∀ q : ℚ, t = Prec.num q → ¬ (0 ≤ q ∧ q ≤ 2) →
      m.set_threshold s a t = ⟨m, some Error.OutOfRange⟩) ∧
    (m.validAction s a → ∀ q : ℚ, t = Prec.num q → 0 ≤ q ∧ q ≤ 2 →
      (m.set_threshold s a t).error = none ∧
      (m.set_threshold s a t).state.get_threshold s a = Except.ok (Prec.num q) ∧
      ∀ s' a' : Int, ¬ (s' = s ∧ a' = a) →
        (m.set_threshold s a t).state.get_threshold s' a' = m.get_threshold s' a') ∧
    (m.validAction s a → t = Prec.nan →
      (m.set_threshold s a t).error = none ∧
      (m.set_threshold s a t).state.get_threshold s a = Except.ok Prec.nan ∧
      ∀ s' a' : Int, ¬ (s' = s ∧ a' = a) →
        (m.set_threshold s a t).state.get_threshold s' a' = m.get_threshold s' a') := by
  refine ⟨fun h => ?_, fun h q hq ht => ?_, fun h q hq ht => ?_, fun h hn => ?_⟩
  · rw [RMDP.set_threshold_eq, if_neg h]
  · subst hq
    have ht' : Prec.num q < Prec.num 0 ∨ Prec.num q > Prec.num 2 := by
      by_contra hc
      rw [gt_iff_lt, Prec.num_lt_num, Prec.num_lt_num] at hc
      push_neg at hc
      exact ht hc
    rw [RMDP.set_threshold_eq, if_pos h, if_pos ht']
  · subst hq
    apply RMDP.set_threshold_accepted m s a _ h
    rw [gt_iff_lt, Prec.num_lt_num, Prec.num_lt_num]
    push_neg
    exact ht
  · subst hn
    apply RMDP.set_threshold_accepted m s a _ h
    rintro (hc | hc)
    · exact Prec.not_nan_lt _ hc
    · exact Prec.not_lt_nan _ hc

/-- Witness for C9: on scenario S2, `set_threshold(0,0,2.5)` is rejected
(scenario S5) and `set_threshold(0,0,NaN)` succeeds and stores the NaN. -/
theorem set_threshold_contract_witness :
    scenarioS2.validAction 0 0 ∧ ¬ ((0 : ℚ) ≤ 5 / 2 ∧ (5 / 2 : ℚ) ≤ 2) ∧
    scenarioS2.set_threshold 0 0 (Prec.num (5 / 2)) = ⟨scenarioS2, some Error.OutOfRange⟩ ∧
    (scenarioS2.set_threshold 0 0 Prec.nan).error = none ∧
    (scenarioS2.set_threshold 0 0 Prec.nan).state.get_threshold 0 0 = Except.ok Prec.nan :=
  ⟨by decide, by norm_num,
    (set_threshold_contract scenarioS2 0 0 (Prec.num (5 / 2))).2.1 (by decide) (5 / 2) rfl
      (by norm_num),
    ((set_threshold_contract scenarioS2 0 0 Prec.nan).2.2.2 (by decide) rfl).1,
    ((set_threshold_contract scenarioS2 0 0 Prec.nan).2.2.2 (by decide) rfl).2.1⟩

/-! ## C10: `set_uniform_thresholds` -/

theorem mapEffect_of_ok {α : Type} (f : α → Effect α) (l : List α)
    (hf : ∀ x ∈ l, (f x).error = none) :
    mapEffect f l = ⟨l.map (fun x => (f x).state), none⟩ := by
  induction l with
  | nil => rfl
  | cons x xs ih =>
    have hx := hf x (List.mem_cons_self x xs)
    have ih' := ih (fun y hy => hf y (List.mem_cons_of_mem x hy))
    simp only [mapEffect, hx, ih', List.map_cons]

theorem mapEffect_of_state_eq {α : Type} (f : α → Effect α) (l : List α)
    (hf : ∀ x ∈ l, (f x).state = x) :
    mapEffect f l = ⟨l, l.findSome? (fun x => (f x).error)⟩ := by
  induction l with
  | nil => rfl
  | cons x xs ih =>
    have hx := hf x (List.mem_cons_self x xs)
    have ih' := ih (fun y hy => hf y (List.mem_cons_of_mem x hy))
    cases he : (f x).error with
    | none => simp only [mapEffect, he, hx, ih', List.findSome?_cons]
    | some e => simp only [mapEffect, he, hx, List.findSome?_cons]

theorem State.set_thresholds_in_range (s : State) (t : ℚ) (ht : 0 ≤ t ∧ t ≤ 2) :
    s.set_thresholds t = ⟨⟨s.actions.map (fun a => { a with threshold := Prec.num t })⟩, none⟩ := by
  have hn : ¬ (t < 0 ∨ t > 2) := by
    push_neg
    exact ht
  unfold State.set_thresholds
  rw [mapEffect_of_ok _ _ (fun a _ => by simp [Action.set_threshold, hn])]
  simp [Action.set_threshold, hn]

theorem State.set_thresholds_out_of_range (s : State) (t : ℚ) (ht : ¬ (0 ≤ t ∧ t ≤ 2)) :
    s.set_thresholds t = ⟨s, if s.actions = [] then none else some Error.OutOfRange⟩ := by
  have hn : t < 0 ∨ t > 2 := by
    by_contra hc
    push_neg at hc
    exact ht hc
  unfold State.set_thresholds
  rw [mapEffect_of_state_eq _ _ (fun a _ => by simp [Action.set_threshold, hn])]
  cases s with
  | mk actions =>
    cases actions with
    | nil => simp
    | cons a as => simp [Action.set_threshold, hn]

theorem RMDP.set_uniform_thresholds_in_range (m : RMDP) (t : ℚ) (ht : 0 ≤ t ∧ t ≤ 2) :
    m.set_uniform_thresholds t
      = ⟨⟨m.states.map fun s => ⟨s.actions.map fun a => { a with threshold := Prec.num t }⟩⟩, none⟩ := by
  unfold RMDP.set_uniform_thresholds
  rw [mapEffect_of_ok _ _ (fun s _ => by rw [State.set_thresholds_in_range s t ht])]
  simp [State.set_thresholds_in_range _ t ht]

theorem RMDP.set_uniform_thresholds_out_of_range (m : RMDP) (t : ℚ)
    (ht : ¬ (0 ≤ t ∧ t ≤ 2)) :
    m.set_uniform_thresholds t
      = ⟨m, m.states.findSome? fun s => if s.actions = [] then none else some Error.OutOfRange⟩
    := by
  unfold RMDP.set_uniform_thresholds
  rw [mapEffect_of_state_eq _ _ (fun s _ => by rw [State.set_thresholds_out_of_range s t ht])]
  simp [State.set_thresholds_out_of_range _ t ht]

theorem findSome?_has_action (l : List State) (h : ∃ s ∈ l, s.actions ≠ []) :
    (l.findSome? fun s => if s.actions = [] then none else some Error.OutOfRange)
      = some Error.OutOfRange := by
  induction l with
  | nil =>
    obtain ⟨s, hs, -⟩ := h
    simp at hs
  | cons x xs ih =>
    rw [List.findSome?_cons]
    by_cases hx : x.actions = []
    · simp only [hx, if_true]
      obtain ⟨s, hs, hne⟩ := h
      rcases List.mem_cons.mp hs with h' | h'
      · exact absurd (h' ▸ hx) hne
      · exact ih ⟨s, h', hne⟩
    · simp [hx]

theorem findSome?_no_action (l : List State) (h : ∀ s ∈ l, s.actions = []) :
    (l.findSome? fun s => if s.actions = [] then none else some Error.OutOfRange) = none := by
  rw [List.findSome?_eq_none_iff]
  intro s hs
  simp [h s hs]

/-- C10, the claim fails as stated: on the empty RMDP (and on any RMDP without
actions) `set_uniform_thresholds(3)` succeeds although `3` is outside
`[0, 2]`, because the value is only validated inside each Action. -/
theorem set_uniform_thresholds_accepts_out_of_range :
    ¬ ((0 : ℚ) ≤ 3 ∧ (3 : ℚ) ≤ 2) ∧
    RMDP.empty.set_uniform_thresholds 3 = ⟨RMDP.empty, none⟩ ∧
    (RMDP.withStates 2).set_uniform_thresholds 3 = ⟨RMDP.withStates 2, none⟩ := by
  have h : ¬ ((0 : ℚ) ≤ 3 ∧ (3 : ℚ) ≤ 2) := by norm_num
  refine ⟨h, rfl, ?_⟩
  rw [RMDP.set_uniform_thresholds_out_of_range _ _ h, findSome?_no_action]
  intro s hs
  simp only [RMDP.withStates, List.mem_replicate] at hs
  rw [hs.2]
  rfl

/-- C10, amended. For `0 ≤ t ≤ 2`, `set_uniform_thresholds(t)` succeeds on every
RMDP, every action of every state then has threshold `t` and nothing else is
changed.  For `t` outside `[0, 2]` the RMDP is left unchanged, and the call
fails with OutOfRange exactly when the RMDP has at least one action; an RMDP
without actions accepts every `t`. -/
theorem set_uniform_thresholds_contract (m : RMDP) (t : ℚ) :
    (0 ≤ t ∧ t ≤ 2 →
      m.set_uniform_thresholds t
        = ⟨⟨m.states.map fun s => ⟨s.actions.map fun a => { a with threshold := Prec.num t }⟩⟩, none⟩ ∧
      ∀ s a : Int, m.validAction s a →
        (m.set_uniform_thresholds t).state.get_threshold s a = Except.ok (Prec.num t)) ∧
    (¬ (0 ≤ t ∧ t ≤ 2) →
      (m.set_uniform_thresholds t).state = m ∧
      ((∃ s ∈ m.states, s.actions ≠ []) →
        (m.set_uniform_thresholds t).error = some Error.OutOfRange) ∧
      ((∀ s ∈ m.states, s.actions = []) → (m.set_uniform_thresholds t).error = none)) := by
  constructor
  · intro ht
    have heq := RMDP.set_uniform_thresholds_in_range m t ht
    refine ⟨heq, ?_⟩
    rintro s a ⟨⟨hs0, hs1⟩, ha0, ha1⟩
    rw [heq]
    have hs : s.toNat < m.states.length := by omega
    have hst : m.stateD s.toNat = m.states[s.toNat] :=
      getD_of_getElem? _ _ _ (List.getElem?_eq_getElem hs)
    rw [hst] at ha1
    have ha : a.toNat < (m.states[s.toNat]).actions.length := by omega
    have e1 : (m.states.map fun s => (⟨s.actions.map fun a => { a with threshold := Prec.num t }⟩ : State))[
        s.toNat]? = some ⟨(m.states[s.toNat]).actions.map fun a => { a with threshold := Prec.num t }⟩ := by
      rw [List.getElem?_map, List.getElem?_eq_getElem hs]
      rfl
    have e2 : ((m.states[s.toNat]).actions.map fun a => ({ a with threshold := Prec.num t } : Action))[
        a.toNat]? = some { (m.states[s.toNat]).actions[a.toNat] with threshold := Prec.num t } := by
      rw [List.getElem?_map, List.getElem?_eq_getElem ha]
      rfl
    rw [RMDP.get_threshold_eq]
    have hv : RMDP.validAction
        ⟨m.states.map fun s => ⟨s.actions.map fun a => { a with threshold := Prec.num t }⟩⟩ s a := by
      refine ⟨⟨hs0, by simpa using hs1⟩, ha0, ?_⟩
      simp only [RMDP.stateD]
      rw [getD_of_getElem? _ _ _ e1]
      simpa using ha1
    rw [if_pos hv]
    simp only [RMDP.actionD, RMDP.stateD]
    rw [getD_of_getElem? _ _ _ e1, getD_of_getElem? _ _ _ e2]
  · intro ht
    rw [RMDP.set_uniform_thresholds_out_of_range m t ht]
    exact ⟨rfl, findSome?_has_action m.states, findSome?_no_action m.states⟩

/-- Witness for C10 (amended): scenario S3 has an action, so the value `3` is
rejected there and nothing changes. -/
theorem set_uniform_thresholds_contract_witness :
    ¬ ((0 : ℚ) ≤ 3 ∧ (3 : ℚ) ≤ 2) ∧ (∃ s ∈ scenarioS3.states, s.actions ≠ []) ∧
    (scenarioS3.set_uniform_thresholds 3).state = scenarioS3 ∧
    (scenarioS3.set_uniform_thresholds 3).error = some Error.OutOfRange :=
  ⟨by norm_num, by decide,
    ((set_uniform_thresholds_contract scenarioS3 3).2 (by norm_num)).1,
    ((set_uniform_thresholds_contract scenarioS3 3).2 (by norm_num)).2.1 (by decide)⟩

/-! ## The loop nest of export and copy as a fold over the stored branches -/

theorem index_of_getElem {α : Type} (v : List α) (l : Nat) (h : l < v.length) :
    index v (l : Int) = Except.ok v[l] :=
  index_natCast v l _ (List.getElem?_eq_getElem h)

theorem Transition.records_length (i j k : Nat) (t : Transition) (ht : t.Sized) :
    (t.records i j k).length = t.indices.length := by
  simp [Transition.records, ht.1, ht.2]

theorem Transition.records_getElem (i j k : Nat) (t : Transition) (l : Nat)
    (h : l < (t.records i j k).length) (h1 : l < t.indices.length)
    (h2 : l < t.probabilities.length) (h3 : l < t.rewards.length) :
    (t.records i j k)[l] = ⟨i, j, k, t.indices[l], t.probabilities[l], t.rewards[l]⟩ := by
  simp [Transition.records]

theorem for_each_branch_take {σ : Type} (t : Transition) (ht : t.Sized) (i j k : Nat)
    (G : σ → Record → Effect σ) (e : Effect σ) (n : Nat) (hn : n ≤ t.indices.length) :
    (List.range n).foldl
      (fun e (l : Nat) => e.bind fun st =>
        match index t.indices (l : Int), index t.probabilities (l : Int),
            index t.rewards (l : Int) with
        | Except.ok dst, Except.ok p, Except.ok r => G st ⟨i, j, k, dst, p, r⟩
        | _, _, _ => ⟨st, some Error.OutOfBounds⟩) e
      = ((t.records i j k).take n).foldl (fun e rec => e.bind fun st => G st rec) e := by
  induction n with
  | zero => rfl
  | succ n ih =>
    have h1 : n < t.indices.length := by omega
    have h2 : n < t.probabilities.length := by rw [ht.1]; exact h1
    have h3 : n < t.rewards.length := by rw [ht.2]; exact h1
    have h0 : n < (t.records i j k).length := by
      rw [Transition.records_length i j k t ht]; exact h1
    rw [List.range_succ, List.foldl_append, ih (by omega), List.take_succ, List.foldl_append,
      List.getElem?_eq_getElem h0, Transition.records_getElem i j k t n h0 h1 h2 h3]
    simp only [List.foldl_cons, List.foldl_nil, Option.toList, index_of_getElem _ _ h1,
      index_of_getElem _ _ h2, index_of_getElem _ _ h3]

theorem for_each_branch_eq {σ : Type} (t : Transition) (ht : t.Sized) (i j k : Nat)
    (G : σ → Record → Effect σ) (e : Effect σ) :
    for_each_branch t (fun st dst p r => G st ⟨i, j, k, dst, p, r⟩) e
      = (t.records i j k).foldl (fun e rec => e.bind fun st => G st rec) e := by
  unfold for_each_branch
  rw [for_each_branch_take t ht i j k G e t.indices.length (le_refl _),
    List.take_of_length_le (by rw [Transition.records_length i j k t ht])]

theorem foldl_enumFrom_eq_concatIdx {α β γ : Type} (body : Nat → α → γ → γ)
    (f : Nat → α → List β) (step : γ → β → γ) (l : List α)
    (h : ∀ x ∈ l, ∀ i c, body i x c = (f i x).foldl step c) (off : Nat) (c : γ) :
    (l.enumFrom off).foldl (fun acc p => body p.1 p.2 acc) c
      = (concatIdx f off l).foldl step c := by
  induction l generalizing off c with
  | nil => rfl
  | cons x xs ih =>
    simp only [List.enumFrom_cons, List.foldl_cons, concatIdx, List.foldl_append]
    rw [h x (List.mem_cons_self x xs), ih (fun y hy => h y (List.mem_cons_of_mem x hy))]

theorem for_each_transition_eq {σ : Type} (m : RMDP) (hm : m.Sized)
    (G : σ → Record → Effect σ) (e : Effect σ) :
    for_each_transition m
        (fun i j k t e => for_each_branch t (fun st dst p r => G st ⟨i, j, k, dst, p, r⟩) e) e
      = m.branches.foldl (fun e rec => e.bind fun st => G st rec) e := by
  unfold for_each_transition RMDP.branches List.enum
  apply foldl_enumFrom_eq_concatIdx
    (fun i (s : State) e1 => (s.actions.enumFrom 0).foldl
      (fun e2 ja => (ja.2.outcomes.enumFrom 0).foldl
        (fun e3 kt => for_each_branch kt.2
          (fun st dst p r => G st ⟨i, ja.1, kt.1, dst, p, r⟩) e3) e2) e1)
  intro s hs i c
  unfold State.records
  apply foldl_enumFrom_eq_concatIdx
    (fun j (a : Action) e2 => (a.outcomes.enumFrom 0).foldl
        (fun e3 kt => for_each_branch kt.2
          (fun st dst p r => G st ⟨i, j, kt.1, dst, p, r⟩) e3) e2)
  intro a ha j c
  unfold Action.records
  apply foldl_enumFrom_eq_concatIdx
    (fun k (t : Transition) e3 => for_each_branch t
          (fun st dst p r => G st ⟨i, j, k, dst, p, r⟩) e3)
  intro t ht k c
  exact for_each_branch_eq t (hm s hs a ha t ht) i j k G c

theorem foldl_collect (l acc : List Record) :
    l.foldl (fun (e : Effect (List Record)) rec => e.bind fun out => ⟨out ++ [rec], none⟩)
      ⟨acc, none⟩ = ⟨acc ++ l, none⟩ := by
  induction l generalizing acc with
  | nil => simp
  | cons x xs ih =>
    simp only [List.foldl_cons]
    have : (Effect.bind ⟨acc, none⟩ fun out => (⟨out ++ [x], none⟩ : Effect (List Record)))
        = ⟨acc ++ [x], none⟩ := rfl
    rw [this, ih]
    simp

/-- On an RMDP with the sizing invariant the export emits exactly the stored
branches in lexicographic order. -/
theorem RMDP.transitions_to_csv_eq (m : RMDP) (hm : m.Sized) :
    m.transitions_to_csv = ⟨m.branches, none⟩ := by
  unfold RMDP.transitions_to_csv
  rw [for_each_transition_eq m hm (fun out rec => ⟨out ++ [rec], none⟩), foldl_collect]
  simp

/-- On an RMDP with the sizing invariant the first part of `copy_into` replays
the stored branches, in lexicographic order, on the destination. -/
theorem copy_transitions_eq (m : RMDP) (hm : m.Sized) (result : RMDP) :
    copy_transitions m ⟨result, none⟩ = RMDP.replay result m.branches := by
  unfold copy_transitions RMDP.replay
  exact for_each_transition_eq m hm
    (fun res rec => res.add_transition rec.idstatefrom rec.idaction rec.idoutcome
      rec.idstateto rec.probability rec.reward) ⟨result, none⟩

/-! ## Generic facts on `concatIdx` -/

theorem concatIdx_append {α β : Type} (f : Nat → α → List β) (l1 l2 : List α) (off : Nat) :
    concatIdx f off (l1 ++ l2) = concatIdx f off l1 ++ concatIdx f (off + l1.length) l2 := by
  induction l1 generalizing off with
  | nil => simp [concatIdx]
  | cons x xs ih =>
    show f off x ++ concatIdx f (off + 1) (xs ++ l2)
      = (f off x ++ concatIdx f (off + 1) xs) ++ concatIdx f (off + (xs.length + 1)) l2
    rw [ih, List.append_assoc, show off + 1 + xs.length = off + (xs.length + 1) by omega]

theorem mem_concatIdx {α β : Type} (f : Nat → α → List β) (l : List α) (off : Nat) (r : β) :
    r ∈ concatIdx f off l ↔ ∃ j x, l[j]? = some x ∧ r ∈ f (off + j) x := by
  induction l generalizing off with
  | nil => simp [concatIdx]
  | cons x xs ih =>
    simp only [concatIdx, List.mem_append, ih]
    constructor
    · rintro (h | ⟨j, y, hy, hr⟩)
      · exact ⟨0, x, by simp, h⟩
      · exact ⟨j + 1, y, by simpa using hy,
          by rw [show off + (j + 1) = off + 1 + j by omega]; exact hr⟩
    · rintro ⟨j, y, hy, hr⟩
      cases j with
      | zero =>
        simp only [List.getElem?_cons_zero, Option.some.injEq] at hy
        subst hy
        exact Or.inl hr
      | succ j =>
        simp only [List.getElem?_cons_succ] at hy
        exact Or.inr ⟨j, y, hy, by rw [show off + 1 + j = off + (j + 1) by omega]; exact hr⟩

theorem concatIdx_eq_nil {α β : Type} (f : Nat → α → List β) (l : List α) (off : Nat)
    (h : ∀ j x, l[j]? = some x → f (off + j) x = []) : concatIdx f off l = [] := by
  apply List.eq_nil_iff_forall_not_mem.mpr
  intro r hr
  obtain ⟨j, x, hx, hrx⟩ := (mem_concatIdx f l off r).mp hr
  rw [h j x hx] at hrx
  exact List.not_mem_nil r hrx

theorem concatIdx_growTo {α β : Type} [Inhabited α] (f : Nat → α → List β)
    (hdef : ∀ i, f i default = []) (l : List α) (n off : Nat) :
    concatIdx f off (growTo l n) = concatIdx f off l := by
  unfold growTo
  rw [concatIdx_append, concatIdx_eq_nil f (List.replicate _ _)]
  · simp
  · intro j x hx
    rw [List.getElem?_replicate] at hx
    split at hx
    · simp only [Option.some.injEq] at hx
      rw [← hx]
      exact hdef _
    · simp at hx

/-- Appending a record at position `s` of a padded list appends it to the
concatenation when no later position holds records. -/
theorem concatIdx_modify_growTo {α β : Type} [Inhabited α] (f : Nat → α → List β)
    (hdef : ∀ i, f i default = []) (l : List α) (off s n : Nat) (g : α → α) (r : β)
    (hn : s < n)
    (hg : f (off + s) (g (l.getD s default)) = f (off + s) (l.getD s default) ++ [r])
    (hlater : ∀ j, s < j → f (off + j) (l.getD j default) = []) :
    concatIdx f off ((growTo l n).modify g s) = concatIdx f off l ++ [r] := by
  have hlen : s < (growTo l n).length := by rw [length_growTo]; omega
  have hget : (growTo l n)[s] = l.getD s default := by
    have := getElem?_growTo_of_lt l n s (by omega)
    rw [List.getElem?_eq_getElem hlen] at this
    exact Option.some.inj this
  have hdrop : concatIdx f (off + (s + 1)) ((growTo l n).drop (s + 1)) = [] := by
    apply concatIdx_eq_nil
    intro j x hx
    rw [List.getElem?_drop] at hx
    have hj : s + 1 + j < (growTo l n).length := (List.getElem?_eq_some_iff.mp hx).1
    rw [getElem?_growTo_of_lt l n _ (by rw [length_growTo] at hj; omega)] at hx
    rw [← Option.some.inj hx, show off + (s + 1) + j = off + (s + 1 + j) by omega]
    exact hlater _ (by omega)
  have htake : (List.take s (growTo l n)).length = s := by
    rw [List.length_take]; omega
  rw [List.modify_eq_take_cons_drop hlen, concatIdx_append, htake, hget]
  conv_rhs => rw [← concatIdx_growTo f hdef l n off, ← List.take_append_drop s (growTo l n),
    concatIdx_append, htake, List.drop_eq_getElem_cons hlen, hget]
  simp only [concatIdx]
  rw [show off + s + 1 = off + (s + 1) by omega]
  simp only [hg, hdrop, List.append_nil, List.append_assoc]

/-! ## Adding a branch behind all stored branches appends it to the export -/

theorem Transition.records_add (i j k : Nat) (t : Transition) (ht : t.Sized) (d : Int)
    (p r : ℚ) : (t.add d p r).records i j k = t.records i j k ++ [⟨i, j, k, d, p, r⟩] := by
  unfold Transition.records Transition.add
  simp only
  rw [List.zip_append (by rw [ht.1, ht.2]), List.zip_append
    (by rw [List.length_zip, ht.1, ht.2, Nat.min_self])]
  simp

theorem Action.records_addO (i j : Nat) (a : Action) (o : Nat) (d : Int) (p r : ℚ)
    (hs : (a.outcomes.getD o default).Sized)
    (hlater : ∀ o', o < o' → (a.outcomes.getD o' default).records i j o' = []) :
    (a.addO o d p r).records i j = a.records i j ++ [⟨i, j, o, d, p, r⟩] := by
  unfold Action.records Action.addO
  apply concatIdx_modify_growTo (fun k (t : Transition) => t.records i j k) (fun _ => rfl)
  · omega
  · simp only [Nat.zero_add]
    exact Transition.records_add i j o _ hs d p r
  · intro o' ho'
    simp only [Nat.zero_add]
    exact hlater o' ho'

theorem State.records_addA (i : Nat) (s : State) (a o : Nat) (d : Int) (p r : ℚ)
    (hs : ((s.actions.getD a default).outcomes.getD o default).Sized)
    (hlo : ∀ o', o < o' → ((s.actions.getD a default).outcomes.getD o' default).records i a o'
      = [])
    (hla : ∀ a', a < a' → (s.actions.getD a' default).records i a' = []) :
    (s.addA a o d p r).records i = s.records i ++ [⟨i, a, o, d, p, r⟩] := by
  unfold State.records State.addA
  apply concatIdx_modify_growTo (fun j (x : Action) => x.records i j) (fun _ => rfl)
  · omega
  · simp only [Nat.zero_add]
    exact Action.records_addO i a _ o d p r hs hlo
  · intro a' ha'
    simp only [Nat.zero_add]
    exact hla a' ha'

theorem RMDP.branches_addT (m : RMDP) (s a o dst : Nat) (p r : ℚ)
    (hs : (m.transitionD s a o).Sized)
    (hlo : ∀ o', o < o' → (m.transitionD s a o').records s a o' = [])
    (hla : ∀ a', a < a' → (m.actionD s a').records s a' = [])
    (hls : ∀ s', s < s' → (m.stateD s').records s' = []) :
    (m.addT s a o dst p r).branches = m.branches ++ [⟨s, a, o, dst, p, r⟩] := by
  unfold RMDP.branches RMDP.addT
  apply concatIdx_modify_growTo (fun i (x : State) => x.records i) (fun _ => rfl)
  · omega
  · simp only [Nat.zero_add]
    exact State.records_addA s _ a o dst p r hs hlo hla
  · intro s' hs'
    simp only [Nat.zero_add]
    exact hls s' hs'

/-! ## Keys of the exported records -/

theorem Transition.mem_records (i j k : Nat) (t : Transition) (x : Record)
    (h : x ∈ t.records i j k) :
    x.idstatefrom = i ∧ x.idaction = j ∧ x.idoutcome = k ∧ x.idstateto ∈ t.indices := by
  unfold Transition.records at h
  obtain ⟨y, hy, rfl⟩ := List.mem_map.mp h
  exact ⟨rfl, rfl, rfl, (List.of_mem_zip hy).1⟩

theorem Action.mem_records_outcome (i j : Nat) (a : Action) (x : Record) (h : x ∈ a.records i j) :
    ∃ (k : Nat) (t : Transition), a.outcomes[k]? = some t ∧ x ∈ t.records i j k := by
  unfold Action.records at h
  obtain ⟨k, t, ht, hx⟩ := (mem_concatIdx _ _ _ _).mp h
  exact ⟨k, t, ht, by simpa using hx⟩

theorem State.mem_records_action (i : Nat) (s : State) (x : Record) (h : x ∈ s.records i) :
    ∃ (j : Nat) (a : Action), s.actions[j]? = some a ∧ x ∈ a.records i j := by
  unfold State.records at h
  obtain ⟨j, a, ha, hx⟩ := (mem_concatIdx _ _ _ _).mp h
  exact ⟨j, a, ha, by simpa using hx⟩

theorem RMDP.mem_branches (m : RMDP) (x : Record) (h : x ∈ m.branches) :
    ∃ (i : Nat) (s : State), m.states[i]? = some s ∧ x ∈ s.records i := by
  unfold RMDP.branches at h
  obtain ⟨i, s, hs, hx⟩ := (mem_concatIdx _ _ _ _).mp h
  exact ⟨i, s, hs, by simpa using hx⟩

theorem RMDP.mem_branches_of (m : RMDP) (i j k : Nat) (x : Record)
    (h : x ∈ (m.transitionD i j k).records i j k) : x ∈ m.branches := by
  unfold RMDP.transitionD at h
  by_cases h1 : i < m.states.length
  · have e1 := List.getElem?_eq_getElem h1
    rw [getD_of_getElem? _ _ _ e1] at h
    by_cases h2 : j < (m.states[i]).actions.length
    · have e2 := List.getElem?_eq_getElem h2
      rw [getD_of_getElem? _ _ _ e2] at h
      by_cases h3 : k < ((m.states[i]).actions[j]).outcomes.length
      · have e3 := List.getElem?_eq_getElem h3
        rw [getD_of_getElem? _ _ _ e3] at h
        unfold RMDP.branches
        refine (mem_concatIdx _ _ _ _).mpr ⟨i, _, e1, ?_⟩
        unfold State.records
        refine (mem_concatIdx _ _ _ _).mpr ⟨j, _, e2, ?_⟩
        unfold Action.records
        exact (mem_concatIdx _ _ _ _).mpr ⟨k, _, e3, by simpa using h⟩
      · rw [getD_default_of_none ((m.states[i]).actions[j]).outcomes k (by omega)] at h
        exact absurd h (List.not_mem_nil x)
    · rw [getD_default_of_none (m.states[i]).actions j (by omega)] at h
      exact absurd h (List.not_mem_nil x)
  · rw [getD_default_of_none m.states i (by omega)] at h
    exact absurd h (List.not_mem_nil x)

theorem Action.records_key (i j : Nat) (a : Action) (x : Record) (h : x ∈ a.records i j) :
    x.idstatefrom = i ∧ x.idaction = j := by
  obtain ⟨k, t, -, hx⟩ := Action.mem_records_outcome i j a x h
  have := Transition.mem_records i j k t x hx
  exact ⟨this.1, this.2.1⟩

theorem State.records_state_key (i : Nat) (s : State) (x : Record) (h : x ∈ s.records i) :
    x.idstatefrom = i := by
  obtain ⟨j, a, -, hx⟩ := State.mem_records_action i s x h
  exact (Action.records_key i j a x hx).1

theorem RMDP.mem_branches_of_state (m : RMDP) (i : Nat) (x : Record)
    (h : x ∈ (m.stateD i).records i) : x ∈ m.branches := by
  unfold RMDP.stateD at h
  by_cases h1 : i < m.states.length
  · have e1 := List.getElem?_eq_getElem h1
    rw [getD_of_getElem? _ _ _ e1] at h
    unfold RMDP.branches
    exact (mem_concatIdx _ _ _ _).mpr ⟨i, _, e1, by simpa using h⟩
  · rw [getD_default_of_none m.states i (by omega)] at h
    exact absurd h (List.not_mem_nil x)

theorem RMDP.mem_branches_of_action (m : RMDP) (i j : Nat) (x : Record)
    (h : x ∈ (m.actionD i j).records i j) : x ∈ m.branches := by
  apply RMDP.mem_branches_of_state m i
  unfold RMDP.actionD at h
  by_cases h2 : j < (m.stateD i).actions.length
  · have e2 := List.getElem?_eq_getElem h2
    rw [getD_of_getElem? _ _ _ e2] at h
    unfold State.records
    exact (mem_concatIdx _ _ _ _).mpr ⟨j, _, e2, by simpa using h⟩
  · rw [getD_default_of_none (m.stateD i).actions j (by omega)] at h
    exact absurd h (List.not_mem_nil x)

/-! ## The export is sorted by key -/

theorem pairwise_concatIdx {α β : Type} (R : β → β → Prop) (f : Nat → α → List β)
    (h1 : ∀ i x, (f i x).Pairwise R)
    (h2 : ∀ i j x y r1 r2, i < j → r1 ∈ f i x → r2 ∈ f j y → R r1 r2)
    (l : List α) (off : Nat) : (concatIdx f off l).Pairwise R := by
  induction l generalizing off with
  | nil => exact List.Pairwise.nil
  | cons x xs ih =>
    simp only [concatIdx]
    rw [List.pairwise_append]
    refine ⟨h1 off x, ih (off + 1), ?_⟩
    intro r1 hr1 r2 hr2
    obtain ⟨j, y, -, hy⟩ := (mem_concatIdx f xs (off + 1) r2).mp hr2
    exact h2 off (off + 1 + j) x y r1 r2 (by omega) hr1 hy

theorem RMDP.branches_sorted (m : RMDP) : m.branches.Pairwise Record.keyLe := by
  unfold RMDP.branches
  apply pairwise_concatIdx
  · intro i s
    unfold State.records
    apply pairwise_concatIdx
    · intro j a
      unfold Action.records
      apply pairwise_concatIdx
      · intro k t
        apply List.pairwise_of_forall_mem_list
        intro x hx y hy
        have hx' := Transition.mem_records i j k t x hx
        have hy' := Transition.mem_records i j k t y hy
        right
        refine ⟨by rw [hx'.1, hy'.1], Or.inr ⟨by rw [hx'.2.1, hy'.2.1], ?_⟩⟩
        rw [hx'.2.2.1, hy'.2.2.1]
      · intro k k' t t' x y hk hx hy
        have hx' := Transition.mem_records i j k t x hx
        have hy' := Transition.mem_records i j k' t' y hy
        right
        refine ⟨by rw [hx'.1, hy'.1], Or.inr ⟨by rw [hx'.2.1, hy'.2.1], ?_⟩⟩
        rw [hx'.2.2.1, hy'.2.2.1]
        omega
    · intro j j' a a' x y hj hx hy
      have hx' := Action.records_key i j a x hx
      have hy' := Action.records_key i j' a' y hy
      right
      refine ⟨by rw [hx'.1, hy'.1], Or.inl ?_⟩
      rw [hx'.2, hy'.2]
      omega
  · intro i i' s s' x y hi hx hy
    left
    rw [State.records_state_key i s x hx, State.records_state_key i' s' y hy]
    omega

theorem RMDP.branches_valid (m : RMDP) (hm : m.WellFormed) (x : Record) (h : x ∈ m.branches) :
    0 ≤ x.idstatefrom ∧ 0 ≤ x.idaction ∧ 0 ≤ x.idoutcome ∧ 0 ≤ x.idstateto := by
  obtain ⟨i, s, hs, hx⟩ := RMDP.mem_branches m x h
  obtain ⟨j, a, ha, hx⟩ := State.mem_records_action i s x hx
  obtain ⟨k, t, ht, hx⟩ := Action.mem_records_outcome i j a x hx
  obtain ⟨e1, e2, e3, hmem⟩ := Transition.mem_records i j k t x hx
  refine ⟨by omega, by omega, by omega, ?_⟩
  exact (hm s (List.mem_iff_getElem?.mpr ⟨i, hs⟩) a (List.mem_iff_getElem?.mpr ⟨j, ha⟩) t
    (List.mem_iff_getElem?.mpr ⟨k, ht⟩)).2 _ hmem

/-! ## Replaying a sorted list of records rebuilds it -/

theorem forall_modify_growTo {α : Type} [Inhabited α] (G : α → Prop) (l : List α)
    (n s : Nat) (g : α → α) (hl : ∀ x ∈ l, G x) (hd : G default)
    (hg : ∀ x, G x → G (g x)) : ∀ y ∈ (growTo l n).modify g s, G y := by
  have hgrow : ∀ x ∈ growTo l n, G x := by
    intro x hx
    unfold growTo at hx
    rcases List.mem_append.mp hx with h | h
    · exact hl x h
    · rw [(List.mem_replicate.mp h).2]; exact hd
  intro y hy
  obtain ⟨idx, hidx⟩ := List.mem_iff_getElem?.mp hy
  rw [List.getElem?_modify] at hidx
  cases hx : (growTo l n)[idx]? with
  | none => rw [hx] at hidx; simp at hidx
  | some x =>
    rw [hx] at hidx
    simp only [Option.map_eq_map, Option.map_some', Option.some.injEq] at hidx
    have hGx := hgrow x (List.mem_iff_getElem?.mpr ⟨idx, hx⟩)
    rw [← hidx]
    split
    · exact hg x hGx
    · exact hGx

theorem Transition.add_sized (t : Transition) (ht : t.Sized) (d : Int) (p r : ℚ) :
    (t.add d p r).Sized := by
  unfold Transition.Sized Transition.add
  simp [ht.1, ht.2]

theorem RMDP.addT_sized (m : RMDP) (hm : m.Sized) (s a o dst : Nat) (p r : ℚ) :
    (m.addT s a o dst p r).Sized := by
  unfold RMDP.Sized RMDP.addT
  apply forall_modify_growTo (fun st : State => ∀ a ∈ st.actions, ∀ t ∈ a.outcomes, t.Sized)
  · exact hm
  · intro a ha
    exact absurd ha (List.not_mem_nil a)
  · intro st hst
    unfold State.addA
    apply forall_modify_growTo (fun ac : Action => ∀ t ∈ ac.outcomes, t.Sized)
    · exact hst
    · intro t ht
      exact absurd ht (List.not_mem_nil t)
    · intro ac hac
      unfold Action.addO
      apply forall_modify_growTo (fun t : Transition => t.Sized)
      · exact hac
      · exact ⟨rfl, rfl⟩
      · intro t ht
        exact Transition.add_sized t ht _ p r

theorem RMDP.replay_append (init : RMDP) (l : List Record) (x : Record) :
    RMDP.replay init (l ++ [x]) = (RMDP.replay init l).bind fun res =>
      res.add_transition x.idstatefrom x.idaction x.idoutcome x.idstateto x.probability
        x.reward := by
  unfold RMDP.replay
  rw [List.foldl_append]
  rfl

theorem RMDP.branches_add_transition (m : RMDP) (hm : m.Sized) (x : Record)
    (hv : 0 ≤ x.idstatefrom ∧ 0 ≤ x.idaction ∧ 0 ≤ x.idoutcome ∧ 0 ≤ x.idstateto)
    (hle : ∀ y ∈ m.branches, y.keyLe x) :
    m.add_transition x.idstatefrom x.idaction x.idoutcome x.idstateto x.probability x.reward
      = ⟨m.addT x.idstatefrom.toNat x.idaction.toNat x.idoutcome.toNat x.idstateto.toNat
          x.probability x.reward, none⟩ ∧
    (m.addT x.idstatefrom.toNat x.idaction.toNat x.idoutcome.toNat x.idstateto.toNat
      x.probability x.reward).branches = m.branches ++ [x] := by
  obtain ⟨h1, h2, h3, h4⟩ := hv
  refine ⟨RMDP.add_transition_nonneg m _ _ _ _ h1 h2 h3 h4 _ _, ?_⟩
  have hx : x = ⟨(x.idstatefrom.toNat : Int), (x.idaction.toNat : Int),
      (x.idoutcome.toNat : Int), (x.idstateto.toNat : Int), x.probability, x.reward⟩ := by
    cases x
    simp only [Record.mk.injEq, and_true] at *
    omega
  rw [RMDP.branches_addT m _ _ _ _ _ _ (RMDP.transitionD_sized m hm _ _ _), ← hx]
  · intro o' ho'
    apply List.eq_nil_iff_forall_not_mem.mpr
    intro y hy
    have hk := Transition.mem_records _ _ _ _ y hy
    have := hle y (RMDP.mem_branches_of m _ _ _ y hy)
    unfold Record.keyLe at this
    omega
  · intro a' ha'
    apply List.eq_nil_iff_forall_not_mem.mpr
    intro y hy
    have hk := Action.records_key _ _ _ y hy
    have := hle y (RMDP.mem_branches_of_action m _ _ y hy)
    unfold Record.keyLe at this
    omega
  · intro s' hs'
    apply List.eq_nil_iff_forall_not_mem.mpr
    intro y hy
    have hk := State.records_state_key _ _ y hy
    have := hle y (RMDP.mem_branches_of_state m _ y hy)
    unfold Record.keyLe at this
    omega

/-- Replaying a key-sorted list of valid records on an RMDP without branches
succeeds and yields an RMDP whose stored branches are exactly that list. -/
theorem RMDP.replay_sorted (init : RMDP) (h0 : init.Sized) (hb : init.branches = [])
    (l : List Record) (hsorted : l.Pairwise Record.keyLe)
    (hvalid : ∀ x ∈ l, 0 ≤ x.idstatefrom ∧ 0 ≤ x.idaction ∧ 0 ≤ x.idoutcome ∧ 0 ≤ x.idstateto) :
    (RMDP.replay init l).error = none ∧ (RMDP.replay init l).state.Sized ∧
      (RMDP.replay init l).state.branches = l := by
  induction l using List.reverseRecOn with
  | nil => exact ⟨rfl, h0, hb⟩
  | append_singleton l x ih =>
    rw [List.pairwise_append] at hsorted
    obtain ⟨hs1, -, hs2⟩ := hsorted
    obtain ⟨e1, e2, e3⟩ := ih hs1 (fun y hy => hvalid y (List.mem_append_left _ hy))
    have hle : ∀ y ∈ (RMDP.replay init l).state.branches, y.keyLe x := by
      intro y hy
      rw [e3] at hy
      exact hs2 y hy x (List.mem_singleton_self x)
    obtain ⟨a1, a2⟩ := RMDP.branches_add_transition _ e2 x
      (hvalid x (List.mem_append_right _ (List.mem_singleton_self x))) hle
    rw [RMDP.replay_append]
    unfold Effect.bind
    rw [e1]
    simp only
    rw [a1]
    exact ⟨rfl, RMDP.addT_sized _ e2 _ _ _ _ _ _, by rw [a2, e3]⟩

/-! ## The Transition at `(s, a, o)` from the exported records -/

theorem filter_concatIdx {α β : Type} [Inhabited α] (f : Nat → α → List β) (idx : β → Int)
    (hdef : ∀ i, f i default = [])
    (hkey : ∀ i x r, r ∈ f i x → idx r = (i : Int)) (l : List α) (off s : Nat) :
    (concatIdx f off l).filter (fun r => decide (idx r = ((off + s : Nat) : Int)))
      = f (off + s) (l.getD s default) := by
  induction l generalizing off s with
  | nil => simp [concatIdx, hdef]
  | cons x xs ih =>
    simp only [concatIdx, List.filter_append]
    cases s with
    | zero =>
      have h1 : (f off x).filter (fun r => decide (idx r = ((off + 0 : Nat) : Int))) = f off x := by
        rw [List.filter_eq_self]
        intro r hr
        simp [hkey off x r hr]
      have h2 : (concatIdx f (off + 1) xs).filter
          (fun r => decide (idx r = ((off + 0 : Nat) : Int))) = [] := by
        rw [List.filter_eq_nil_iff]
        intro r hr
        obtain ⟨j, y, -, hy⟩ := (mem_concatIdx f xs (off + 1) r).mp hr
        rw [hkey _ y r hy]
        simp only [decide_eq_true_eq]
        omega
      rw [h1, h2]
      simp
    | succ s =>
      have h1 : (f off x).filter (fun r => decide (idx r = ((off + (s + 1) : Nat) : Int)))
          = [] := by
        rw [List.filter_eq_nil_iff]
        intro r hr
        rw [hkey off x r hr]
        simp only [decide_eq_true_eq]
        omega
      have h2 := ih (off + 1) s
      rw [show off + 1 + s = off + (s + 1) by omega] at h2
      rw [h1, h2]
      simp

theorem RMDP.filter_branches (m : RMDP) (i j k : Nat) :
    ((m.branches.filter (fun x => decide (x.idstatefrom = (i : Int)))).filter
        (fun x => decide (x.idaction = (j : Int)))).filter
        (fun x => decide (x.idoutcome = (k : Int)))
      = (m.transitionD i j k).records i j k := by
  have h1 := filter_concatIdx (fun i (s : State) => s.records i) Record.idstatefrom
    (fun _ => rfl) (fun i s r hr => State.records_state_key i s r hr) m.states 0 i
  have h2 := filter_concatIdx (fun j (a : Action) => a.records i j) Record.idaction
    (fun _ => rfl) (fun j a r hr => (Action.records_key i j a r hr).2)
    (m.states.getD i default).actions 0 j
  have h3 := filter_concatIdx (fun k (t : Transition) => t.records i j k) Record.idoutcome
    (fun _ => rfl) (fun k t r hr => (Transition.mem_records i j k t r hr).2.2.1)
    ((m.states.getD i default).actions.getD j default).outcomes 0 k
  simp only [Nat.zero_add] at h1 h2 h3
  unfold RMDP.branches
  rw [h1]
  unfold State.records
  rw [h2]
  unfold Action.records
  rw [h3]
  rfl

theorem Transition.of_records (i j k : Nat) (t : Transition) (ht : t.Sized) :
    t = ⟨(t.records i j k).map Record.idstateto, (t.records i j k).map Record.probability,
      (t.records i j k).map Record.reward⟩ := by
  obtain ⟨hp, hr⟩ := ht
  cases t with
  | mk xs ps rs =>
    simp only at hp hr
    have hz : (List.zip ps rs).length = xs.length := by
      rw [List.length_zip, hp, hr, Nat.min_self]
    simp only [Transition.records, List.map_map, Transition.mk.injEq]
    refine ⟨?_, ?_, ?_⟩
    · exact (List.map_fst_zip xs (List.zip ps rs) (by omega)).symm
    · have h1 : (Record.probability ∘ fun (x : Int × ℚ × ℚ) =>
          (⟨i, j, k, x.1, x.2.1, x.2.2⟩ : Record)) = (Prod.fst ∘ Prod.snd) := rfl
      rw [h1, ← List.map_map, List.map_snd_zip xs (List.zip ps rs) (by omega),
        List.map_fst_zip ps rs (by omega)]
    · have h1 : (Record.reward ∘ fun (x : Int × ℚ × ℚ) =>
          (⟨i, j, k, x.1, x.2.1, x.2.2⟩ : Record)) = (Prod.snd ∘ Prod.snd) := rfl
      rw [h1, ← List.map_map, List.map_snd_zip xs (List.zip ps rs) (by omega),
        List.map_snd_zip ps rs (by omega)]

/-- Two RMDPs with the sizing invariant and the same stored branches hold the
same Transition at every `(s, a, o)`, an absent one counting as empty. -/
theorem RMDP.transitionD_eq_of_branches (m m' : RMDP) (hm : m.Sized) (hm' : m'.Sized)
    (h : m'.branches = m.branches) (i j k : Nat) : m'.transitionD i j k = m.transitionD i j k := by
  have e : (m'.transitionD i j k).records i j k = (m.transitionD i j k).records i j k := by
    rw [← RMDP.filter_branches, ← RMDP.filter_branches, h]
  rw [Transition.of_records i j k _ (RMDP.transitionD_sized m' hm' i j k),
    Transition.of_records i j k (m.transitionD i j k) (RMDP.transitionD_sized m hm i j k), e]

theorem RMDP.sized_of_wellFormed {m : RMDP} (hm : m.WellFormed) : m.Sized :=
  fun s hs a ha t ht => (hm s hs a ha t ht).1

/-! ## C8: CSV round trip at record level -/

/-- C8. For every RMDP `M` satisfying the data-model invariant (equally long
vectors, non-negative successor ids): the export emits exactly the stored
branches `(s,a,o,s',p,r)` in lexicographic (state, action, outcome, branch)
order; importing these records, i.e. passing them in that order to
`add_transition` on an empty RMDP, succeeds; the imported RMDP `M'` exports
the same record list, and at every `(s,a,o)` it holds the same Transition,
branch for branch, as `M` (an absent Transition counting as empty). -/
theorem csv_round_trip (m : RMDP) (hm : m.WellFormed) :
    m.transitions_to_csv = ⟨m.branches, none⟩ ∧
    (RMDP.transitions_from_csv m.transitions_to_csv.state).error = none ∧
    (RMDP.transitions_from_csv m.transitions_to_csv.state).state.transitions_to_csv
      = m.transitions_to_csv ∧
    ∀ s a o : Nat,
      (RMDP.transitions_from_csv m.transitions_to_csv.state).state.transitionD s a o
        = m.transitionD s a o := by
  have hexp := RMDP.transitions_to_csv_eq m (RMDP.sized_of_wellFormed hm)
  have himp : ∀ l, RMDP.transitions_from_csv l = RMDP.replay RMDP.empty l := fun _ => rfl
  obtain ⟨e1, e2, e3⟩ := RMDP.replay_sorted RMDP.empty
    (fun s hs => absurd hs (List.not_mem_nil s)) rfl m.branches m.branches_sorted
    (RMDP.branches_valid m hm)
  rw [hexp, himp]
  refine ⟨rfl, e1, ?_, ?_⟩
  · rw [RMDP.transitions_to_csv_eq _ e2, e3]
  · exact RMDP.transitionD_eq_of_branches m _ (RMDP.sized_of_wellFormed hm) e2 e3

/-- Witness for C8: scenario S3, whose state 2 has an empty action 0. -/
theorem csv_round_trip_witness :
    scenarioS3.WellFormed ∧
    scenarioS3.transitions_to_csv = ⟨scenarioS3.branches, none⟩ ∧
    (RMDP.transitions_from_csv scenarioS3.transitions_to_csv.state).error = none ∧
    (RMDP.transitions_from_csv scenarioS3.transitions_to_csv.state).state.transitions_to_csv
      = scenarioS3.transitions_to_csv ∧
    ∀ s a o : Nat,
      (RMDP.transitions_from_csv scenarioS3.transitions_to_csv.state).state.transitionD s a o
        = scenarioS3.transitionD s a o :=
  ⟨by decide, csv_round_trip scenarioS3 (by decide)⟩

/-! ## Operations that keep the form of the RMDP -/

theorem forall₂_self {α : Type} (R : α → α → Prop) (hr : ∀ x, R x x) (l : List α) :
    List.Forall₂ R l l := by
  induction l with
  | nil => exact List.Forall₂.nil
  | cons x xs ih => exact List.Forall₂.cons (hr x) ih

theorem forall₂_modify {α : Type} (R : α → α → Prop) (hr : ∀ x, R x x) (g : α → α)
    (hg : ∀ x, R x (g x)) (l : List α) (i : Nat) : List.Forall₂ R l (l.modify g i) := by
  induction l generalizing i with
  | nil => simp
  | cons x xs ih =>
    cases i with
    | zero => exact List.Forall₂.cons (hg x) (forall₂_self R hr xs)
    | succ i => exact List.Forall₂.cons (hr x) (ih i)

theorem forall₂_mapEffect {α : Type} (R : α → α → Prop) (hr : ∀ x, R x x) (f : α → Effect α)
    (hf : ∀ x, R x (f x).state) (l : List α) : List.Forall₂ R l (mapEffect f l).state := by
  induction l with
  | nil => exact List.Forall₂.nil
  | cons x xs ih =>
    unfold mapEffect
    cases h : (f x).error with
    | none => exact List.Forall₂.cons (hf x) ih
    | some e => exact List.Forall₂.cons (hf x) (forall₂_self R hr xs)

theorem forall₂_forall {α : Type} (R : α → α → Prop) (G : α → Prop)
    (hG : ∀ x y, R x y → G x → G y) {l l' : List α} (h : List.Forall₂ R l l')
    (hl : ∀ x ∈ l, G x) : ∀ y ∈ l', G y := by
  induction h with
  | nil => intro y hy; exact absurd hy (List.not_mem_nil y)
  | cons hxy _ ih =>
    intro z hz
    rcases List.mem_cons.mp hz with rfl | hz
    · exact hG _ _ hxy (hl _ (List.mem_cons_self _ _))
    · exact ih (fun w hw => hl w (List.mem_cons_of_mem _ hw)) z hz

theorem forall₂_trimmed {α : Type} (R : α → α → Prop) (P : α → Prop)
    (hP : ∀ x y, R x y → P x → P y) {l l' : List α} (h : List.Forall₂ R l l')
    (hl : Trimmed P l) : Trimmed P l' := by
  induction h with
  | nil => intro x hx; simp at hx
  | @cons x y xs ys hxy hrest ih =>
    cases hrest with
    | nil =>
      intro z hz
      simp only [List.getLast?_singleton, Option.some.injEq] at hz
      rw [← hz]
      exact hP x y hxy (hl x (by simp))
    | @cons x2 y2 xs2 ys2 h2 hrest2 =>
      intro z hz
      rw [List.getLast?_cons_cons] at hz
      refine ih ?_ z hz
      intro w hw
      exact hl w (by rw [List.getLast?_cons_cons]; exact hw)

theorem forall₂_length {α : Type} (R : α → α → Prop) {l l' : List α}
    (h : List.Forall₂ R l l') : l'.length = l.length := by
  induction h with
  | nil => rfl
  | cons _ _ ih => simp [ih]

theorem Transition.canon_of_form {n : Nat} {t t' : Transition} (h : t.SameForm t')
    (ht : t.Canon n) : t'.Canon n := by
  obtain ⟨h1, h2, h3⟩ := h
  obtain ⟨⟨hp, hr⟩, hi⟩ := ht
  refine ⟨⟨by rw [h2, h1, hp], by rw [h3, h1, hr]⟩, ?_⟩
  rw [h1]
  exact hi

theorem Action.canon_of_action_form {n : Nat} {a a' : Action} (h : a.SameForm a')
    (ha : a.Canon n) : a'.Canon n := by
  refine ⟨forall₂_forall _ _ (fun _ _ hxy hx => Transition.canon_of_form hxy hx) h ha.1,
    forall₂_trimmed _ _ (fun x y hxy hx => ?_) h ha.2⟩
  rw [hxy.1]
  exact hx

theorem State.canon_of_state_form {n : Nat} {s s' : State} (h : s.SameForm s')
    (hs : s.Canon n) : s'.Canon n := by
  refine ⟨forall₂_forall _ _ (fun _ _ hxy hx => Action.canon_of_action_form hxy hx) h hs.1,
    forall₂_trimmed _ _ (fun x y hxy hx => ?_) h hs.2⟩
  intro hy
  have hlen := forall₂_length _ hxy
  rw [hy] at hlen
  exact hx (List.length_eq_zero.mp hlen.symm)

theorem RMDP.canon_of_sameForm {m m' : RMDP} (h : m.SameForm m') (hm : m.Canon) :
    m'.Canon := by
  unfold RMDP.Canon
  rw [forall₂_length _ h]
  exact forall₂_forall _ _ (fun _ _ hxy hx => State.canon_of_state_form hxy hx) h hm

theorem Transition.sameForm_refl (t : Transition) : t.SameForm t := ⟨rfl, rfl, rfl⟩

theorem Action.sameForm_refl_action (a : Action) : a.SameForm a :=
  forall₂_self _ Transition.sameForm_refl _

theorem State.sameForm_refl_state (s : State) : s.SameForm s :=
  forall₂_self _ Action.sameForm_refl_action _

theorem RMDP.sameForm_refl_rmdp (m : RMDP) : m.SameForm m :=
  forall₂_self _ State.sameForm_refl_state _

theorem RMDP.update_action_sameForm (m : RMDP) (s a : Nat) (f : Action → Action)
    (hf : ∀ x : Action, x.SameForm (f x)) : m.SameForm (m.update_action s a f) := by
  unfold RMDP.update_action RMDP.SameForm
  apply forall₂_modify _ State.sameForm_refl_state
  intro st
  exact forall₂_modify _ Action.sameForm_refl_action f hf st.actions a

theorem RMDP.update_transition_sameForm (m : RMDP) (s a o : Nat) (f : Transition → Transition)
    (hf : ∀ x : Transition, x.SameForm (f x)) : m.SameForm (m.update_transition s a o f) := by
  unfold RMDP.update_transition RMDP.SameForm
  apply forall₂_modify _ State.sameForm_refl_state
  intro st
  apply forall₂_modify _ Action.sameForm_refl_action
  intro ac
  exact forall₂_modify _ Transition.sameForm_refl f hf ac.outcomes o

theorem RMDP.set_reward_sameForm (m : RMDP) (s a o k : Int) (r : ℚ) :
    m.SameForm (m.set_reward s a o k r).state := by
  unfold RMDP.set_reward
  split
  · exact RMDP.sameForm_refl_rmdp m
  · split
    · exact RMDP.sameForm_refl_rmdp m
    · apply RMDP.update_transition_sameForm
      intro x
      exact ⟨rfl, rfl, by simp⟩

theorem RMDP.set_threshold_sameForm (m : RMDP) (s a : Int) (t : Prec) :
    m.SameForm (m.set_threshold s a t).state := by
  rw [RMDP.set_threshold_eq]
  split
  · split
    · exact RMDP.sameForm_refl_rmdp m
    · apply RMDP.update_action_sameForm
      intro x
      exact Action.sameForm_refl_action x
  · exact RMDP.sameForm_refl_rmdp m

theorem Action.set_distribution_keeps_form (a : Action) (tol : ℚ) (dist : List ℚ) (t : ℚ) :
    a.SameForm (a.set_distribution tol dist t).state := by
  unfold Action.set_distribution
  split
  · exact Action.sameForm_refl_action a
  · split
    · exact Action.sameForm_refl_action a
    · split
      · exact Action.sameForm_refl_action a
      · exact Action.sameForm_refl_action a

theorem RMDP.set_distribution_sameForm (m : RMDP) (tol : ℚ) (s a : Int) (dist : List ℚ)
    (t : ℚ) : m.SameForm (m.set_distribution tol s a dist t).state := by
  unfold RMDP.set_distribution
  split
  · exact RMDP.sameForm_refl_rmdp m
  · split
    · exact RMDP.sameForm_refl_rmdp m
    · split
      · exact RMDP.sameForm_refl_rmdp m
      · split
        · exact RMDP.sameForm_refl_rmdp m
        · apply RMDP.update_action_sameForm
          intro x
          exact Action.set_distribution_keeps_form x tol dist t

theorem Action.set_threshold_keeps_form (a : Action) (t : ℚ) :
    a.SameForm (a.set_threshold t).state := by
  unfold Action.set_threshold
  split
  · exact Action.sameForm_refl_action a
  · exact Action.sameForm_refl_action a

theorem RMDP.set_uniform_thresholds_sameForm (m : RMDP) (t : ℚ) :
    m.SameForm (m.set_uniform_thresholds t).state := by
  unfold RMDP.set_uniform_thresholds RMDP.SameForm
  apply forall₂_mapEffect _ State.sameForm_refl_state
  intro st
  unfold State.set_thresholds
  exact forall₂_mapEffect _ Action.sameForm_refl_action _
    (fun x => Action.set_threshold_keeps_form x t) st.actions

theorem RMDP.set_uniform_distribution_sameForm (m : RMDP) (tol t : ℚ) :
    m.SameForm (m.set_uniform_distribution tol t).state := by
  unfold RMDP.set_uniform_distribution RMDP.SameForm
  apply forall₂_mapEffect _ State.sameForm_refl_state
  intro st
  exact forall₂_mapEffect _ Action.sameForm_refl_action _
    (fun x => Action.set_distribution_keeps_form x tol _ t) st.actions

theorem Transition.normalize_keeps_form (t : Transition) : t.SameForm t.normalize.state := by
  unfold Transition.normalize
  split
  · exact Transition.sameForm_refl t
  · split
    · exact Transition.sameForm_refl t
    · exact ⟨rfl, by simp, rfl⟩

theorem RMDP.normalize_sameForm (m : RMDP) : m.SameForm m.normalize.state := by
  unfold RMDP.normalize RMDP.SameForm
  apply forall₂_mapEffect _ State.sameForm_refl_state
  intro st
  apply forall₂_mapEffect _ Action.sameForm_refl_action
  intro ac
  exact forall₂_mapEffect _ Transition.sameForm_refl _ Transition.normalize_keeps_form ac.outcomes

/-! ## `add_transition` keeps the built shape; reachable RMDPs have it -/

theorem trimmed_modify_growTo {α : Type} [Inhabited α] (P : α → Prop) (l : List α) (s : Nat)
    (g : α → α) (hg : ∀ x, P (g x)) (ht : Trimmed P l) :
    Trimmed P ((growTo l (s + 1)).modify g s) := by
  intro x hx
  rw [List.getLast?_eq_getElem?, List.length_modify, length_growTo, List.getElem?_modify] at hx
  by_cases hs : s = max l.length (s + 1) - 1
  · simp only [if_pos hs] at hx
    cases hy : (growTo l (s + 1))[max l.length (s + 1) - 1]? with
    | none => rw [hy] at hx; simp at hx
    | some y =>
      rw [hy] at hx
      simp only [Option.map_eq_map, Option.map_some', Option.some.injEq] at hx
      rw [← hx]
      exact hg y
  · simp only [if_neg hs] at hx
    have hlen : s + 1 < l.length := by omega
    have hidx : max l.length (s + 1) - 1 = l.length - 1 := by omega
    rw [hidx, getElem?_growTo, if_pos (by omega)] at hx
    apply ht x
    rw [List.getLast?_eq_getElem?]
    cases hy : l[l.length - 1]? with
    | none => rw [hy] at hx; simp at hx
    | some y => rw [hy] at hx; simpa using hx

theorem Transition.canon_mono {n n' : Nat} {t : Transition} (h : t.Canon n) (hn : n ≤ n') :
    t.Canon n' :=
  ⟨h.1, fun x hx => ⟨(h.2 x hx).1, by have := (h.2 x hx).2; omega⟩⟩

theorem Action.canon_mono_action {n n' : Nat} {a : Action} (h : a.Canon n) (hn : n ≤ n') :
    a.Canon n' :=
  ⟨fun t ht => Transition.canon_mono (h.1 t ht) hn, h.2⟩

theorem State.canon_mono_state {n n' : Nat} {s : State} (h : s.Canon n) (hn : n ≤ n') :
    s.Canon n' :=
  ⟨fun a ha => Action.canon_mono_action (h.1 a ha) hn, h.2⟩

theorem Transition.canon_default (n : Nat) : (default : Transition).Canon n :=
  ⟨⟨rfl, rfl⟩, fun x hx => absurd hx (List.not_mem_nil x)⟩

theorem Action.canon_default_action (n : Nat) : (default : Action).Canon n :=
  ⟨fun t ht => absurd ht (List.not_mem_nil t), fun x hx => by simp [Inhabited.default] at hx⟩

theorem State.canon_default_state (n : Nat) : (default : State).Canon n :=
  ⟨fun a ha => absurd ha (List.not_mem_nil a), fun x hx => by simp [Inhabited.default] at hx⟩

theorem Transition.add_canon {n : Nat} {t : Transition} (h : t.Canon n) (d : Int) (p r : ℚ)
    (hd0 : 0 ≤ d) (hd : d < (n : Int)) : (t.add d p r).Canon n := by
  refine ⟨Transition.add_sized t h.1 d p r, ?_⟩
  intro x hx
  simp only [Transition.add, List.mem_append, List.mem_singleton] at hx
  rcases hx with hx | rfl
  · exact h.2 x hx
  · exact ⟨hd0, hd⟩

theorem Action.addO_canon {n : Nat} {a : Action} (h : a.Canon n) (o : Nat) (d : Int) (p r : ℚ)
    (hd0 : 0 ≤ d) (hd : d < (n : Int)) : (a.addO o d p r).Canon n := by
  constructor
  · exact forall_modify_growTo (fun t : Transition => t.Canon n) _ _ _ _ h.1
      (Transition.canon_default n) (fun t ht => Transition.add_canon ht d p r hd0 hd)
  · exact trimmed_modify_growTo (fun t : Transition => t.indices ≠ []) _ _ _
      (fun t => by simp [Transition.add]) h.2

theorem State.addA_canon {n : Nat} {s : State} (h : s.Canon n) (a o : Nat) (d : Int) (p r : ℚ)
    (hd0 : 0 ≤ d) (hd : d < (n : Int)) : (s.addA a o d p r).Canon n := by
  constructor
  · exact forall_modify_growTo (fun x : Action => x.Canon n) _ _ _ _ h.1
      (Action.canon_default_action n) (fun x hx => Action.addO_canon hx o d p r hd0 hd)
  · refine trimmed_modify_growTo (fun x : Action => x.outcomes ≠ []) _ _ _ (fun x => ?_) h.2
    intro hx
    have := Action.addO_outcomes_length x o d p r
    rw [hx] at this
    simp at this
    omega

theorem RMDP.addT_canon (m : RMDP) (hm : m.Canon) (s a o dst : Nat) (p r : ℚ) :
    (m.addT s a o dst p r).Canon := by
  unfold RMDP.Canon
  rw [RMDP.addT_states_length]
  unfold RMDP.addT
  exact forall_modify_growTo (fun x : State => x.Canon (max m.states.length (max s dst + 1)))
    _ _ _ _ (fun x hx => State.canon_mono_state (hm x hx) (by omega)) (State.canon_default_state _)
    (fun x hx => State.addA_canon hx a o dst p r (by omega) (by omega))

theorem add_transition_of_negative (m : RMDP) (s a o d : Int) (p r : ℚ)
    (h : s < 0 ∨ d < 0) : m.add_transition s a o d p r = ⟨m, some Error.InvalidIndex⟩ := by
  unfold RMDP.add_transition
  by_cases hs : s < 0
  · rw [if_pos hs]
  · rw [if_neg hs, if_pos (h.resolve_left hs)]

theorem Action.add_outcome_neg (a : Action) (o d : Int) (p r : ℚ) (ho : o < 0) :
    (a.add_outcome o d p r).error = some Error.InvalidIndex := by
  unfold Action.add_outcome
  simp [ho]

theorem State.add_action_error_none (s : State) (a o d : Int) (p r : ℚ)
    (h : (s.add_action a o d p r).error = none) : 0 ≤ a ∧ 0 ≤ o := by
  by_cases ha : a < 0
  · unfold State.add_action at h
    simp [ha] at h
  · by_cases ho : o < 0
    · unfold State.add_action at h
      rw [resize_guard_eq_growTo _ _ (by omega)] at h
      have hlt : a.toNat < (growTo s.actions (a.toNat + 1)).length := by
        rw [length_growTo]; omega
      simp only [ha, if_false, List.getElem?_eq_getElem hlt,
        Action.add_outcome_neg _ o d p r ho] at h
      exact absurd h (by simp)
    · omega

theorem RMDP.add_transition_error_none (m : RMDP) (s a o d : Int) (p r : ℚ)
    (h : (m.add_transition s a o d p r).error = none) : 0 ≤ s ∧ 0 ≤ a ∧ 0 ≤ o ∧ 0 ≤ d := by
  by_cases hs : s < 0
  · unfold RMDP.add_transition at h
    rw [if_pos hs] at h
    exact absurd h (by simp)
  · by_cases hd : d < 0
    · unfold RMDP.add_transition at h
      rw [if_neg hs, if_pos hd] at h
      exact absurd h (by simp)
    · unfold RMDP.add_transition at h
      simp only [hs, hd, if_false] at h
      rw [resize_guard_eq_growTo _ _ (le_trans (not_lt.mp hs) (le_max_left s d))] at h
      have hlt : s.toNat < (growTo m.states ((max s d).toNat + 1)).length := by
        rw [length_growTo]
        have : s ≤ max s d := le_max_left s d
        omega
      simp only [List.getElem?_eq_getElem hlt] at h
      have := State.add_action_error_none _ a o d p r h
      exact ⟨by omega, this.1, this.2, by omega⟩

theorem getElem?_set_self_eq {α : Type} (l : List α) (i : Nat) (x : α) (h : l[i]? = some x) :
    l.set i x = l := by
  apply List.ext_getElem?
  intro j
  rw [List.getElem?_set]
  by_cases hij : i = j
  · subst hij
    rw [if_pos rfl, h]
    have : i < l.length := (List.getElem?_eq_some_iff.mp h).1
    simp [this]
  · rw [if_neg hij]

theorem State.add_action_neg (s : State) (a o d : Int) (p r : ℚ) (ha : a < 0) :
    (s.add_action a o d p r).state = s := by
  unfold State.add_action
  have h1 : ¬ a ≥ (s.actions.length : Int) := by omega
  simp [ha, h1]

theorem RMDP.add_transition_neg_action (m : RMDP) (s a o d : Int) (p r : ℚ) (hs : 0 ≤ s)
    (hd : 0 ≤ d) (ha : a < 0) :
    (m.add_transition s a o d p r).state = ⟨growTo m.states ((max s d).toNat + 1)⟩ := by
  unfold RMDP.add_transition
  simp only [not_lt.mpr hs, not_lt.mpr hd, if_false]
  rw [resize_guard_eq_growTo _ _ (le_trans hs (le_max_left s d))]
  have hlt : s.toNat < (growTo m.states ((max s d).toNat + 1)).length := by
    rw [length_growTo]
    have : s ≤ max s d := le_max_left s d
    omega
  simp only [List.getElem?_eq_getElem hlt, State.add_action_neg _ a o d p r ha]
  rw [getElem?_set_self_eq _ _ _ (List.getElem?_eq_getElem hlt)]

theorem RMDP.canon_growTo (m : RMDP) (hm : m.Canon) (n : Nat) :
    RMDP.Canon ⟨growTo m.states n⟩ := by
  intro st hst
  simp only [length_growTo]
  unfold growTo at hst
  rcases List.mem_append.mp hst with h | h
  · exact State.canon_mono_state (hm st h) (by omega)
  · rw [(List.mem_replicate.mp h).2]
    exact State.canon_default_state _

/-- Every RMDP built from the empty RMDP by the public operations has the
shape `add_transition` builds: the sizing invariant holds, successor ids are
valid state ids, the last outcome of an action has a branch and the last
action of a state has an outcome. -/
theorem Reachable.canon {m : RMDP} (h : Reachable m) : m.Canon := by
  induction h with
  | empty => intro s hs; exact absurd hs (List.not_mem_nil s)
  | add_transition m s a o dst p r _ hok ih =>
    obtain ⟨h1, h2, h3, h4⟩ := RMDP.add_transition_error_none m s a o dst p r hok
    rw [RMDP.add_transition_nonneg m s a o dst h1 h2 h3 h4]
    exact RMDP.addT_canon m ih _ _ _ _ _ _
  | add_transition_rejected m s a o dst p r _ hneg ih =>
    by_cases hs : s < 0
    · rw [add_transition_of_negative m s a o dst p r (Or.inl hs)]
      exact ih
    · by_cases hd : dst < 0
      · rw [add_transition_of_negative m s a o dst p r (Or.inr hd)]
        exact ih
      · have ha : a < 0 := by
          rcases hneg with h | h | h
          · exact absurd h hs
          · exact absurd h hd
          · exact h
        rw [RMDP.add_transition_neg_action m s a o dst p r (by omega) (by omega) ha]
        exact RMDP.canon_growTo m ih _
  | set_reward m s a o k r _ ih => exact RMDP.canon_of_sameForm (RMDP.set_reward_sameForm m s a o k r) ih
  | set_distribution m tol s a dist t _ ih =>
    exact RMDP.canon_of_sameForm (RMDP.set_distribution_sameForm m tol s a dist t) ih
  | set_threshold m s a t _ ih => exact RMDP.canon_of_sameForm (RMDP.set_threshold_sameForm m s a t) ih
  | set_uniform_thresholds m t _ ih =>
    exact RMDP.canon_of_sameForm (RMDP.set_uniform_thresholds_sameForm m t) ih
  | set_uniform_distribution m tol t _ ih =>
    exact RMDP.canon_of_sameForm (RMDP.set_uniform_distribution_sameForm m tol t) ih
  | normalize m _ ih => exact RMDP.canon_of_sameForm (RMDP.normalize_sameForm m) ih

/-! ## The stored branches determine the shape of a built RMDP -/

theorem concatIdx_inj {α β γ : Type} (f : Nat → α → List β) (idx : β → Int) (proj : α → γ)
    (G : α → Prop) (hkey : ∀ i x r, r ∈ f i x → idx r = (i : Int))
    (hinj : ∀ i x y, G x → G y → f i x = f i y → proj x = proj y) (l1 l2 : List α)
    (off : Nat) (h1 : ∀ x ∈ l1, G x) (h2 : ∀ x ∈ l2, G x) (hlen : l1.length = l2.length)
    (h : concatIdx f off l1 = concatIdx f off l2) : l1.map proj = l2.map proj := by
  induction l1 generalizing l2 off with
  | nil =>
    cases l2 with
    | nil => rfl
    | cons y ys => simp at hlen
  | cons x xs ih =>
    cases l2 with
    | nil => simp at hlen
    | cons y ys =>
      simp only [concatIdx] at h
      have hfilt : ∀ (z : α) (zs : List α),
          (f off z ++ concatIdx f (off + 1) zs).filter (fun r => decide (idx r = (off : Int)))
            = f off z := by
        intro z zs
        rw [List.filter_append]
        have e1 : (f off z).filter (fun r => decide (idx r = (off : Int))) = f off z := by
          rw [List.filter_eq_self]
          intro r hr
          simp [hkey off z r hr]
        have e2 : (concatIdx f (off + 1) zs).filter (fun r => decide (idx r = (off : Int)))
            = [] := by
          rw [List.filter_eq_nil_iff]
          intro r hr
          obtain ⟨j, w, -, hw⟩ := (mem_concatIdx f zs (off + 1) r).mp hr
          rw [hkey _ w r hw]
          simp only [decide_eq_true_eq]
          omega
        rw [e1, e2, List.append_nil]
      have hxy : f off x = f off y := by
        rw [← hfilt x xs, ← hfilt y ys, h]
      rw [hxy] at h
      have hrest := List.append_cancel_left h
      simp only [List.map_cons]
      rw [hinj off x y (h1 x (List.mem_cons_self x xs)) (h2 y (List.mem_cons_self y ys)) hxy,
        ih ys (off + 1) (fun z hz => h1 z (List.mem_cons_of_mem x hz))
          (fun z hz => h2 z (List.mem_cons_of_mem y hz)) (by simpa using hlen) hrest]

theorem trimmed_length_le {α β : Type} (f : Nat → α → List β) (idx : β → Int)
    (G P : α → Prop) (hkey : ∀ i x r, r ∈ f i x → idx r = (i : Int))
    (hP : ∀ i x, G x → P x → f i x ≠ []) (l1 l2 : List α) (off : Nat)
    (h2 : ∀ x ∈ l2, G x) (ht : Trimmed P l2)
    (hsub : ∀ r ∈ concatIdx f off l2, r ∈ concatIdx f off l1) : l2.length ≤ l1.length := by
  by_contra hlt
  have hpos : l2.length - 1 < l2.length := by omega
  have hlast : l2.getLast? = some l2[l2.length - 1] := by
    rw [List.getLast?_eq_getElem?, List.getElem?_eq_getElem hpos]
  have hne := hP (off + (l2.length - 1)) _ (h2 _ (List.getElem_mem hpos)) (ht _ hlast)
  obtain ⟨r, hr⟩ := List.exists_mem_of_ne_nil _ hne
  have hr2 : r ∈ concatIdx f off l2 :=
    (mem_concatIdx f l2 off r).mpr ⟨_, _, List.getElem?_eq_getElem hpos, hr⟩
  obtain ⟨j, x, hx, hrx⟩ := (mem_concatIdx f l1 off r).mp (hsub r hr2)
  have hj : j < l1.length := (List.getElem?_eq_some_iff.mp hx).1
  have e1 := hkey _ _ r hr
  have e2 := hkey _ _ r hrx
  omega

theorem Transition.records_ne_nil (i j k : Nat) (t : Transition) (ht : t.Sized)
    (h : t.indices ≠ []) : t.records i j k ≠ [] := by
  intro hc
  have := Transition.records_length i j k t ht
  rw [hc] at this
  exact h (List.length_eq_zero.mp this.symm)

theorem Action.records_ne_nil_of_outcomes (n i j : Nat) (a : Action) (ha : a.Canon n)
    (h : a.outcomes ≠ []) : a.records i j ≠ [] := by
  have hpos : a.outcomes.length - 1 < a.outcomes.length := by
    have := List.length_pos.mpr h
    omega
  have hlast : a.outcomes.getLast? = some a.outcomes[a.outcomes.length - 1] := by
    rw [List.getLast?_eq_getElem?, List.getElem?_eq_getElem hpos]
  have hne := Transition.records_ne_nil i j (a.outcomes.length - 1) _
    (ha.1 _ (List.getElem_mem hpos)).1 (ha.2 _ hlast)
  obtain ⟨r, hr⟩ := List.exists_mem_of_ne_nil _ hne
  intro hc
  have : r ∈ a.records i j := by
    unfold Action.records
    exact (mem_concatIdx _ _ _ _).mpr ⟨_, _, List.getElem?_eq_getElem hpos, by simpa using hr⟩
  rw [hc] at this
  exact List.not_mem_nil r this

theorem Action.outcomes_eq_of_records (n i j : Nat) (a b : Action) (ha : a.Canon n)
    (hb : b.Canon n) (h : a.records i j = b.records i j) : a.outcomes = b.outcomes := by
  have key : ∀ (k : Nat) (t : Transition) (r : Record), r ∈ t.records i j k →
      r.idoutcome = (k : Int) := fun k t r hr => (Transition.mem_records i j k t r hr).2.2.1
  have hPne : ∀ (k : Nat) (t : Transition), t.Canon n → t.indices ≠ [] → t.records i j k ≠ [] :=
    fun k t ht hne => Transition.records_ne_nil i j k t ht.1 hne
  unfold Action.records at h
  have l1 := trimmed_length_le (fun k (t : Transition) => t.records i j k) Record.idoutcome
    (fun t => t.Canon n) (fun t => t.indices ≠ []) key hPne a.outcomes b.outcomes 0 hb.1 hb.2
    (fun r hr => by rw [h]; exact hr)
  have l2 := trimmed_length_le (fun k (t : Transition) => t.records i j k) Record.idoutcome
    (fun t => t.Canon n) (fun t => t.indices ≠ []) key hPne b.outcomes a.outcomes 0 ha.1 ha.2
    (fun r hr => by rw [← h]; exact hr)
  have := concatIdx_inj (fun k (t : Transition) => t.records i j k) Record.idoutcome id
    (fun t => t.Canon n) key
    (fun k x y hx hy hxy => by
      show x = y
      have hxy' : x.records i j k = y.records i j k := hxy
      rw [Transition.of_records i j k x hx.1, Transition.of_records i j k y hy.1, hxy'])
    a.outcomes b.outcomes 0 ha.1 hb.1 (by omega) h
  simpa using this

theorem State.shape_eq_of_records (n i : Nat) (s s' : State) (hs : s.Canon n)
    (hs' : s'.Canon n) (h : s.records i = s'.records i) : s.shape = s'.shape := by
  have key : ∀ (j : Nat) (a : Action) (r : Record), r ∈ a.records i j →
      r.idaction = (j : Int) := fun j a r hr => (Action.records_key i j a r hr).2
  have hPne : ∀ (j : Nat) (a : Action), a.Canon n → a.outcomes ≠ [] → a.records i j ≠ [] :=
    fun j a ha hne => Action.records_ne_nil_of_outcomes n i j a ha hne
  unfold State.records at h
  have l1 := trimmed_length_le (fun j (a : Action) => a.records i j) Record.idaction
    (fun a => a.Canon n) (fun a => a.outcomes ≠ []) key hPne s.actions s'.actions 0 hs'.1 hs'.2
    (fun r hr => by rw [h]; exact hr)
  have l2 := trimmed_length_le (fun j (a : Action) => a.records i j) Record.idaction
    (fun a => a.Canon n) (fun a => a.outcomes ≠ []) key hPne s'.actions s.actions 0 hs.1 hs.2
    (fun r hr => by rw [← h]; exact hr)
  exact concatIdx_inj (fun j (a : Action) => a.records i j) Record.idaction Action.outcomes
    (fun a => a.Canon n) key
    (fun j x y hx hy hxy => Action.outcomes_eq_of_records n i j x y hx hy hxy)
    s.actions s'.actions 0 hs.1 hs'.1 (by omega) h

/-- Two built RMDPs with the same number of states and the same stored
branches have the same transition tensor. -/
theorem RMDP.shape_eq_of_branches (m m' : RMDP) (hm : m.Canon) (hm' : m'.Canon)
    (hlen : m'.states.length = m.states.length) (h : m'.branches = m.branches) :
    m'.shape = m.shape := by
  unfold RMDP.Canon at hm hm'
  rw [hlen] at hm'
  exact concatIdx_inj (fun i (s : State) => s.records i) Record.idstatefrom State.shape
    (fun s => s.Canon m.states.length) (fun i s r hr => State.records_state_key i s r hr)
    (fun i x y hx hy hxy => State.shape_eq_of_records _ i x y hx hy hxy)
    m'.states m.states 0 hm' hm hlen h

/-! ## C7: `copy` -/

theorem RMDP.replay_canon (init : RMDP) (hc : init.Canon) (l : List Record)
    (hvalid : ∀ x ∈ l, 0 ≤ x.idstatefrom ∧ x.idstatefrom < (init.states.length : Int) ∧
      0 ≤ x.idaction ∧ 0 ≤ x.idoutcome ∧ 0 ≤ x.idstateto ∧
      x.idstateto < (init.states.length : Int)) :
    (RMDP.replay init l).state.Canon ∧
      (RMDP.replay init l).state.states.length = init.states.length := by
  induction l using List.reverseRecOn with
  | nil => exact ⟨hc, rfl⟩
  | append_singleton l x ih =>
    obtain ⟨e1, e2⟩ := ih (fun y hy => hvalid y (List.mem_append_left _ hy))
    obtain ⟨h1, h2, h3, h4, h5, h6⟩ :=
      hvalid x (List.mem_append_right _ (List.mem_singleton_self x))
    rw [RMDP.replay_append]
    unfold Effect.bind
    cases he : (RMDP.replay init l).error with
    | some err => exact ⟨e1, e2⟩
    | none =>
      simp only
      rw [RMDP.add_transition_nonneg _ _ _ _ _ h1 h3 h4 h5]
      refine ⟨RMDP.addT_canon _ e1 _ _ _ _ _ _, ?_⟩
      rw [RMDP.addT_states_length, e2]
      omega

theorem RMDP.branches_in_range (m : RMDP) (hm : m.Canon) (x : Record) (h : x ∈ m.branches) :
    0 ≤ x.idstatefrom ∧ x.idstatefrom < (m.states.length : Int) ∧ 0 ≤ x.idaction ∧
      0 ≤ x.idoutcome ∧ 0 ≤ x.idstateto ∧ x.idstateto < (m.states.length : Int) := by
  obtain ⟨i, s, hs, hx⟩ := RMDP.mem_branches m x h
  obtain ⟨j, a, ha, hx⟩ := State.mem_records_action i s x hx
  obtain ⟨k, t, ht, hx⟩ := Action.mem_records_outcome i j a x hx
  obtain ⟨e1, e2, e3, hmem⟩ := Transition.mem_records i j k t x hx
  have hi : i < m.states.length := (List.getElem?_eq_some_iff.mp hs).1
  have hc := ((hm s (List.mem_iff_getElem?.mpr ⟨i, hs⟩)).1 a
    (List.mem_iff_getElem?.mpr ⟨j, ha⟩)).1 t (List.mem_iff_getElem?.mpr ⟨k, ht⟩)
  have := hc.2 _ hmem
  omega

theorem RMDP.sized_of_canon {m : RMDP} (hm : m.Canon) : m.Sized :=
  fun s hs a ha t ht => (((hm s hs).1 a ha).1 t ht).1

theorem set_append_length {α : Type} (pre suf : List α) (y z : α) :
    (pre ++ y :: suf).set pre.length z = pre ++ z :: suf := by
  induction pre with
  | nil => rfl
  | cons p ps ih => simp [ih]

theorem getElem?_append_length {α : Type} (pre suf : List α) (y : α) :
    (pre ++ y :: suf)[pre.length]? = some y := by
  induction pre with
  | nil => simp
  | cons p ps ih => simpa using ih

theorem copy_distributions_state_aux (l pre suf : List Action)
    (h : suf.map Action.outcomes = l.map Action.outcomes) :
    (l.enumFrom pre.length).foldl
      (fun (e : Effect State) ja => e.bind fun d =>
        match d.actions[ja.1]? with
        | none => ⟨d, some Error.OutOfBounds⟩
        | some ad =>
          ⟨⟨d.actions.set ja.1
              { ad with distribution := ja.2.distribution, threshold := ja.2.threshold }⟩, none⟩)
      ⟨⟨pre ++ suf⟩, none⟩ = ⟨⟨pre ++ l⟩, none⟩ := by
  induction l generalizing pre suf with
  | nil =>
    have : suf = [] := by simpa using h
    rw [this]
    rfl
  | cons x xs ih =>
    cases suf with
    | nil => simp at h
    | cons y suf' =>
      simp only [List.map_cons, List.cons.injEq] at h
      obtain ⟨hy, hrest⟩ := h
      have hxy : ({ y with distribution := x.distribution, threshold := x.threshold } : Action)
          = x := by
        cases x
        cases y
        simp only at hy
        simp [hy]
      simp only [List.enumFrom_cons, List.foldl_cons]
      have hstep : (Effect.bind (⟨⟨pre ++ y :: suf'⟩, none⟩ : Effect State) fun d =>
          match d.actions[pre.length]? with
          | none => ⟨d, some Error.OutOfBounds⟩
          | some ad =>
            ⟨⟨d.actions.set pre.length
                { ad with distribution := x.distribution, threshold := x.threshold }⟩, none⟩)
          = ⟨⟨(pre ++ [x]) ++ suf'⟩, none⟩ := by
        unfold Effect.bind
        simp only [getElem?_append_length, set_append_length, hxy]
        simp
      rw [hstep]
      have := ih (pre ++ [x]) suf' hrest
      simp only [List.length_append, List.length_singleton] at this
      rw [this]
      simp

theorem copy_distributions_state_eq (origin dest : State) (h : dest.shape = origin.shape) :
    copy_distributions_state origin dest = ⟨origin, none⟩ := by
  have := copy_distributions_state_aux origin.actions [] dest.actions h
  simpa [copy_distributions_state, List.enum] using this

theorem copy_distributions_aux (l pre suf : List State)
    (h : suf.map State.shape = l.map State.shape) :
    (l.enumFrom pre.length).foldl
      (fun (e : Effect RMDP) is => e.bind fun res =>
        match res.states[is.1]? with
        | none => ⟨res, some Error.OutOfBounds⟩
        | some sd =>
          ⟨⟨res.states.set is.1 (copy_distributions_state is.2 sd).state⟩,
            (copy_distributions_state is.2 sd).error⟩)
      ⟨⟨pre ++ suf⟩, none⟩ = ⟨⟨pre ++ l⟩, none⟩ := by
  induction l generalizing pre suf with
  | nil =>
    have : suf = [] := by simpa using h
    rw [this]
    rfl
  | cons x xs ih =>
    cases suf with
    | nil => simp at h
    | cons y suf' =>
      simp only [List.map_cons, List.cons.injEq] at h
      obtain ⟨hy, hrest⟩ := h
      simp only [List.enumFrom_cons, List.foldl_cons]
      have hstep : (Effect.bind (⟨⟨pre ++ y :: suf'⟩, none⟩ : Effect RMDP) fun res =>
          match res.states[pre.length]? with
          | none => ⟨res, some Error.OutOfBounds⟩
          | some sd =>
            ⟨⟨res.states.set pre.length (copy_distributions_state x sd).state⟩,
              (copy_distributions_state x sd).error⟩)
          = ⟨⟨(pre ++ [x]) ++ suf'⟩, none⟩ := by
        unfold Effect.bind
        simp only [getElem?_append_length, set_append_length,
          copy_distributions_state_eq x y hy]
        simp
      rw [hstep]
      have := ih (pre ++ [x]) suf' hrest
      simp only [List.length_append, List.length_singleton] at this
      rw [this]
      simp

theorem copy_distributions_eq (m result : RMDP) (h : result.shape = m.shape) :
    copy_distributions m result = ⟨m, none⟩ := by
  have := copy_distributions_aux m.states [] result.states h
  simpa [copy_distributions, List.enum] using this

theorem RMDP.withStates_canon (n : Nat) : (RMDP.withStates n).Canon := by
  intro s hs
  rw [(List.mem_replicate.mp hs).2]
  exact State.canon_default_state _

theorem RMDP.withStates_branches (n : Nat) : (RMDP.withStates n).branches = [] := by
  unfold RMDP.branches RMDP.withStates
  apply concatIdx_eq_nil
  intro j x hx
  rw [List.getElem?_replicate] at hx
  split at hx
  · rw [← Option.some.inj hx]
    rfl
  · simp at hx

theorem RMDP.copy_into_eq (m : RMDP) (hm : m.Canon) :
    m.copy_into (RMDP.withStates m.states.length) = ⟨m, none⟩ := by
  have hlen0 : (RMDP.withStates m.states.length).states.length = m.states.length := by
    simp [RMDP.withStates]
  have hc0 := RMDP.withStates_canon m.states.length
  obtain ⟨e1, e2, e3⟩ := RMDP.replay_sorted (RMDP.withStates m.states.length) (RMDP.sized_of_canon hc0)
    (RMDP.withStates_branches _) m.branches m.branches_sorted
    (fun x hx => by
      have := RMDP.branches_in_range m hm x hx
      exact ⟨this.1, this.2.2.1, this.2.2.2.1, this.2.2.2.2.1⟩)
  obtain ⟨c1, c2⟩ := RMDP.replay_canon (RMDP.withStates m.states.length) hc0 m.branches
    (fun x hx => by rw [hlen0]; exact RMDP.branches_in_range m hm x hx)
  rw [hlen0] at c2
  have hshape := RMDP.shape_eq_of_branches m _ hm c1 c2 e3
  unfold RMDP.copy_into
  rw [copy_transitions_eq m (RMDP.sized_of_canon hm)]
  unfold Effect.bind
  rw [e1]
  exact copy_distributions_eq m _ hshape

/-- Where `copy` does duplicate: for every RMDP `M` built from the empty RMDP
by the public operations without a call of `add_transition` that is rejected
for a negative outcome id (`Reachable`), `copy_into` runs without an access to
a destination state or action that does not exist, and `M.copy()` returns an
RMDP equal to `M`: same states, actions, outcomes, branches in the same order,
distributions and thresholds, hence the same value of every read accessor. -/
theorem copy_faithful (m : RMDP) (hm : Reachable m) :
    (m.copy_into (RMDP.withStates m.states.length)).error = none ∧
    m.copy = Except.ok m ∧
    (∀ n, m.copy = Except.ok n →
      n.state_count = m.state_count ∧
      (∀ s, n.action_count s = m.action_count s) ∧
      (∀ s a, n.outcome_count s a = m.outcome_count s a) ∧
      (∀ s a o, n.transition_count s a o = m.transition_count s a o) ∧
      (∀ s a o k, n.get_toid s a o k = m.get_toid s a o k) ∧
      (∀ s a o k, n.get_probability s a o k = m.get_probability s a o k) ∧
      (∀ s a o k, n.get_reward s a o k = m.get_reward s a o k) ∧
      (∀ s a, n.get_threshold s a = m.get_threshold s a) ∧
      (∀ s a : Nat, (n.actionD s a).distribution = (m.actionD s a).distribution)) := by
  have h := RMDP.copy_into_eq m hm.canon
  have hcopy : m.copy = Except.ok m := by
    unfold RMDP.copy
    rw [h]
  refine ⟨by rw [h], hcopy, ?_⟩
  intro n hn
  rw [hcopy] at hn
  have : m = n := by
    injection hn
  subst this
  exact ⟨rfl, fun _ => rfl, fun _ _ => rfl, fun _ _ _ => rfl, fun _ _ _ _ => rfl,
    fun _ _ _ _ => rfl, fun _ _ _ _ => rfl, fun _ _ => rfl, fun _ _ => rfl⟩

/-- Scenario S3 with a threshold set, which has a state without actions, an
action without outcomes and a non-default threshold, is copied faithfully. -/
theorem copy_faithful_witness :
    Reachable scenarioS3t ∧
    (scenarioS3t.copy_into (RMDP.withStates scenarioS3t.states.length)).error = none ∧
    scenarioS3t.copy = Except.ok scenarioS3t :=
  ⟨Reachable.set_threshold _ 2 1 (Prec.num 1)
      (Reachable.add_transition RMDP.empty 2 1 0 2 2 0 Reachable.empty (by decide)),
    (copy_faithful scenarioS3t (Reachable.set_threshold _ 2 1 (Prec.num 1)
      (Reachable.add_transition RMDP.empty 2 1 0 2 2 0 Reachable.empty (by decide)))).1,
    (copy_faithful scenarioS3t (Reachable.set_threshold _ 2 1 (Prec.num 1)
      (Reachable.add_transition RMDP.empty 2 1 0 2 2 0 Reachable.empty (by decide)))).2.1⟩

/-- C7. `copy()` does not duplicate every RMDP built by the public operations,
and `copy_into` does index a destination action that does not exist.  The call
`add_transition(0,0,-1,0,1.0,0.0)` on the empty RMDP is rejected by the Action
after the State has grown its action vector, and leaves one state behind whose
one action has no outcomes.  On that RMDP the first loop of `copy_into` finds
no branch to replay, so state 0 of the destination keeps no action, and the
second loop reads `actions_dest[0]` (line 434), which does not exist: `copy`
returns no RMDP, while `action_count(0)` of the original is 1. -/
theorem copy_after_rejected_add :
    (RMDP.empty.add_transition 0 0 (-1) 0 1 0).error = some Error.InvalidIndex ∧
    Built afterRejectedAdd ∧
    afterRejectedAdd = ⟨[⟨[⟨[], [], Prec.num 0⟩]⟩]⟩ ∧
    afterRejectedAdd.action_count 0 = Except.ok 1 ∧
    (afterRejectedAdd.copy_into (RMDP.withStates afterRejectedAdd.states.length)).error
      = some Error.OutOfBounds ∧
    afterRejectedAdd.copy = Except.error Error.OutOfBounds :=
  ⟨by decide, Built.add_transition RMDP.empty 0 0 (-1) 0 1 0 Built.empty, by decide, rfl,
    rfl, rfl⟩

/-! ## C12: `set_distribution` -/

theorem modify_eq_self_of_fixed {α : Type} [Inhabited α] (l : List α) (f : α → α) (i : Nat)
    (h : f (l.getD i default) = l.getD i default) : l.modify f i = l := by
  apply List.ext_getElem?
  intro j
  rw [List.getElem?_modify]
  by_cases hij : i = j
  · subst hij
    by_cases hi : i < l.length
    · rw [getD_of_getElem? l i _ (List.getElem?_eq_getElem hi)] at h
      rw [List.getElem?_eq_getElem hi]
      simp [h]
    · rw [List.getElem?_eq_none (by omega)]
      rfl
  · simp [hij]

theorem RMDP.update_action_of_fixed (m : RMDP) (s a : Nat) (f : Action → Action)
    (h : f (m.actionD s a) = m.actionD s a) : m.update_action s a f = m := by
  unfold RMDP.update_action
  unfold RMDP.actionD RMDP.stateD at h
  have : m.states.modify (fun st => (⟨st.actions.modify f a⟩ : State)) s = m.states := by
    apply modify_eq_self_of_fixed
    rw [modify_eq_self_of_fixed _ f a h]
  rw [this]

theorem RMDP.set_distribution_eq (m : RMDP) (tol : ℚ) (s a : Int) (dist : List ℚ) (t : ℚ) :
    m.set_distribution tol s a dist t =
      if m.validAction s a then
        ⟨m.update_action s.toNat a.toNat (fun x => (x.set_distribution tol dist t).state),
          ((m.actionD s.toNat a.toNat).set_distribution tol dist t).error⟩
      else ⟨m, some Error.InvalidIndex⟩ := by
  unfold RMDP.set_distribution RMDP.validAction RMDP.validState RMDP.actionD RMDP.stateD
  by_cases h : s ≥ (m.states.length : Int) ∨ s < 0
  · rw [if_pos h, if_neg (by omega)]
  · rw [if_neg h, index_of_lt _ _ (by omega) (by omega)]
    by_cases h2 : a ≥ ((m.states.getD s.toNat default).actions.length : Int) ∨ a < 0
    · simp only [if_pos h2]
      rw [if_neg (by omega)]
    · simp only [if_neg h2]
      have hv : (0 ≤ s ∧ s < (m.states.length : Int)) ∧ 0 ≤ a ∧
          a < ((m.states.getD s.toNat default).actions.length : Int) :=
        ⟨⟨by omega, by omega⟩, by omega, by omega⟩
      rw [if_pos hv, index_of_lt _ _ (by omega) (by omega)]

theorem RMDP.set_distribution_rejected (m : RMDP) (tol : ℚ) (s a : Int) (dist : List ℚ) (t : ℚ)
    (e : Error) (hv : m.validAction s a)
    (h : (m.actionD s.toNat a.toNat).set_distribution tol dist t
      = ⟨m.actionD s.toNat a.toNat, some e⟩) :
    m.set_distribution tol s a dist t = ⟨m, some e⟩ := by
  rw [RMDP.set_distribution_eq, if_pos hv, h,
    RMDP.update_action_of_fixed m _ _ _ (by rw [h])]

/-- C12. `set_distribution(s,a,dist,t)` on the RMDP: InvalidIndex for an
invalid `s` or `a`; for valid `(s,a)` ShapeMismatch if `|dist|` differs from
the number of outcomes, else OutOfRange if `t` is outside `[0,2]` or an entry
is negative, else NotNormalized if the entries do not sum to 1 (by more than
the tolerance `tol`; with `tol = 0`: if the sum is not 1); every failure
leaves the RMDP unchanged.  Otherwise it succeeds, the action then has
distribution `dist` and threshold `t`, and no other action is changed. -/
theorem set_distribution_contract (m : RMDP) (tol : ℚ) (s a : Int) (dist : List ℚ) (t : ℚ) :
    (¬ m.validAction s a → m.set_distribution tol s a dist t = ⟨m, some Error.InvalidIndex⟩) ∧
    (m.validAction s a → dist.length ≠ (m.actionD s.toNat a.toNat).outcomes.length →
      m.set_distribution tol s a dist t = ⟨m, some Error.ShapeMismatch⟩) ∧
    (m.validAction s a → dist.length = (m.actionD s.toNat a.toNat).outcomes.length →
      (t < 0 ∨ t > 2 ∨ ∃ x ∈ dist, x < 0) →
      m.set_distribution tol s a dist t = ⟨m, some Error.OutOfRange⟩) ∧
    (m.validAction s a → dist.length = (m.actionD s.toNat a.toNat).outcomes.length →
      ¬ (t < 0 ∨ t > 2 ∨ ∃ x ∈ dist, x < 0) → tol < |dist.sum - 1| →
      m.set_distribution tol s a dist t = ⟨m, some Error.NotNormalized⟩) ∧
    (tol = 0 → m.validAction s a →
      dist.length = (m.actionD s.toNat a.toNat).outcomes.length →
      ¬ (t < 0 ∨ t > 2 ∨ ∃ x ∈ dist, x < 0) → dist.sum ≠ 1 →
      m.set_distribution tol s a dist t = ⟨m, some Error.NotNormalized⟩) ∧
    (m.validAction s a → dist.length = (m.actionD s.toNat a.toNat).outcomes.length →
      ¬ (t < 0 ∨ t > 2 ∨ ∃ x ∈ dist, x < 0) → |dist.sum - 1| ≤ tol →
      (m.set_distribution tol s a dist t).error = none ∧
      ((m.set_distribution tol s a dist t).state.actionD s.toNat a.toNat).distribution = dist ∧
      (m.set_distribution tol s a dist t).state.get_threshold s a = Except.ok (Prec.num t) ∧
      ∀ s' a' : Nat, ¬ (s' = s.toNat ∧ a' = a.toNat) →
        (m.set_distribution tol s a dist t).state.actionD s' a' = m.actionD s' a') := by
  have hnn : ∀ (hv : m.validAction s a)
      (_ : dist.length = (m.actionD s.toNat a.toNat).outcomes.length)
      (_ : ¬ (t < 0 ∨ t > 2 ∨ ∃ x ∈ dist, x < 0)) (_ : tol < |dist.sum - 1|),
      m.set_distribution tol s a dist t = ⟨m, some Error.NotNormalized⟩ := by
    intro hv hl hr hs
    apply RMDP.set_distribution_rejected m tol s a dist t _ hv
    unfold Action.set_distribution
    rw [if_neg (not_not.mpr hl), if_neg hr, if_pos hs]
  refine ⟨?_, ?_, ?_, hnn, ?_, ?_⟩
  · intro hv
    rw [RMDP.set_distribution_eq, if_neg hv]
  · intro hv hl
    apply RMDP.set_distribution_rejected m tol s a dist t _ hv
    unfold Action.set_distribution
    rw [if_pos hl]
  · intro hv hl hr
    apply RMDP.set_distribution_rejected m tol s a dist t _ hv
    unfold Action.set_distribution
    rw [if_neg (not_not.mpr hl), if_pos hr]
  · intro htol hv hl hr hs
    apply hnn hv hl hr
    rw [htol]
    exact abs_pos.mpr (sub_ne_zero.mpr hs)
  · intro hv hl hr hs
    have hact : ∀ x : Action, dist.length = x.outcomes.length →
        x.set_distribution tol dist t
          = ⟨{ x with distribution := dist, threshold := Prec.num t }, none⟩ := by
      intro x hx
      unfold Action.set_distribution
      rw [if_neg (not_not.mpr hx), if_neg hr, if_neg (not_lt.mpr hs)]
    rw [RMDP.set_distribution_eq, if_pos hv, hact _ hl]
    obtain ⟨⟨hs0, hs1⟩, ha0, ha1⟩ := hv
    refine ⟨rfl, ?_, ?_, ?_⟩
    · simp only
      rw [RMDP.update_action_actionD, if_pos ⟨⟨rfl, by omega⟩, rfl, by omega⟩, hact _ hl]
    · simp only
      rw [RMDP.get_threshold_eq,
        if_pos ((RMDP.update_action_validAction m _ _ _ s a).mpr ⟨⟨hs0, hs1⟩, ha0, ha1⟩),
        RMDP.update_action_actionD, if_pos ⟨⟨rfl, by omega⟩, rfl, by omega⟩, hact _ hl]
    · intro s' a' hne
      simp only
      rw [RMDP.update_action_actionD, if_neg]
      rintro ⟨⟨e1, -⟩, e2, -⟩
      exact hne ⟨e1.symm, e2.symm⟩

/-- Witness for C12: scenario S5 with tolerance 0, `[0.6, 0.6]` is rejected with
NotNormalized and `[1.0]` against two outcomes with ShapeMismatch. -/
theorem set_distribution_contract_witness :
    scenarioS5.set_distribution 0 0 0 [3 / 5, 3 / 5] (1 / 10)
        = ⟨scenarioS5, some Error.NotNormalized⟩ ∧
      scenarioS5.set_distribution 0 0 0 [1] (1 / 10)
        = ⟨scenarioS5, some Error.ShapeMismatch⟩ :=
  ⟨(set_distribution_contract scenarioS5 0 0 0 [3 / 5, 3 / 5] (1 / 10)).2.2.2.2.1 rfl
      (by decide) (by decide) (by norm_num) (by norm_num),
    (set_distribution_contract scenarioS5 0 0 0 [1] (1 / 10)).2.1 (by decide) (by decide)⟩

/-! ## C17: `set_reward` -/

theorem RMDP.update_transition_eq_update_action (m : RMDP) (s a o : Nat)
    (f : Transition → Transition) :
    m.update_transition s a o f
      = m.update_action s a (fun ac => { ac with outcomes := ac.outcomes.modify f o }) := rfl

theorem RMDP.update_transition_actionD (m : RMDP) (s a o : Nat) (f : Transition → Transition)
    (s' a' : Nat) :
    ((m.update_transition s a o f).actionD s' a').outcomes.length
        = (m.actionD s' a').outcomes.length ∧
      ((m.update_transition s a o f).actionD s' a').distribution
        = (m.actionD s' a').distribution ∧
      ((m.update_transition s a o f).actionD s' a').threshold = (m.actionD s' a').threshold := by
  rw [RMDP.update_transition_eq_update_action, RMDP.update_action_actionD]
  split <;> simp

theorem RMDP.update_transition_validOutcome (m : RMDP) (s a o : Nat)
    (f : Transition → Transition) (s' a' o' : Int) :
    (m.update_transition s a o f).validOutcome s' a' o' ↔ m.validOutcome s' a' o' := by
  unfold RMDP.validOutcome
  rw [(RMDP.update_transition_actionD m s a o f s'.toNat a'.toNat).1,
    RMDP.update_transition_eq_update_action, RMDP.update_action_validAction]

theorem RMDP.update_transition_transitionD (m : RMDP) (s a o : Nat)
    (f : Transition → Transition) (s' a' o' : Nat) :
    (m.update_transition s a o f).transitionD s' a' o' = m.transitionD s' a' o' ∨
      ((s' = s ∧ a' = a ∧ o' = o) ∧
        (m.update_transition s a o f).transitionD s' a' o' = f (m.transitionD s' a' o')) := by
  have h1 : ∀ x : RMDP, x.transitionD s' a' o' = (x.actionD s' a').outcomes.getD o' default :=
    fun _ => rfl
  rw [h1, h1, RMDP.update_transition_eq_update_action, RMDP.update_action_actionD]
  split
  · next hc =>
    simp only [getD_modify]
    split
    · next ho => exact Or.inr ⟨⟨hc.1.1.symm, hc.2.1.symm, ho.1.symm⟩, rfl⟩
    · exact Or.inl rfl
  · exact Or.inl rfl

theorem RMDP.update_transition_transitionD_self (m : RMDP) (s a o : Int)
    (f : Transition → Transition) (hv : m.validOutcome s a o) :
    (m.update_transition s.toNat a.toNat o.toNat f).transitionD s.toNat a.toNat o.toNat
      = f (m.transitionD s.toNat a.toNat o.toNat) := by
  have h1 : ∀ x : RMDP, x.transitionD s.toNat a.toNat o.toNat
      = (x.actionD s.toNat a.toNat).outcomes.getD o.toNat default := fun _ => rfl
  obtain ⟨⟨⟨hs0, hs1⟩, ha0, ha1⟩, ho0, ho1⟩ := hv
  rw [h1, h1, RMDP.update_transition_eq_update_action, RMDP.update_action_actionD,
    if_pos ⟨⟨rfl, by omega⟩, rfl, by omega⟩]
  simp only [getD_modify]
  rw [if_pos ⟨trivial, by omega⟩]

theorem RMDP.set_reward_eq (m : RMDP) (s a o k : Int) (r : ℚ) :
    m.set_reward s a o k r =
      if m.validOutcome s a o ∧ 0 ≤ k ∧
          k < ((m.transitionD s.toNat a.toNat o.toNat).rewards.length : Int) then
        ⟨m.update_transition s.toNat a.toNat o.toNat
          (fun t => { t with rewards := t.rewards.set k.toNat r }), none⟩
      else ⟨m, some Error.InvalidIndex⟩ := by
  unfold RMDP.set_reward
  rw [RMDP.get_transition_eq]
  by_cases h : m.validOutcome s a o
  · simp only [if_pos h]
    by_cases h2 : k < 0 ∨ k ≥ ((m.transitionD s.toNat a.toNat o.toNat).rewards.length : Int)
    · rw [if_pos h2, if_neg (fun hc => by omega)]
    · rw [if_neg h2, if_pos ⟨h, by omega, by omega⟩]
  · simp [h]

theorem index_set_ne {α : Type} (v : List α) (i : Nat) (x : α) (k : Int) (h : k ≠ (i : Int)) :
    index (v.set i x) k = index v k := by
  unfold index
  by_cases hk : k < 0
  · rw [if_pos hk, if_pos hk]
  · rw [if_neg hk, if_neg hk, List.getElem?_set_ne (by omega)]

theorem index_set_eq {α : Type} (v : List α) (x : α) (k : Int) (h0 : 0 ≤ k)
    (h : k < (v.length : Int)) : index (v.set k.toNat x) k = Except.ok x := by
  unfold index
  rw [if_neg (by omega), List.getElem?_set_self (by omega)]

/-- C17. `set_reward(s,a,o,k,r)`: if `s`, `a`, `o` or `k` is out of range (`k`
against the number of rewards of the Transition) the call fails with
InvalidIndex and the RMDP is unchanged.  Otherwise it succeeds; afterwards
`get_reward(s,a,o,k) = r`, `get_reward` at every other `(s',a',o',k')`, all of
`get_toid`, `get_probability`, the five size queries, `get_threshold` and every
distribution are what they were before. -/
theorem set_reward_contract (m : RMDP) (s a o k : Int) (r : ℚ) :
    (¬ (m.validOutcome s a o ∧ 0 ≤ k ∧
        k < ((m.transitionD s.toNat a.toNat o.toNat).rewards.length : Int)) →
      m.set_reward s a o k r = ⟨m, some Error.InvalidIndex⟩) ∧
    ((m.validOutcome s a o ∧ 0 ≤ k ∧
        k < ((m.transitionD s.toNat a.toNat o.toNat).rewards.length : Int)) →
      (m.set_reward s a o k r).error = none ∧
      (m.set_reward s a o k r).state.get_reward s a o k = Except.ok r ∧
      (∀ s' a' o' k', ¬ (s' = s ∧ a' = a ∧ o' = o ∧ k' = k) →
        (m.set_reward s a o k r).state.get_reward s' a' o' k' = m.get_reward s' a' o' k') ∧
      (∀ s' a' o' k',
        (m.set_reward s a o k r).state.get_toid s' a' o' k' = m.get_toid s' a' o' k') ∧
      (∀ s' a' o' k', (m.set_reward s a o k r).state.get_probability s' a' o' k'
        = m.get_probability s' a' o' k') ∧
      (m.set_reward s a o k r).state.state_count = m.state_count ∧
      (∀ s', (m.set_reward s a o k r).state.action_count s' = m.action_count s') ∧
      (∀ s' a', (m.set_reward s a o k r).state.outcome_count s' a' = m.outcome_count s' a') ∧
      (∀ s' a' o', (m.set_reward s a o k r).state.transition_count s' a' o'
        = m.transition_count s' a' o') ∧
      (∀ s' a' o', (m.set_reward s a o k r).state.sample_count s' a' o'
        = m.sample_count s' a' o') ∧
      (∀ s' a', (m.set_reward s a o k r).state.get_threshold s' a' = m.get_threshold s' a') ∧
      (∀ s' a' : Nat, ((m.set_reward s a o k r).state.actionD s' a').distribution
        = (m.actionD s' a').distribution)) := by
  rw [RMDP.set_reward_eq]
  constructor
  · intro h
    rw [if_neg h]
  · intro h
    rw [if_pos h]
    obtain ⟨hv, hk0, hk1⟩ := h
    generalize hf : (fun t : Transition => { t with rewards := t.rewards.set k.toNat r }) = f
    have hvo := RMDP.update_transition_validOutcome m s.toNat a.toNat o.toNat f
    have hva : ∀ s' a' : Int, (m.update_transition s.toNat a.toNat o.toNat f).validAction s' a'
        ↔ m.validAction s' a' := by
      intro s' a'
      rw [RMDP.update_transition_eq_update_action, RMDP.update_action_validAction]
    have hvs : ∀ s' : Int, (m.update_transition s.toNat a.toNat o.toNat f).validState s'
        ↔ m.validState s' := by
      intro s'
      unfold RMDP.validState
      rw [RMDP.update_transition_eq_update_action, RMDP.update_action_states_length]
    have hact := RMDP.update_transition_actionD m s.toNat a.toNat o.toNat f
    have htr := RMDP.update_transition_transitionD m s.toNat a.toNat o.toNat f
    have hself := RMDP.update_transition_transitionD_self m s a o f hv
    have hidx : ∀ s' a' o' : Nat,
        ((m.update_transition s.toNat a.toNat o.toNat f).transitionD s' a' o').indices
          = (m.transitionD s' a' o').indices ∧
        ((m.update_transition s.toNat a.toNat o.toNat f).transitionD s' a' o').probabilities
          = (m.transitionD s' a' o').probabilities ∧
        ((m.update_transition s.toNat a.toNat o.toNat f).transitionD s' a' o').rewards.length
          = (m.transitionD s' a' o').rewards.length := by
      intro s' a' o'
      rcases htr s' a' o' with h | ⟨-, h⟩ <;> rw [h] <;> subst hf <;> simp
    simp only
    refine ⟨trivial, ?_, ?_, ?_, ?_, ?_, ?_, ?_, ?_, ?_, ?_, ?_⟩
    · rw [RMDP.get_reward_eq,
        if_pos ⟨(hvo s a o).mpr hv, hk0, by rw [(hidx _ _ _).2.2]; exact hk1⟩, hself, ← hf]
      exact index_set_eq _ r k hk0 hk1
    · intro s' a' o' k' hne
      rw [RMDP.get_reward_eq, RMDP.get_reward_eq]
      simp only [hvo, (hidx _ _ _).2.2]
      by_cases hc : m.validOutcome s' a' o' ∧ 0 ≤ k' ∧
          k' < ((m.transitionD s'.toNat a'.toNat o'.toNat).rewards.length : Int)
      · rw [if_pos hc, if_pos hc]
        rcases htr s'.toNat a'.toNat o'.toNat with h | ⟨⟨e1, e2, e3⟩, h⟩
        · rw [h]
        · rw [h, ← hf]
          obtain ⟨⟨⟨⟨hs0, -⟩, ha0, -⟩, ho0, -⟩, hk0', -⟩ := hc
          obtain ⟨⟨⟨hs0', -⟩, ha0', -⟩, ho0', -⟩ := hv
          apply index_set_ne
          intro hk
          apply hne
          refine ⟨by omega, by omega, by omega, by omega⟩
      · rw [if_neg hc, if_neg hc]
    · intro s' a' o' k'
      rw [RMDP.get_toid_eq, RMDP.get_toid_eq]
      simp only [hvo, (hidx _ _ _).2.2, (hidx _ _ _).1]
    · intro s' a' o' k'
      rw [RMDP.get_probability_eq, RMDP.get_probability_eq]
      simp only [hvo, (hidx _ _ _).2.2, (hidx _ _ _).2.1]
    · unfold RMDP.state_count
      rw [RMDP.update_transition_eq_update_action, RMDP.update_action_states_length]
    · intro s'
      rw [RMDP.action_count_eq, RMDP.action_count_eq]
      simp only [hvs]
      rw [RMDP.update_transition_eq_update_action, RMDP.update_action_stateD_length]
    · intro s' a'
      rw [RMDP.outcome_count_eq, RMDP.outcome_count_eq]
      simp only [hva, (hact _ _).1]
    · intro s' a' o'
      rw [RMDP.transition_count_eq, RMDP.transition_count_eq]
      simp only [hvo, (hidx _ _ _).1]
    · intro s' a' o'
      rw [RMDP.sample_count_eq, RMDP.sample_count_eq]
      simp only [hvo, (hidx _ _ _).2.2]
    · intro s' a'
      rw [RMDP.get_threshold_eq, RMDP.get_threshold_eq]
      simp only [hva, (hact _ _).2.2]
    · intro s' a'
      exact (hact s' a').2.1

/-- Witness for C17: on scenario S2, `set_reward(0,0,0,1,7)` succeeds and
`get_reward(0,0,0,1)` is then 7; `set_reward(0,0,0,2,7)` is rejected. -/
theorem set_reward_contract_witness :
    (scenarioS2.set_reward 0 0 0 1 7).state.get_reward 0 0 0 1 = Except.ok 7 ∧
      scenarioS2.set_reward 0 0 0 2 7 = ⟨scenarioS2, some Error.InvalidIndex⟩ :=
  ⟨((set_reward_contract scenarioS2 0 0 0 1 7).2 (by decide)).2.1,
    (set_reward_contract scenarioS2 0 0 0 2 7).1 (by decide)⟩

/-! ## C11: `set_uniform_distribution` -/

theorem mapEffect_error_mem {α : Type} (f : α → Effect α) (l : List α) (e : Error)
    (h : (mapEffect f l).error = some e) : ∃ x ∈ l, (f x).error = some e := by
  induction l with
  | nil => simp [mapEffect] at h
  | cons x xs ih =>
    unfold mapEffect at h
    cases hx : (f x).error with
    | some e' =>
      rw [hx] at h
      simp only [Option.some.injEq] at h
      exact ⟨x, List.mem_cons_self x xs, by rw [hx, h]⟩
    | none =>
      rw [hx] at h
      obtain ⟨y, hy, hye⟩ := ih h
      exact ⟨y, List.mem_cons_of_mem x hy, hye⟩

theorem mapEffect_error_eq_none_iff {α : Type} (f : α → Effect α) (l : List α) :
    (mapEffect f l).error = none ↔ ∀ x ∈ l, (f x).error = none := by
  constructor
  · intro h
    induction l with
    | nil => simp
    | cons x xs ih =>
      unfold mapEffect at h
      cases hx : (f x).error with
      | some e' =>
        rw [hx] at h
        simp at h
      | none =>
        rw [hx] at h
        intro y hy
        rcases List.mem_cons.mp hy with rfl | hy
        · exact hx
        · exact ih h y hy
  · intro h
    rw [mapEffect_of_ok f l h]

theorem mapEffect_error_of_mem {α : Type} (f : α → Effect α) (l : List α) (e : Error)
    (hall : ∀ x ∈ l, (f x).error = none ∨ (f x).error = some e)
    (hex : ∃ x ∈ l, (f x).error = some e) : (mapEffect f l).error = some e := by
  cases h : (mapEffect f l).error with
  | none =>
    obtain ⟨x, hx, hxe⟩ := hex
    rw [(mapEffect_error_eq_none_iff f l).mp h x hx] at hxe
    simp at hxe
  | some e' =>
    obtain ⟨x, hx, hxe⟩ := mapEffect_error_mem f l e' h
    rcases hall x hx with h1 | h1
    · rw [h1] at hxe
      simp at hxe
    · rw [h1] at hxe
      rw [← Option.some.inj hxe]

theorem Action.set_uniform_error (a : Action) (tol t : ℚ) (ht : 0 ≤ t ∧ t ≤ 2) :
    (a.set_distribution tol (List.replicate a.outcomes.length
        (1 / (a.outcomes.length : ℚ))) t).error
      = if tol < |(List.replicate a.outcomes.length (1 / (a.outcomes.length : ℚ))).sum - 1|
        then some Error.NotNormalized else none := by
  unfold Action.set_distribution
  rw [if_neg (by simp), if_neg]
  · split <;> rfl
  · rintro (h | h | ⟨x, hx, hx0⟩)
    · exact absurd ht.1 (not_le.mpr h)
    · exact absurd ht.2 (not_le.mpr h)
    · rw [List.eq_of_mem_replicate hx] at hx0
      exact absurd (by positivity) (not_le.mpr hx0)

theorem sum_replicate_uniform (k : Nat) :
    (List.replicate k (1 / (k : ℚ))).sum = if k = 0 then 0 else 1 := by
  rw [List.sum_replicate, nsmul_eq_mul]
  split
  · next h => simp [h]
  · next h =>
    have : (k : ℚ) ≠ 0 := Nat.cast_ne_zero.mpr h
    field_simp

/-- C11. `set_uniform_distribution(t)` with `t` in `[0,2]` and a tolerance below
1: if some action has no outcome (a gap action) the call fails with
NotNormalized, since the empty distribution sums to 0.  If every action has at
least one outcome (and the tolerance is not negative) the call succeeds and
every action has the uniform distribution over its outcomes and threshold
`t`, with outcomes untouched. -/
theorem set_uniform_distribution_gap_action (m : RMDP) (tol t : ℚ) (htol : tol < 1)
    (ht : 0 ≤ t ∧ t ≤ 2) :
    ((∃ s ∈ m.states, ∃ a ∈ s.actions, a.outcomes = []) →
      (m.set_uniform_distribution tol t).error = some Error.NotNormalized) ∧
    (0 ≤ tol → (∀ s ∈ m.states, ∀ a ∈ s.actions, a.outcomes ≠ []) →
      m.set_uniform_distribution tol t =
        ⟨⟨m.states.map fun s => ⟨s.actions.map fun a =>
          (⟨a.outcomes,
            List.replicate a.outcomes.length (1 / (a.outcomes.length : ℚ)), Prec.num t⟩ : Action)⟩⟩, none⟩) := by
  have hA : ∀ a : Action, (a.set_distribution tol (List.replicate a.outcomes.length
        (1 / (a.outcomes.length : ℚ))) t).error = none ∨
      (a.set_distribution tol (List.replicate a.outcomes.length
        (1 / (a.outcomes.length : ℚ))) t).error = some Error.NotNormalized := by
    intro a
    rw [Action.set_uniform_error a tol t ht]
    split
    · exact Or.inr rfl
    · exact Or.inl rfl
  constructor
  · rintro ⟨s, hs, a, ha, hgap⟩
    unfold RMDP.set_uniform_distribution
    simp only
    apply mapEffect_error_of_mem
    · intro s' _
      simp only
      cases h : (mapEffect (fun a : Action => a.set_distribution tol
          (List.replicate a.outcomes.length (1 / (a.outcomes.length : ℚ))) t) s'.actions).error with
      | none => exact Or.inl rfl
      | some e =>
        obtain ⟨x, -, hxe⟩ := mapEffect_error_mem _ _ e h
        rcases hA x with h1 | h1
        · rw [h1] at hxe
          simp at hxe
        · rw [h1] at hxe
          rw [← Option.some.inj hxe]
          exact Or.inr rfl
    · refine ⟨s, hs, ?_⟩
      simp only
      apply mapEffect_error_of_mem
      · intro a' _
        exact hA a'
      · refine ⟨a, ha, ?_⟩
        rw [Action.set_uniform_error a tol t ht, hgap]
        simp only [List.length_nil, List.replicate_zero, List.sum_nil, zero_sub, abs_neg, abs_one]
        rw [if_pos htol]
  · intro htol0 hne
    have hok : ∀ s ∈ m.states, ∀ a ∈ s.actions,
        a.set_distribution tol (List.replicate a.outcomes.length
          (1 / (a.outcomes.length : ℚ))) t
        = ⟨(⟨a.outcomes,
            List.replicate a.outcomes.length (1 / (a.outcomes.length : ℚ)), Prec.num t⟩ : Action), none⟩ := by
      intro s hs a ha
      have hk : a.outcomes.length ≠ 0 := fun h => hne s hs a ha (List.length_eq_zero.mp h)
      unfold Action.set_distribution
      rw [if_neg (by simp), if_neg, if_neg]
      · rw [sum_replicate_uniform, if_neg hk]
        simpa using htol0
      · rintro (h | h | ⟨x, hx, hx0⟩)
        · exact absurd ht.1 (not_le.mpr h)
        · exact absurd ht.2 (not_le.mpr h)
        · rw [List.eq_of_mem_replicate hx] at hx0
          exact absurd (by positivity) (not_le.mpr hx0)
    have hst : ∀ s ∈ m.states,
        mapEffect (fun a : Action => a.set_distribution tol
          (List.replicate a.outcomes.length (1 / (a.outcomes.length : ℚ))) t) s.actions
        = ⟨s.actions.map fun a => (⟨a.outcomes,
            List.replicate a.outcomes.length (1 / (a.outcomes.length : ℚ)), Prec.num t⟩ : Action), none⟩ := by
      intro s hs
      rw [mapEffect_of_ok _ _ (fun a ha => by rw [hok s hs a ha])]
      congr 1
      apply List.map_congr_left
      intro a ha
      rw [hok s hs a ha]
    unfold RMDP.set_uniform_distribution
    simp only
    rw [mapEffect_of_ok _ _ (fun s hs => by simp only; rw [hst s hs])]
    congr 2
    apply List.map_congr_left
    intro s hs
    simp only
    rw [hst s hs]

/-- Witness for C11: scenario S3, whose state 2 has the gap action 0 without
outcomes; `set_uniform_distribution(0.5)` fails with NotNormalized. -/
theorem set_uniform_distribution_gap_action_witness :
    (1 / 100 : ℚ) < 1 ∧ ((0 : ℚ) ≤ 1 / 2 ∧ (1 / 2 : ℚ) ≤ 2) ∧
      (scenarioS3.actionD 2 0).outcomes = [] ∧
      (scenarioS3.set_uniform_distribution (1 / 100) (1 / 2)).error
        = some Error.NotNormalized :=
  ⟨by norm_num, by norm_num, by decide,
    (set_uniform_distribution_gap_action scenarioS3 (1 / 100) (1 / 2) (by norm_num)
      (by norm_num)).1 ⟨scenarioS3.stateD 2, by decide, scenarioS3.actionD 2 0, by decide, by decide⟩⟩

/-! ## C13, C14: `normalize` -/

/-- `normalize` returns without an error exactly when every Transition that has
branches has a positive probability sum. -/
theorem RMDP.normalize_error_iff (m : RMDP) :
    m.normalize.error = none ↔
      ∀ s ∈ m.states, ∀ a ∈ s.actions, ∀ t ∈ a.outcomes,
        t.probabilities ≠ [] → 0 < t.probabilities.sum := by
  have hT : ∀ t : Transition, t.normalize.error = none ↔
      (t.probabilities ≠ [] → 0 < t.probabilities.sum) := by
    intro t
    unfold Transition.normalize
    by_cases h1 : t.probabilities = []
    · rw [if_pos h1]
      simp [h1]
    · rw [if_neg h1]
      by_cases h2 : t.probabilities.sum ≤ 0
      · rw [if_pos h2]
        simp only [reduceCtorEq, false_iff]
        exact fun hc => absurd (hc h1) (not_lt.mpr h2)
      · rw [if_neg h2]
        simp only [true_iff]
        exact fun _ => not_le.mp h2
  unfold RMDP.normalize
  simp only [mapEffect_error_eq_none_iff, hT]

theorem RMDP.normalize_error_kind (m : RMDP) (e : Error) (h : m.normalize.error = some e) :
    e = Error.EmptyDistribution := by
  unfold RMDP.normalize at h
  simp only at h
  obtain ⟨s, -, hs⟩ := mapEffect_error_mem _ _ e h
  simp only at hs
  obtain ⟨a, -, ha⟩ := mapEffect_error_mem _ _ e hs
  simp only at ha
  obtain ⟨t, -, ht⟩ := mapEffect_error_mem _ _ e ha
  unfold Transition.normalize at ht
  split at ht
  · simp at ht
  · split at ht
    · exact (Option.some.inj ht).symm
    · simp at ht

theorem RMDP.normalize_state_of_ok (m : RMDP) (h : m.normalize.error = none) :
    m.normalize.state = ⟨m.states.map fun s => ⟨s.actions.map fun a =>
      ⟨a.outcomes.map (fun t => t.normalize.state), a.distribution, a.threshold⟩⟩⟩ := by
  have hh := h
  unfold RMDP.normalize at h ⊢
  simp only [mapEffect_error_eq_none_iff] at h
  simp only
  have hA : ∀ s ∈ m.states, ∀ a ∈ s.actions,
      mapEffect Transition.normalize a.outcomes
        = ⟨a.outcomes.map (fun t => t.normalize.state), none⟩ :=
    fun s hs a ha => mapEffect_of_ok _ _ (h s hs a ha)
  have hS : ∀ s ∈ m.states,
      mapEffect (fun a : Action =>
          (⟨{ a with outcomes := (mapEffect Transition.normalize a.outcomes).state },
            (mapEffect Transition.normalize a.outcomes).error⟩ : Effect Action)) s.actions
        = ⟨s.actions.map fun a =>
            ⟨a.outcomes.map (fun t => t.normalize.state), a.distribution, a.threshold⟩, none⟩ := by
    intro s hs
    rw [mapEffect_of_ok _ _ (fun a ha => by simp only; rw [hA s hs a ha])]
    congr 1
    apply List.map_congr_left
    intro a ha
    simp only
    rw [hA s hs a ha]
  rw [mapEffect_of_ok _ _ (fun s hs => by simp only; rw [hS s hs])]
  congr 1
  apply List.map_congr_left
  intro s hs
  simp only
  rw [hS s hs]

theorem sum_map_div (l : List ℚ) (c : ℚ) : (l.map (fun p => p / c)).sum = l.sum / c := by
  induction l with
  | nil => simp
  | cons x xs ih => simp only [List.map_cons, List.sum_cons, ih, add_div]

theorem Transition.normalize_state (t : Transition) :
    t.normalize.state =
      if t.probabilities = [] ∨ t.probabilities.sum ≤ 0 then t
      else ⟨t.indices, t.probabilities.map (fun p => p / t.probabilities.sum), t.rewards⟩ := by
  unfold Transition.normalize
  by_cases h1 : t.probabilities = []
  · rw [if_pos h1, if_pos (Or.inl h1)]
  · rw [if_neg h1]
    by_cases h2 : t.probabilities.sum ≤ 0
    · rw [if_pos h2, if_pos (Or.inr h2)]
    · rw [if_neg h2, if_neg (by tauto)]

theorem Transition.normalize_normalized (t : Transition)
    (h : t.probabilities ≠ [] → 0 < t.probabilities.sum) :
    (t.normalize.state.probabilities = [] ↔ t.probabilities = []) ∧
    (t.probabilities ≠ [] → t.normalize.state.probabilities.sum = 1) ∧
    t.normalize.state.normalize = ⟨t.normalize.state, none⟩ := by
  by_cases h1 : t.probabilities = []
  · have h2 : t.normalize = ⟨t, none⟩ := by
      unfold Transition.normalize
      rw [if_pos h1]
    rw [h2]
    exact ⟨Iff.rfl, fun hc => absurd h1 hc, h2⟩
  · have hpos := h h1
    have h2 : t.normalize = ⟨⟨t.indices,
        t.probabilities.map (fun p => p / t.probabilities.sum), t.rewards⟩, none⟩ := by
      unfold Transition.normalize
      rw [if_neg h1, if_neg (not_le.mpr hpos)]
    have hsum : (t.probabilities.map (fun p => p / t.probabilities.sum)).sum = 1 := by
      rw [sum_map_div, div_self (ne_of_gt hpos)]
    rw [h2]
    refine ⟨by simp [h1], fun _ => hsum, ?_⟩
    unfold Transition.normalize
    simp only
    rw [if_neg (by simp [h1]), hsum, if_neg (by norm_num)]
    simp

theorem scenarioS3_eq :
    scenarioS3 = ⟨[⟨[]⟩, ⟨[]⟩, ⟨[⟨[], [], Prec.num 0⟩, ⟨[⟨[2], [2], [0]⟩], [], Prec.num 0⟩]⟩]⟩ := rfl

theorem zeroSumRMDP_eq : zeroSumRMDP = ⟨[⟨[⟨[⟨[0], [0], [0]⟩], [], Prec.num 0⟩]⟩]⟩ := rfl

/-- C13, counterexample. The RMDP built by `add_transition(0,0,0,0,0.0,0.0)`
holds one non-empty Transition whose probabilities sum to 0; `normalize()`
fails on it with EmptyDistribution. -/
theorem normalize_fails_on_zero_sum :
    zeroSumRMDP.normalize = ⟨zeroSumRMDP, some Error.EmptyDistribution⟩ := by
  rw [zeroSumRMDP_eq]
  simp [RMDP.normalize, mapEffect, Transition.normalize]

/-- C13, amended. `normalize()` succeeds exactly when every Transition that has
branches has a positive probability sum, and then leaves every Transition
without branches as it is and divides the probabilities of every other one by
their sum (successor ids, rewards, distributions and thresholds untouched);
otherwise it fails with EmptyDistribution. -/
theorem normalize_contract (m : RMDP) :
    ((∀ s ∈ m.states, ∀ a ∈ s.actions, ∀ t ∈ a.outcomes,
        t.probabilities ≠ [] → 0 < t.probabilities.sum) →
      m.normalize = ⟨⟨m.states.map fun s => ⟨s.actions.map fun a =>
        ⟨a.outcomes.map (fun t => if t.probabilities = [] then t else
          ⟨t.indices, t.probabilities.map (fun p => p / t.probabilities.sum), t.rewards⟩),
          a.distribution, a.threshold⟩⟩⟩, none⟩) ∧
    (¬ (∀ s ∈ m.states, ∀ a ∈ s.actions, ∀ t ∈ a.outcomes,
        t.probabilities ≠ [] → 0 < t.probabilities.sum) →
      m.normalize.error = some Error.EmptyDistribution) := by
  constructor
  · intro h
    have herr := (RMDP.normalize_error_iff m).mpr h
    have hst := RMDP.normalize_state_of_ok m herr
    have hm : m.normalize = ⟨m.normalize.state, m.normalize.error⟩ := rfl
    rw [hm, herr, hst]
    congr 2
    apply List.map_congr_left
    intro s hs
    congr 1
    apply List.map_congr_left
    intro a ha
    congr 1
    apply List.map_congr_left
    intro t ht
    rw [Transition.normalize_state]
    by_cases h1 : t.probabilities = []
    · rw [if_pos (Or.inl h1), if_pos h1]
    · rw [if_neg h1, if_neg]
      rintro (hc | hc)
      · exact h1 hc
      · exact absurd (h s hs a ha t ht h1) (not_lt.mpr hc)
  · intro h
    cases he : m.normalize.error with
    | none => exact absurd ((RMDP.normalize_error_iff m).mp he) h
    | some e => rw [RMDP.normalize_error_kind m e he]

/-- Witness for C13: scenario S3, the single probability 2.0 becomes 1.0. -/
theorem normalize_contract_witness :
    scenarioS3.get_probability 2 1 0 0 = Except.ok 2 ∧
      scenarioS3.normalize.error = none ∧
      scenarioS3.normalize.state.get_probability 2 1 0 0 = Except.ok 1 := by
  have h := (normalize_contract scenarioS3).1 (by rw [scenarioS3_eq]; simp)
  rw [h, scenarioS3_eq]
  refine ⟨rfl, rfl, ?_⟩
  have h2 : (2 : ℚ) / 2 = 1 := by norm_num
  simp only [List.map_cons, List.map_nil, List.sum_cons, List.sum_nil, add_zero, h2]
  rfl

/-- C14. For an RMDP in which every Transition that has branches has a positive
probability sum: `normalize()` succeeds; afterwards the probabilities of every
such Transition sum to 1, so `is_normalized` holds for it at every tolerance
`≥ 0`; and a second `normalize()` succeeds and returns the very same RMDP
(probabilities, successor ids and rewards included). -/
theorem normalize_idempotent (m : RMDP)
    (hpos : ∀ s ∈ m.states, ∀ a ∈ s.actions, ∀ t ∈ a.outcomes,
      t.probabilities ≠ [] → 0 < t.probabilities.sum) :
    m.normalize.error = none ∧
    (∀ s ∈ m.normalize.state.states, ∀ a ∈ s.actions, ∀ t ∈ a.outcomes,
      t.probabilities ≠ [] →
        t.probabilities.sum = 1 ∧ ∀ tol : ℚ, 0 ≤ tol → t.is_normalized tol = true) ∧
    m.normalize.state.normalize = ⟨m.normalize.state, none⟩ := by
  have herr := (RMDP.normalize_error_iff m).mpr hpos
  have hst := RMDP.normalize_state_of_ok m herr
  have hall : ∀ s ∈ m.normalize.state.states, ∀ a ∈ s.actions, ∀ t ∈ a.outcomes,
      (t.probabilities ≠ [] → t.probabilities.sum = 1) ∧ t.normalize = ⟨t, none⟩ := by
    rw [hst]
    intro s hs a ha t ht
    simp only [List.mem_map] at hs
    obtain ⟨s0, hs0, rfl⟩ := hs
    simp only [List.mem_map] at ha
    obtain ⟨a0, ha0, rfl⟩ := ha
    simp only [List.mem_map] at ht
    obtain ⟨t0, ht0, rfl⟩ := ht
    have h := Transition.normalize_normalized t0 (hpos s0 hs0 a0 ha0 t0 ht0)
    exact ⟨fun hne => h.2.1 (fun hc => hne (h.1.mpr hc)), h.2.2⟩
  refine ⟨herr, ?_, ?_⟩
  · intro s hs a ha t ht hne
    have h1 := (hall s hs a ha t ht).1 hne
    refine ⟨h1, fun tol htol => ?_⟩
    unfold Transition.is_normalized
    rw [h1]
    simpa using htol
  · have herr2 : m.normalize.state.normalize.error = none := by
      rw [RMDP.normalize_error_iff]
      intro s hs a ha t ht hne
      rw [(hall s hs a ha t ht).1 hne]
      norm_num
    have hm : m.normalize.state.normalize
        = ⟨m.normalize.state.normalize.state, m.normalize.state.normalize.error⟩ := rfl
    rw [hm, herr2, RMDP.normalize_state_of_ok _ herr2]
    congr 1
    have hid : ∀ (l : List State) (f : State → State), (∀ x ∈ l, f x = x) → l.map f = l := by
      intro l f hf
      conv_rhs => rw [← List.map_id l]
      exact List.map_congr_left hf
    have hidA : ∀ (l : List Action) (f : Action → Action), (∀ x ∈ l, f x = x) → l.map f = l := by
      intro l f hf
      conv_rhs => rw [← List.map_id l]
      exact List.map_congr_left hf
    have hidT : ∀ (l : List Transition) (f : Transition → Transition),
        (∀ x ∈ l, f x = x) → l.map f = l := by
      intro l f hf
      conv_rhs => rw [← List.map_id l]
      exact List.map_congr_left hf
    congr 1
    apply hid
    intro s hs
    congr 1
    apply hidA
    intro a ha
    have : a.outcomes.map (fun t => t.normalize.state) = a.outcomes :=
      hidT _ _ (fun t ht => by rw [(hall s hs a ha t ht).2])
    rw [this]

/-- Witness for C14: scenario S3 satisfies the hypothesis, and normalizing it
twice gives what normalizing it once gives. -/
theorem normalize_idempotent_witness :
    scenarioS3.normalize.state.normalize = ⟨scenarioS3.normalize.state, none⟩ :=
  (normalize_idempotent scenarioS3 (by rw [scenarioS3_eq]; simp)).2.2

/-! ## Invariants of built RMDPs -/

theorem forall_resize_guard {α : Type} [Inhabited α] (G : α → Prop) (hd : G default)
    (v : List α) (k : Int) (hv : ∀ x ∈ v, G x) :
    ∀ x ∈ (if k ≥ (v.length : Int) then resize v (k.toNat + 1) else v), G x := by
  split
  · intro x hx
    unfold resize at hx
    rcases List.mem_append.mp hx with h | h
    · exact hv x (List.mem_of_mem_take h)
    · rw [List.eq_of_mem_replicate h]
      exact hd
  · exact hv

theorem forall_set {α : Type} (G : α → Prop) (l : List α) (i : Nat) (y : α)
    (hl : ∀ x ∈ l, G x) (hy : G y) : ∀ x ∈ l.set i y, G x := by
  intro x hx
  rcases List.mem_or_eq_of_mem_set hx with h | h
  · exact hl x h
  · rw [h]
    exact hy

theorem forall_modify {α : Type} (G : α → Prop) (l : List α) (i : Nat) (f : α → α)
    (hl : ∀ x ∈ l, G x) (hf : ∀ x, G x → G (f x)) : ∀ x ∈ l.modify f i, G x := by
  induction l generalizing i with
  | nil => simp
  | cons y ys ih =>
    cases i with
    | zero =>
      intro x hx
      rw [List.modify_zero_cons] at hx
      rcases List.mem_cons.mp hx with rfl | h
      · exact hf y (hl y (List.mem_cons_self _ _))
      · exact hl x (List.mem_cons_of_mem _ h)
    | succ i =>
      intro x hx
      rw [List.modify_succ_cons] at hx
      rcases List.mem_cons.mp hx with rfl | h
      · exact hl x (List.mem_cons_self _ _)
      · exact ih i (fun z hz => hl z (List.mem_cons_of_mem _ hz)) x h

theorem forall_mapEffect {α : Type} (G : α → Prop) (f : α → Effect α) (l : List α)
    (hl : ∀ x ∈ l, G x) (hf : ∀ x, G x → G (f x).state) : ∀ x ∈ (mapEffect f l).state, G x := by
  induction l with
  | nil => intro x hx; exact absurd hx (List.not_mem_nil x)
  | cons y ys ih =>
    have hy := hf y (hl y (List.mem_cons_self _ _))
    have hys : ∀ x ∈ ys, G x := fun z hz => hl z (List.mem_cons_of_mem _ hz)
    unfold mapEffect
    cases h : (f y).error with
    | none =>
      intro x hx
      rcases List.mem_cons.mp hx with rfl | hx
      · exact hy
      · exact ih hys x hx
    | some e =>
      intro x hx
      rcases List.mem_cons.mp hx with rfl | hx
      · exact hy
      · exact hys x hx

theorem foldl_bind_inv {σ β : Type} (P : σ → Prop) (f : β → σ → Effect σ) (l : List β)
    (hf : ∀ b ∈ l, ∀ st, P st → P (f b st).state) (e : Effect σ) (he : P e.state) :
    P (l.foldl (fun e b => e.bind (f b)) e).state := by
  induction l generalizing e with
  | nil => exact he
  | cons b bs ih =>
    rw [List.foldl_cons]
    apply ih (fun c hc => hf c (List.mem_cons_of_mem _ hc))
    unfold Effect.bind
    cases h : e.error with
    | some _ => exact he
    | none => exact hf b (List.mem_cons_self _ _) _ he

/-! ### `add_transition`, whatever it returns -/

theorem State.add_action_forall (G : Action → Prop) (hd : G default)
    (hadd : ∀ (ac : Action) (o d : Int) (p r : ℚ), G ac → G (ac.add_outcome o d p r).state)
    (st : State) (a o d : Int) (p r : ℚ) (hst : ∀ x ∈ st.actions, G x) :
    ∀ x ∈ (st.add_action a o d p r).state.actions, G x := by
  have hg := forall_resize_guard G hd st.actions a hst
  unfold State.add_action
  simp only
  split
  · exact hg
  · split
    · exact hg
    · next ac hac =>
      exact forall_set G _ _ _ hg (hadd ac o d p r (hg ac (List.mem_iff_getElem?.mpr ⟨_, hac⟩)))

theorem RMDP.add_transition_forall (G : Action → Prop) (hd : G default)
    (hadd : ∀ (ac : Action) (o d : Int) (p r : ℚ), G ac → G (ac.add_outcome o d p r).state)
    (m : RMDP) (s a o d : Int) (p r : ℚ) (hm : ∀ st ∈ m.states, ∀ x ∈ st.actions, G x) :
    ∀ st ∈ (m.add_transition s a o d p r).state.states, ∀ x ∈ st.actions, G x := by
  have hg := forall_resize_guard (fun st : State => ∀ x ∈ st.actions, G x)
    (fun x hx => absurd hx (List.not_mem_nil x)) m.states (max s d) hm
  unfold RMDP.add_transition
  split
  · exact hm
  · split
    · exact hm
    · simp only
      split
      · exact hg
      · next st hst =>
        exact forall_set _ _ _ _ hg
          (State.add_action_forall G hd hadd st a o d p r (hg st (List.mem_iff_getElem?.mpr ⟨_, hst⟩)))

theorem RMDP.update_action_forall (G : Action → Prop) (m : RMDP) (s a : Nat)
    (f : Action → Action) (hf : ∀ x, G x → G (f x))
    (hm : ∀ st ∈ m.states, ∀ x ∈ st.actions, G x) :
    ∀ st ∈ (m.update_action s a f).states, ∀ x ∈ st.actions, G x := by
  unfold RMDP.update_action
  exact forall_modify _ _ _ _ hm (fun st hst => forall_modify G _ _ _ hst hf)

/-! ### The shape of built actions is kept by every operation -/

theorem Action.shaped_default : (default : Action).Shaped :=
  ⟨fun t ht => absurd ht (List.not_mem_nil t), fun x hx => by simp [Inhabited.default] at hx,
    Nat.le_refl _⟩

theorem Action.add_outcome_shaped (ac : Action) (o d : Int) (p r : ℚ) (h : ac.Shaped) :
    (ac.add_outcome o d p r).state.Shaped := by
  by_cases ho : o < 0
  · have hs : (ac.add_outcome o d p r).state = ac := by
      unfold Action.add_outcome
      have hlen : ¬ o ≥ (ac.outcomes.length : Int) := by omega
      simp [ho, hlen]
    rw [hs]
    exact h
  · rw [Action.add_outcome_nonneg ac o (by omega) d p r]
    refine ⟨?_, ?_, ?_⟩
    · exact forall_modify_growTo Transition.Sized _ _ _ _ h.1 ⟨rfl, rfl⟩
        (fun t ht => Transition.add_sized t ht d p r)
    · exact trimmed_modify_growTo (fun t : Transition => t.indices ≠ []) _ _ _
        (fun t => by simp [Transition.add]) h.2.1
    · have := Action.addO_outcomes_length ac o.toNat d p r
      have h3 := h.2.2
      simp only [Action.addO] at this ⊢
      omega

theorem RMDP.shaped_of_actions (m : RMDP) (h : ∀ st ∈ m.states, ∀ x ∈ st.actions, x.Shaped) :
    m.Shaped := h

theorem RMDP.add_transition_shaped (m : RMDP) (s a o d : Int) (p r : ℚ) (hm : m.Shaped) :
    (m.add_transition s a o d p r).state.Shaped :=
  RMDP.add_transition_forall Action.Shaped Action.shaped_default Action.add_outcome_shaped
    m s a o d p r hm

theorem Action.shaped_of_outcomes (a b : Action) (ha : a.Shaped)
    (hf : List.Forall₂ (fun t t' : Transition => t'.indices = t.indices ∧
      t'.probabilities.length = t.probabilities.length ∧
      t'.rewards.length = t.rewards.length) a.outcomes b.outcomes)
    (hd : b.distribution.length ≤ a.outcomes.length) : b.Shaped := by
  refine ⟨?_, ?_, ?_⟩
  · refine forall₂_forall _ Transition.Sized ?_ hf ha.1
    intro x y hxy hx
    unfold Transition.Sized at hx ⊢
    rw [hxy.1, hxy.2.1, hxy.2.2]
    exact hx
  · refine forall₂_trimmed _ (fun t : Transition => t.indices ≠ []) ?_ hf ha.2.1
    intro x y hxy hx
    rw [hxy.1]
    exact hx
  · rw [forall₂_length _ hf]
    exact hd

theorem RMDP.set_reward_shaped (m : RMDP) (s a o k : Int) (r : ℚ) (hm : m.Shaped) :
    (m.set_reward s a o k r).state.Shaped := by
  rw [RMDP.set_reward_eq]
  split
  · rw [RMDP.update_transition_eq_update_action]
    apply RMDP.update_action_forall Action.Shaped _ _ _ _ _ hm
    intro x hx
    refine Action.shaped_of_outcomes x _ hx ?_ hx.2.2
    exact forall₂_modify _ (fun t => ⟨rfl, rfl, rfl⟩) _ (fun t => ⟨rfl, rfl, by simp⟩) _ _
  · exact hm

theorem Action.set_distribution_keeps_shape (a : Action) (tol : ℚ) (dist : List ℚ) (t : ℚ)
    (ha : a.Shaped) : (a.set_distribution tol dist t).state.Shaped := by
  unfold Action.set_distribution
  split
  · exact ha
  · next hl =>
    split
    · exact ha
    · split
      · exact ha
      · exact ⟨ha.1, ha.2.1, by simp only; omega⟩

theorem RMDP.set_distribution_shaped (m : RMDP) (tol : ℚ) (s a : Int) (dist : List ℚ) (t : ℚ)
    (hm : m.Shaped) : (m.set_distribution tol s a dist t).state.Shaped := by
  rw [RMDP.set_distribution_eq]
  split
  · exact RMDP.update_action_forall Action.Shaped _ _ _ _
      (fun x hx => Action.set_distribution_keeps_shape x tol dist t hx) hm
  · exact hm

theorem RMDP.set_threshold_shaped (m : RMDP) (s a : Int) (t : Prec) (hm : m.Shaped) :
    (m.set_threshold s a t).state.Shaped := by
  rw [RMDP.set_threshold_eq]
  split
  · split
    · exact hm
    · exact RMDP.update_action_forall Action.Shaped _ _ _ _ (fun x hx => ⟨hx.1, hx.2.1, hx.2.2⟩) hm
  · exact hm

theorem RMDP.set_uniform_thresholds_shaped (m : RMDP) (t : ℚ) (hm : m.Shaped) :
    (m.set_uniform_thresholds t).state.Shaped := by
  unfold RMDP.set_uniform_thresholds
  refine forall_mapEffect (fun st : State => ∀ x ∈ st.actions, x.Shaped) _ _ hm ?_
  intro st hst
  unfold State.set_thresholds
  refine forall_mapEffect Action.Shaped _ _ hst ?_
  intro x hx
  unfold Action.set_threshold
  split
  · exact hx
  · exact ⟨hx.1, hx.2.1, hx.2.2⟩

theorem RMDP.set_uniform_distribution_shaped (m : RMDP) (tol t : ℚ) (hm : m.Shaped) :
    (m.set_uniform_distribution tol t).state.Shaped := by
  unfold RMDP.set_uniform_distribution
  refine forall_mapEffect (fun st : State => ∀ x ∈ st.actions, x.Shaped) _ _ hm ?_
  intro st hst
  refine forall_mapEffect Action.Shaped _ _ hst ?_
  intro x hx
  exact Action.set_distribution_keeps_shape x tol _ t hx

theorem RMDP.normalize_shaped (m : RMDP) (hm : m.Shaped) : m.normalize.state.Shaped := by
  unfold RMDP.normalize
  refine forall_mapEffect (fun st : State => ∀ x ∈ st.actions, x.Shaped) _ _ hm ?_
  intro st hst
  refine forall_mapEffect Action.Shaped _ _ hst ?_
  intro x hx
  refine Action.shaped_of_outcomes x _ hx ?_ hx.2.2
  refine forall₂_mapEffect _ (fun t => ⟨rfl, rfl, rfl⟩) _ ?_ _
  intro t
  unfold Transition.normalize
  split
  · exact ⟨rfl, rfl, rfl⟩
  · split
    · exact ⟨rfl, rfl, rfl⟩
    · exact ⟨rfl, by simp, rfl⟩

theorem RMDP.replay_shaped (init : RMDP) (lines : List Record) (h : init.Shaped) :
    (RMDP.replay init lines).state.Shaped := by
  unfold RMDP.replay
  exact foldl_bind_inv RMDP.Shaped _ _
    (fun x _ st hst => RMDP.add_transition_shaped st _ _ _ _ _ _ hst) _ h

theorem RMDP.empty_shaped : RMDP.empty.Shaped :=
  fun st hst => absurd hst (List.not_mem_nil st)

theorem RMDP.add_transitions_shaped (m : RMDP) (fromids actionids outcomeids toids : List Int)
    (probs rews : List ℚ) (hm : m.Shaped) :
    (m.add_transitions fromids actionids outcomeids toids probs rews).state.Shaped := by
  unfold RMDP.add_transitions
  simp only
  split
  · exact hm
  · refine foldl_bind_inv RMDP.Shaped _ _ ?_ _ hm
    intro l _ st hst
    split
    · exact RMDP.add_transition_shaped st _ _ _ _ _ _ hst
    · exact hst

/-! ### `copy` keeps the shape of built actions -/

theorem getD_growTo {α : Type} [Inhabited α] (v : List α) (n i : Nat) :
    (growTo v n).getD i default = v.getD i default := by
  rw [List.getD_eq_getElem?_getD, List.getD_eq_getElem?_getD, getElem?_growTo]
  by_cases h : i < v.length
  · rw [if_pos h]
  · rw [if_neg h, List.getElem?_eq_none (by omega)]
    split <;> rfl

theorem getD_set {α : Type} [Inhabited α] (l : List α) (i j : Nat) (y : α) :
    (l.set i y).getD j default = if i = j ∧ j < l.length then y else l.getD j default := by
  rw [List.getD_eq_getElem?_getD, List.getD_eq_getElem?_getD, List.getElem?_set]
  by_cases hij : i = j
  · subst hij
    by_cases hl : i < l.length
    · simp [hl]
    · simp [hl, List.getElem?_eq_none (Nat.le_of_not_lt hl)]
  · simp [hij]

theorem RMDP.addT_outcomes_length (m : RMDP) (s a o dst : Nat) (p r : ℚ) (i j : Nat) :
    ((m.addT s a o dst p r).actionD i j).outcomes.length
      = if s = i ∧ a = j then max (m.actionD i j).outcomes.length (o + 1)
        else (m.actionD i j).outcomes.length := by
  unfold RMDP.addT RMDP.actionD RMDP.stateD
  simp only
  rw [getD_modify, length_growTo, getD_growTo]
  by_cases hs : s = i
  · subst hs
    rw [if_pos ⟨rfl, by omega⟩]
    unfold State.addA
    simp only
    rw [getD_modify, length_growTo, getD_growTo]
    by_cases ha : a = j
    · subst ha
      rw [if_pos ⟨rfl, by omega⟩, if_pos ⟨trivial, rfl⟩, Action.addO_outcomes_length]
    · rw [if_neg (fun hc => ha hc.1), if_neg (fun hc => ha hc.2)]
  · rw [if_neg (fun hc => hs hc.1), if_neg (fun hc => hs hc.1)]

theorem foldl_bind_error {σ β : Type} (f : β → σ → Effect σ) (l : List β) (e : Effect σ)
    (x : Error) (he : e.error = some x) : l.foldl (fun e b => e.bind (f b)) e = e := by
  induction l with
  | nil => rfl
  | cons b bs ih =>
    rw [List.foldl_cons]
    have : e.bind (f b) = e := by
      unfold Effect.bind
      rw [he]
    rw [this]
    exact ih

theorem RMDP.replay_cons (init : RMDP) (x : Record) (l : List Record) :
    RMDP.replay init (x :: l) =
      if (init.add_transition x.idstatefrom x.idaction x.idoutcome x.idstateto x.probability
          x.reward).error = none then
        RMDP.replay (init.add_transition x.idstatefrom x.idaction x.idoutcome x.idstateto
          x.probability x.reward).state l
      else init.add_transition x.idstatefrom x.idaction x.idoutcome x.idstateto x.probability
          x.reward := by
  unfold RMDP.replay
  rw [List.foldl_cons]
  have hb : (⟨init, none⟩ : Effect RMDP).bind (fun res => res.add_transition x.idstatefrom
      x.idaction x.idoutcome x.idstateto x.probability x.reward)
      = init.add_transition x.idstatefrom x.idaction x.idoutcome x.idstateto x.probability
          x.reward := rfl
  rw [hb]
  clear hb
  generalize init.add_transition x.idstatefrom x.idaction x.idoutcome x.idstateto x.probability
      x.reward = e
  obtain ⟨st, er⟩ := e
  cases er with
  | none => rw [if_pos rfl]
  | some e =>
    rw [if_neg (by simp)]
    exact foldl_bind_error _ _ _ e rfl

theorem RMDP.replay_outcomes_ge (init : RMDP) (l : List Record)
    (h : (RMDP.replay init l).error = none) :
    (∀ i j, (init.actionD i j).outcomes.length
      ≤ ((RMDP.replay init l).state.actionD i j).outcomes.length) ∧
    ∀ x ∈ l, x.idoutcome.toNat + 1
      ≤ ((RMDP.replay init l).state.actionD x.idstatefrom.toNat x.idaction.toNat
          ).outcomes.length := by
  induction l generalizing init with
  | nil =>
    exact ⟨fun i j => Nat.le_refl _, fun x hx => absurd hx (List.not_mem_nil x)⟩
  | cons y ys ih =>
    rw [RMDP.replay_cons] at h ⊢
    by_cases hy : (init.add_transition y.idstatefrom y.idaction y.idoutcome y.idstateto
        y.probability y.reward).error = none
    · rw [if_pos hy] at h ⊢
      obtain ⟨h0, h1, h2, h3⟩ := RMDP.add_transition_error_none _ _ _ _ _ _ _ hy
      have heq := RMDP.add_transition_nonneg init _ _ _ _ h0 h1 h2 h3 y.probability y.reward
      rw [heq] at h ⊢
      simp only at h ⊢
      obtain ⟨ih1, ih2⟩ := ih _ h
      have hstep := RMDP.addT_outcomes_length init y.idstatefrom.toNat y.idaction.toNat
        y.idoutcome.toNat y.idstateto.toNat y.probability y.reward
      constructor
      · intro i j
        refine le_trans ?_ (ih1 i j)
        rw [hstep]
        split
        · exact le_max_left _ _
        · exact Nat.le_refl _
      · intro x hx
        rcases List.mem_cons.mp hx with rfl | hx
        · refine le_trans ?_ (ih1 _ _)
          rw [hstep, if_pos ⟨rfl, rfl⟩]
          exact le_max_right _ _
        · exact ih2 x hx
    · rw [if_neg hy] at h
      exact absurd h hy

theorem Action.add_outcome_distribution (ac : Action) (o d : Int) (p r : ℚ) :
    (ac.add_outcome o d p r).state.distribution = ac.distribution := by
  unfold Action.add_outcome
  simp only
  split
  · rfl
  · split <;> rfl

theorem copy_distributions_state_inv (origin dest : State) (j : Nat) :
    (((copy_distributions_state origin dest).state.actions.getD j default).outcomes
        = (dest.actions.getD j default).outcomes) ∧
    (((copy_distributions_state origin dest).state.actions.getD j default).distribution
        = (dest.actions.getD j default).distribution ∨
      ((copy_distributions_state origin dest).state.actions.getD j default).distribution
        = (origin.actions.getD j default).distribution) := by
  unfold copy_distributions_state
  refine foldl_bind_inv (fun d : State =>
    ((d.actions.getD j default).outcomes = (dest.actions.getD j default).outcomes) ∧
    ((d.actions.getD j default).distribution = (dest.actions.getD j default).distribution ∨
      (d.actions.getD j default).distribution = (origin.actions.getD j default).distribution))
    _ _ ?_ _ ⟨rfl, Or.inl rfl⟩
  intro ja hja d hd
  have hja' := List.mem_enum_iff_getElem?.mp hja
  split
  · exact hd
  · next ad had =>
    simp only
    rw [getD_set]
    split
    · next hc =>
      obtain ⟨hc1, -⟩ := hc
      subst hc1
      constructor
      · rw [← hd.1, getD_of_getElem? _ _ _ had]
      · right
        rw [getD_of_getElem? _ _ _ hja']
    · exact hd

theorem copy_distributions_inv (m result : RMDP) (i j : Nat) :
    (((copy_distributions m result).state.actionD i j).outcomes
        = (result.actionD i j).outcomes) ∧
    (((copy_distributions m result).state.actionD i j).distribution
        = (result.actionD i j).distribution ∨
      ((copy_distributions m result).state.actionD i j).distribution
        = (m.actionD i j).distribution) := by
  unfold copy_distributions
  refine foldl_bind_inv (fun res : RMDP =>
    ((res.actionD i j).outcomes = (result.actionD i j).outcomes) ∧
    ((res.actionD i j).distribution = (result.actionD i j).distribution ∨
      (res.actionD i j).distribution = (m.actionD i j).distribution))
    _ _ ?_ _ ⟨rfl, Or.inl rfl⟩
  intro is his res hres
  have his' := List.mem_enum_iff_getElem?.mp his
  split
  · exact hres
  · next sd hsd =>
    simp only
    unfold RMDP.actionD RMDP.stateD at hres ⊢
    simp only
    rw [getD_set]
    split
    · next hc =>
      obtain ⟨hc1, -⟩ := hc
      have hinv := copy_distributions_state_inv is.2 sd j
      subst hc1
      rw [getD_of_getElem? _ _ _ hsd, getD_of_getElem? _ _ _ his'] at hres
      rw [getD_of_getElem? _ _ _ his']
      constructor
      · rw [hinv.1]
        exact hres.1
      · rcases hinv.2 with h | h
        · rw [h]
          exact hres.2
        · exact Or.inr h
    · exact hres

theorem RMDP.shaped_of_actionD (m : RMDP) (h : ∀ i j, (m.actionD i j).Shaped) : m.Shaped := by
  intro st hst a ha
  obtain ⟨i, hi⟩ := List.mem_iff_getElem?.mp hst
  obtain ⟨j, hj⟩ := List.mem_iff_getElem?.mp ha
  have := h i j
  unfold RMDP.actionD RMDP.stateD at this
  rw [getD_of_getElem? _ _ _ hi, getD_of_getElem? _ _ _ hj] at this
  exact this

theorem RMDP.actionD_shaped (m : RMDP) (hm : m.Shaped) (i j : Nat) : (m.actionD i j).Shaped := by
  unfold RMDP.actionD RMDP.stateD
  rcases getD_mem_or_default m.states i with h1 | h1
  · rcases getD_mem_or_default (m.states.getD i default).actions j with h2 | h2
    · exact hm _ h1 _ h2
    · rw [h2]
      exact Action.shaped_default
  · rw [h1]
    exact Action.shaped_default

theorem RMDP.sized_of_shaped {m : RMDP} (hm : m.Shaped) : m.Sized :=
  fun s hs a ha => (hm s hs a ha).1

theorem RMDP.copy_shaped (m m' : RMDP) (hm : m.Shaped) (h : m.copy = Except.ok m') :
    m'.Shaped := by
  unfold RMDP.copy at h
  split at h
  · exact absurd h (by simp)
  · next herr =>
    have hm' : m' = (m.copy_into (RMDP.withStates m.states.length)).state :=
      (Except.ok.inj h).symm
    unfold RMDP.copy_into at herr hm'
    rw [copy_transitions_eq m (RMDP.sized_of_shaped hm)] at herr hm'
    cases hrep : (RMDP.replay (RMDP.withStates m.states.length) m.branches).error with
    | some e =>
      unfold Effect.bind at herr
      rw [hrep] at herr
      simp only at herr
      rw [hrep] at herr
      exact absurd herr (by simp)
    | none =>
      unfold Effect.bind at hm'
      rw [hrep] at hm'
      simp only at hm'
      -- the RMDP after the first part of `copy_into`
      have hW : ∀ st ∈ (RMDP.withStates m.states.length).states, ∀ x ∈ st.actions,
          x.Shaped ∧ x.distribution = [] := by
        intro st hst x hx
        rw [(List.mem_replicate.mp hst).2] at hx
        exact absurd hx (List.not_mem_nil x)
      have hR : ∀ st ∈ (RMDP.replay (RMDP.withStates m.states.length) m.branches).state.states,
          ∀ x ∈ st.actions, x.Shaped ∧ x.distribution = [] := by
        unfold RMDP.replay
        refine foldl_bind_inv (fun res : RMDP => ∀ st ∈ res.states, ∀ x ∈ st.actions,
          x.Shaped ∧ x.distribution = []) _ _ ?_ _ hW
        intro x _ st hst
        exact RMDP.add_transition_forall (fun x : Action => x.Shaped ∧ x.distribution = [])
          ⟨Action.shaped_default, rfl⟩
          (fun ac o d p r hac => ⟨Action.add_outcome_shaped ac o d p r hac.1, by
            rw [Action.add_outcome_distribution]; exact hac.2⟩) st _ _ _ _ _ _ hst
      have hRD : ∀ i j,
          ((RMDP.replay (RMDP.withStates m.states.length) m.branches).state.actionD i j).Shaped ∧
          ((RMDP.replay (RMDP.withStates m.states.length) m.branches).state.actionD i j
            ).distribution = [] := by
        intro i j
        unfold RMDP.actionD RMDP.stateD
        rcases getD_mem_or_default
          (RMDP.replay (RMDP.withStates m.states.length) m.branches).state.states i with h1 | h1
        · rcases getD_mem_or_default ((RMDP.replay (RMDP.withStates m.states.length)
            m.branches).state.states.getD i default).actions j with h2 | h2
          · exact hR _ h1 _ h2
          · rw [h2]
            exact ⟨Action.shaped_default, rfl⟩
        · rw [h1]
          exact ⟨Action.shaped_default, rfl⟩
      have hge := (RMDP.replay_outcomes_ge _ _ hrep).2
      apply RMDP.shaped_of_actionD
      intro i j
      rw [hm']
      obtain ⟨hout, hdist⟩ := copy_distributions_inv m
        (RMDP.replay (RMDP.withStates m.states.length) m.branches).state i j
      obtain ⟨hRs, hRd⟩ := hRD i j
      refine ⟨?_, ?_, ?_⟩
      · rw [hout]
        exact hRs.1
      · rw [hout]
        exact hRs.2.1
      · rw [hout]
        rcases hdist with hd | hd
        · rw [hd, hRd]
          exact Nat.zero_le _
        · rw [hd]
          have hmS := RMDP.actionD_shaped m hm i j
          refine le_trans hmS.2.2 ?_
          by_cases hK : (m.actionD i j).outcomes.length = 0
          · rw [hK]
            exact Nat.zero_le _
          · have hlast : (m.actionD i j).outcomes[(m.actionD i j).outcomes.length - 1]?
                = some ((m.actionD i j).outcomes.get
                  ⟨(m.actionD i j).outcomes.length - 1, by omega⟩) :=
              List.getElem?_eq_getElem (by omega)
            have hne := hmS.2.1 _ (by rw [List.getLast?_eq_getElem?]; exact hlast)
            have hsz := hmS.1 _ (List.mem_iff_getElem?.mpr ⟨_, hlast⟩)
            have hrec := Transition.records_ne_nil i j ((m.actionD i j).outcomes.length - 1) _
              hsz hne
            obtain ⟨x, hx⟩ := List.exists_mem_of_ne_nil _ hrec
            have hkey := Transition.mem_records _ _ _ _ x hx
            have hmem : x ∈ m.branches := by
              apply RMDP.mem_branches_of m i j ((m.actionD i j).outcomes.length - 1)
              have htd : m.transitionD i j ((m.actionD i j).outcomes.length - 1)
                  = (m.actionD i j).outcomes.get
                    ⟨(m.actionD i j).outcomes.length - 1, by omega⟩ :=
                getD_of_getElem? _ _ _ hlast
              rw [htd]
              exact hx
            have := hge x hmem
            rw [hkey.1, hkey.2.1, hkey.2.2.1] at this
            simp only [Int.toNat_ofNat] at this
            omega

/-- Every built RMDP has actions of the built shape. -/
theorem Built.shaped {m : RMDP} (h : Built m) : m.Shaped := by
  induction h with
  | empty => exact RMDP.empty_shaped
  | add_transition m s a o dst p r _ ih => exact RMDP.add_transition_shaped m s a o dst p r ih
  | add_transition_d m s a dst p r _ ih => exact RMDP.add_transition_shaped m s a 0 dst p r ih
  | add_transitions m f a o t p r _ ih => exact RMDP.add_transitions_shaped m f a o t p r ih
  | set_reward m s a o k r _ ih => exact RMDP.set_reward_shaped m s a o k r ih
  | set_distribution m tol s a dist t _ ih =>
    exact RMDP.set_distribution_shaped m tol s a dist t ih
  | set_threshold m s a t _ ih => exact RMDP.set_threshold_shaped m s a t ih
  | set_uniform_thresholds m t _ ih => exact RMDP.set_uniform_thresholds_shaped m t ih
  | set_uniform_distribution m tol t _ ih =>
    exact RMDP.set_uniform_distribution_shaped m tol t ih
  | normalize m _ ih => exact RMDP.normalize_shaped m ih
  | transitions_from_csv lines => exact RMDP.replay_shaped RMDP.empty lines RMDP.empty_shaped
  | copy m m' _ hc ih => exact RMDP.copy_shaped m m' ih hc

/-! ## C15: sizing consistency -/

/-- C15. For every RMDP built from the empty RMDP by the public operations and
every valid `(s,a,o)`: `transition_count(s,a,o)` and `sample_count(s,a,o)`
return the same number `n`, which is the length of each of `indices`,
`probabilities` and `rewards` of the Transition that `get_transition` returns.
Hence for `0 ≤ k < n` the reads `indices[k]` and `probabilities[k]` of
`get_toid` and `get_probability` are in range and both return a value, and for
every other `k` both fail with InvalidIndex. -/
theorem sizing_consistency (m : RMDP) (hm : Built m) (s a o : Int)
    (hv : m.validOutcome s a o) :
    ∃ n : Nat,
      m.transition_count s a o = Except.ok (n : Int) ∧
      m.sample_count s a o = Except.ok (n : Int) ∧
      m.get_transition s a o = Except.ok (m.transitionD s.toNat a.toNat o.toNat) ∧
      (m.transitionD s.toNat a.toNat o.toNat).indices.length = n ∧
      (m.transitionD s.toNat a.toNat o.toNat).probabilities.length = n ∧
      (m.transitionD s.toNat a.toNat o.toNat).rewards.length = n ∧
      ∀ k : Int,
        (0 ≤ k ∧ k < (n : Int) → ∃ (d : Int) (p : ℚ),
          (m.transitionD s.toNat a.toNat o.toNat).indices[k.toNat]? = some d ∧
          (m.transitionD s.toNat a.toNat o.toNat).probabilities[k.toNat]? = some p ∧
          m.get_toid s a o k = Except.ok (d : ℚ) ∧ m.get_probability s a o k = Except.ok p) ∧
        (¬ (0 ≤ k ∧ k < (n : Int)) →
          m.get_toid s a o k = Except.error Error.InvalidIndex ∧
          m.get_probability s a o k = Except.error Error.InvalidIndex) := by
  have hsz := RMDP.transitionD_sized m (RMDP.sized_of_shaped (Built.shaped hm))
    s.toNat a.toNat o.toNat
  refine ⟨(m.transitionD s.toNat a.toNat o.toNat).indices.length, ?_, ?_, ?_, rfl, hsz.1, hsz.2,
    ?_⟩
  · rw [RMDP.transition_count_eq, if_pos hv]
  · rw [RMDP.sample_count_eq, if_pos hv, hsz.2]
  · rw [RMDP.get_transition_eq, if_pos hv]
  · intro k
    rw [RMDP.get_toid_eq, RMDP.get_probability_eq, hsz.2]
    constructor
    · intro hk
      obtain ⟨d, hd1, hd2⟩ := index_getElem (m.transitionD s.toNat a.toNat o.toNat).indices k
        hk.1 hk.2
      obtain ⟨p, hp1, hp2⟩ := index_getElem (m.transitionD s.toNat a.toNat o.toNat).probabilities
        k hk.1 (by rw [hsz.1]; exact hk.2)
      refine ⟨d, p, hd1, hp1, ?_, ?_⟩
      · rw [if_pos ⟨hv, hk⟩, hd2]
      · rw [if_pos ⟨hv, hk⟩, hp2]
    · intro hk
      rw [if_neg (fun hc => hk hc.2), if_neg (fun hc => hk hc.2)]
      exact ⟨rfl, rfl⟩

/-- Witness for C15: scenario S2 at `(0,0,0)`. -/
theorem sizing_consistency_witness :
    Built scenarioS2 ∧ scenarioS2.validOutcome 0 0 0 ∧
      scenarioS2.transition_count 0 0 0 = Except.ok 2 ∧
      scenarioS2.sample_count 0 0 0 = Except.ok 2 := by
  have hB : Built scenarioS2 :=
    Built.add_transition scenarioS2a 0 0 0 2 (1 / 2) 2
      (Built.add_transition RMDP.empty 0 0 0 1 (1 / 2) 1 Built.empty)
  obtain ⟨n, h1, h2, -, h3, -⟩ := sizing_consistency scenarioS2 hB 0 0 0 (by decide)
  have hn : n = 2 := by rw [← h3]; rfl
  subst hn
  exact ⟨hB, by decide, h1, h2⟩

/-! ## The distribution after a new outcome -/

theorem staleDistribution_eq :
    staleDistribution = ⟨[⟨[⟨[⟨[0], [1], [0]⟩, ⟨[0], [1], [0]⟩], [1], Prec.num 0⟩]⟩]⟩ := by
  have h1 : (RMDP.empty.add_transition 0 0 0 0 1 0).state
      = ⟨[⟨[⟨[⟨[0], [1], [0]⟩], [], Prec.num 0⟩]⟩]⟩ := rfl
  have h2 : (RMDP.set_distribution ⟨[⟨[⟨[⟨[0], [1], [0]⟩], [], Prec.num 0⟩]⟩]⟩ 0 0 0 [1] 0).state
      = ⟨[⟨[⟨[⟨[0], [1], [0]⟩], [1], Prec.num 0⟩]⟩]⟩ := by
    norm_num [RMDP.set_distribution, index, RMDP.update_action, Action.set_distribution]
  unfold staleDistribution
  rw [h1, h2]
  rfl

/-- With `Action::add_outcome` doing what section 4.2 of the spec lists and
nothing more (grow the outcome vector, delegate the add), the calls
`add_transition(0,0,0,0,1.0,0.0)`, `set_distribution(0,0,[1.0],0.0)`,
`add_transition(0,0,1,0,1.0,0.0)` all succeed and leave action 0 of state 0
with two outcomes and the distribution `[1.0]`.  Whether the `add_outcome` of
the code also resizes a distribution that is set is not in the sources given;
this is a statement about the modelled one only. -/
theorem distribution_stale_after_add_outcome :
    Built staleDistribution ∧
      staleDistribution.outcome_count 0 0 = Except.ok 2 ∧
      (staleDistribution.actionD 0 0).distribution = [1] ∧
      ¬ ((staleDistribution.actionD 0 0).distribution = [] ∨
        (staleDistribution.actionD 0 0).distribution.length
          = (staleDistribution.actionD 0 0).outcomes.length) := by
  refine ⟨Built.add_transition _ 0 0 1 0 1 0 (Built.set_distribution _ 0 0 0 [1] 0
    (Built.add_transition RMDP.empty 0 0 0 0 1 0 Built.empty)), ?_⟩
  rw [staleDistribution_eq]
  refine ⟨rfl, rfl, ?_⟩
  simp [RMDP.actionD, RMDP.stateD]

/-! ## Simulator: what the two loops append -/

theorem step_loop_stop {W D A E : Type} (prob_term : ℚ) (tran_limit : Int) (run : Int)
    (n : Nat) (step : Int) (decstate : D) (l l' : SimLocals W D A E)
    (hs : l'.samples = l.samples) (ht : l'.transitions = l.transitions) :
    ∃ (decs : List (DecSample D A E)) (exps : List (ExpSample D E)),
      l'.samples
        = ⟨l.samples.decsamples ++ decs, l.samples.initial, l.samples.expsamples ++ exps⟩ ∧
      ChainFrom run step decstate decs exps ∧ exps.length ≤ n ∧
      l.transitions ≤ l'.transitions ∧
      (exps.length : Int) ≤ l'.transitions - l.transitions + 1 ∧
      (prob_term ≤ 0 → (exps.length : Int) = l'.transitions - l.transitions) ∧
      (tran_limit > 0 → l'.transitions ≤ max l.transitions (tran_limit + 1)) := by
  refine ⟨[], [], ?_, trivial, Nat.zero_le _, ?_, ?_, ?_, ?_⟩
  · rw [hs, List.append_nil, List.append_nil]
  · rw [ht]
  · rw [ht]; simp
  · intro _; rw [ht]; simp
  · intro _; rw [ht]; exact le_max_left _ _

theorem step_loop_extend {W D A E : Type} (prob_term : ℚ) (tran_limit : Int) (run : Int)
    (n : Nat) (step : Int) (decstate : D) (l l1 l' : SimLocals W D A E)
    (ds : DecSample D A E) (es : ExpSample D E) (d1 : D)
    (ih : ∃ (decs : List (DecSample D A E)) (exps : List (ExpSample D E)),
      l'.samples
        = ⟨l1.samples.decsamples ++ decs, l1.samples.initial, l1.samples.expsamples ++ exps⟩ ∧
      ChainFrom run (step + 1) d1 decs exps ∧ exps.length ≤ n ∧
      l1.transitions ≤ l'.transitions ∧
      (exps.length : Int) ≤ l'.transitions - l1.transitions + 1 ∧
      (prob_term ≤ 0 → (exps.length : Int) = l'.transitions - l1.transitions) ∧
      (tran_limit > 0 → l'.transitions ≤ max l1.transitions (tran_limit + 1)))
    (hsam : l1.samples = (l.samples.add_dec ds).add_exp es)
    (htr : l1.transitions = l.transitions + 1) (hd1 : es.decstate_to = d1)
    (hds : ds.run = run ∧ ds.step = step ∧ ds.decstate_from = decstate)
    (hes : es.run = run ∧ es.step = step ∧ es.expstate_from = ds.expstate_to ∧ es.weight = 1)
    (hlim : ¬ (tran_limit > 0 ∧ l.transitions > tran_limit)) :
    ∃ (decs : List (DecSample D A E)) (exps : List (ExpSample D E)),
      l'.samples
        = ⟨l.samples.decsamples ++ decs, l.samples.initial, l.samples.expsamples ++ exps⟩ ∧
      ChainFrom run step decstate decs exps ∧ exps.length ≤ n + 1 ∧
      l.transitions ≤ l'.transitions ∧
      (exps.length : Int) ≤ l'.transitions - l.transitions + 1 ∧
      (prob_term ≤ 0 → (exps.length : Int) = l'.transitions - l.transitions) ∧
      (tran_limit > 0 → l'.transitions ≤ max l.transitions (tran_limit + 1)) := by
  obtain ⟨decs, exps, h1, h2, h3, h4, h5, h6, h7⟩ := ih
  rw [htr] at h4 h5 h6 h7
  rw [← hd1] at h2
  refine ⟨ds :: decs, es :: exps, ?_,
    ⟨hds.1, hds.2.1, hds.2.2, hes.1, hes.2.1, hes.2.2.1, hes.2.2.2, h2⟩, ?_, ?_, ?_, ?_, ?_⟩
  · rw [h1, hsam]
    simp [Samples.add_dec, Samples.add_exp]
  · simp only [List.length_cons]
    omega
  · omega
  · simp only [List.length_cons, Nat.cast_add, Nat.cast_one]
    omega
  · intro hc
    have := h6 hc
    simp only [List.length_cons, Nat.cast_add, Nat.cast_one]
    omega
  · intro hc
    have := h7 hc
    have hl : l.transitions ≤ tran_limit := by
      by_contra hcon
      exact hlim ⟨hc, by omega⟩
    rw [le_max_iff] at this ⊢
    omega

theorem step_loop_spec {W D A E : Type} (sim : Simulator W D A E) (policy : D → W → A × W)
    (draw : Nat → ℚ) (prob_term : ℚ) (tran_limit : Int) (run : Int) (n : Nat) (step : Int)
    (decstate : D) (l : SimLocals W D A E) :
    ∃ (decs : List (DecSample D A E)) (exps : List (ExpSample D E)),
      (step_loop sim policy draw prob_term tran_limit run n step decstate l).samples
        = ⟨l.samples.decsamples ++ decs, l.samples.initial, l.samples.expsamples ++ exps⟩ ∧
      ChainFrom run step decstate decs exps ∧ exps.length ≤ n ∧
      l.transitions ≤
        (step_loop sim policy draw prob_term tran_limit run n step decstate l).transitions ∧
      (exps.length : Int) ≤
        (step_loop sim policy draw prob_term tran_limit run n step decstate l).transitions
          - l.transitions + 1 ∧
      (prob_term ≤ 0 → (exps.length : Int) =
        (step_loop sim policy draw prob_term tran_limit run n step decstate l).transitions
          - l.transitions) ∧
      (tran_limit > 0 →
        (step_loop sim policy draw prob_term tran_limit run n step decstate l).transitions
          ≤ max l.transitions (tran_limit + 1)) := by
  induction n generalizing step decstate l with
  | zero => exact step_loop_stop prob_term tran_limit run 0 step decstate l l rfl rfl
  | succ n ih =>
    unfold step_loop
    simp only
    split
    · exact step_loop_stop prob_term tran_limit run (n + 1) step decstate l _ rfl rfl
    · split
      · exact step_loop_stop prob_term tran_limit run (n + 1) step decstate l _ rfl rfl
      · next hend hlim =>
        split
        · next hpt =>
          split
          · refine ⟨[_], [_], rfl, ⟨rfl, rfl, rfl, rfl, rfl, rfl, rfl, trivial⟩, by simp, ?_, ?_,
              ?_, ?_⟩
            · exact le_refl _
            · simp
            · intro hc
              exact absurd hpt (not_lt.mpr hc)
            · intro _
              exact le_max_left _ _
          · refine step_loop_extend prob_term tran_limit run n step decstate l _ _ ?ds ?es _
              (ih (step + 1) _ _) ?hsam ?htr ?hd1 ?hds ?hes hlim
            case hsam => exact rfl
            case htr => rfl
            case hd1 => rfl
            case hds => exact ⟨rfl, rfl, rfl⟩
            case hes => exact ⟨rfl, rfl, rfl, rfl⟩
        · refine step_loop_extend prob_term tran_limit run n step decstate l _ _ ?ds ?es _
            (ih (step + 1) _ _) ?hsam ?htr ?hd1 ?hds ?hes hlim
          case hsam => exact rfl
          case htr => rfl
          case hd1 => rfl
          case hds => exact ⟨rfl, rfl, rfl⟩
          case hes => exact ⟨rfl, rfl, rfl, rfl⟩

theorem run_loop_spec {W D A E : Type} (sim : Simulator W D A E) (policy : D → W → A × W)
    (draw : Nat → ℚ) (horizon : Int) (prob_term : ℚ) (tran_limit : Int) (n : Nat) (run : Int)
    (l : SimLocals W D A E) :
    ∃ blocks : List (RunBlock D A E),
      (run_loop sim policy draw horizon prob_term tran_limit n run l).samples
        = ⟨l.samples.decsamples ++ (blocks.map RunBlock.decs).flatten,
            l.samples.initial ++ blocks.map RunBlock.initial,
            l.samples.expsamples ++ (blocks.map RunBlock.exps).flatten⟩ ∧
      BlocksFrom horizon run blocks ∧ blocks.length ≤ n ∧
      l.transitions ≤ (run_loop sim policy draw horizon prob_term tran_limit n run l).transitions ∧
      (((blocks.map RunBlock.exps).flatten.length : Nat) : Int) ≤
        (run_loop sim policy draw horizon prob_term tran_limit n run l).transitions
          - l.transitions + blocks.length ∧
      (prob_term ≤ 0 → (((blocks.map RunBlock.exps).flatten.length : Nat) : Int) =
        (run_loop sim policy draw horizon prob_term tran_limit n run l).transitions
          - l.transitions) ∧
      (tran_limit > 0 →
        (run_loop sim policy draw horizon prob_term tran_limit n run l).transitions
          ≤ max l.transitions (tran_limit + 1)) := by
  induction n generalizing run l with
  | zero =>
    refine ⟨[], ?_, trivial, Nat.le_refl _, le_refl _, ?_, ?_, ?_⟩
    · simp [run_loop]
    · simp [run_loop]
    · intro _; simp [run_loop]
    · intro _; exact le_max_left _ _
  | succ n ih =>
    obtain ⟨decs, exps, s1, c1, len1, t1, e1, p1, m1⟩ :=
      step_loop_spec sim policy draw prob_term tran_limit run horizon.toNat 0
        (sim.init_state l.world).1
        ⟨l.samples.add_initial (sim.init_state l.world).1, l.transitions, l.generator,
          (sim.init_state l.world).2⟩
    unfold run_loop
    simp only at s1 t1 e1 p1 m1 ⊢
    generalize step_loop sim policy draw prob_term tran_limit run horizon.toNat 0
        (sim.init_state l.world).1
        ⟨l.samples.add_initial (sim.init_state l.world).1, l.transitions, l.generator,
          (sim.init_state l.world).2⟩ = l2 at s1 t1 e1 p1 m1 ⊢
    split
    · refine ⟨[⟨(sim.init_state l.world).1, decs, exps⟩], ?_, ⟨c1, len1, trivial⟩, by simp,
        t1, ?_, ?_, m1⟩
      · rw [s1]
        simp [Samples.add_initial]
      · simp only [List.map_cons, List.map_nil, List.flatten_cons, List.flatten_nil,
          List.append_nil, List.length_cons, List.length_nil]
        omega
      · intro hc
        have := p1 hc
        simp only [List.map_cons, List.map_nil, List.flatten_cons, List.flatten_nil,
          List.append_nil]
        exact this
    · obtain ⟨blocks, s2, c2, len2, t2, e2, p2, m2⟩ := ih (run + 1) l2
      refine ⟨⟨(sim.init_state l.world).1, decs, exps⟩ :: blocks, ?_, ⟨c1, len1, c2⟩, ?_, ?_,
        ?_, ?_, ?_⟩
      · rw [s2, s1]
        simp [Samples.add_initial]
      · simp only [List.length_cons]
        omega
      · omega
      · simp only [List.map_cons, List.flatten_cons, List.length_append, List.length_cons,
          Nat.cast_add, Nat.cast_one] at e2 ⊢
        omega
      · intro hc
        have h1 := p1 hc
        have h2 := p2 hc
        simp only [List.map_cons, List.flatten_cons, List.length_append, Nat.cast_add] at h2 ⊢
        omega
      · intro hc
        have h1 := m1 hc
        have h2 := m2 hc
        rw [le_max_iff] at h1 h2 ⊢
        omega

/-- The result of `simulate_stateless` is the concatenation of the samples of
its runs. -/
theorem simulate_stateless_blocks {W D A E : Type} (sim : Simulator W D A E)
    (policy : D → W → A × W) (draw : Nat → ℚ) (world : W) (horizon runs : Int) (prob_term : ℚ)
    (tran_limit : Int) :
    ∃ blocks : List (RunBlock D A E),
      simulate_stateless sim policy draw world horizon runs prob_term tran_limit
        = ⟨(blocks.map RunBlock.decs).flatten, blocks.map RunBlock.initial,
            (blocks.map RunBlock.exps).flatten⟩ ∧
      BlocksFrom horizon 0 blocks ∧ blocks.length ≤ runs.toNat ∧
      (tran_limit > 0 →
        (((blocks.map RunBlock.exps).flatten.length : Nat) : Int)
          ≤ tran_limit + 1 + blocks.length) ∧
      (tran_limit > 0 → prob_term ≤ 0 →
        (((blocks.map RunBlock.exps).flatten.length : Nat) : Int) ≤ tran_limit + 1) := by
  obtain ⟨blocks, s, c, len, t, e, p, m⟩ :=
    run_loop_spec sim policy draw horizon prob_term tran_limit runs.toNat 0
      ⟨⟨[], [], []⟩, 0, 0, world⟩
  refine ⟨blocks, ?_, c, len, ?_, ?_⟩
  · unfold simulate_stateless
    rw [s]
    simp
  · intro hc
    have := m hc
    simp only at this e
    rw [le_max_iff] at this
    omega
  · intro hc hp
    have h1 := m hc
    have h2 := p hp
    simp only at h1 h2
    rw [le_max_iff] at h1
    omega

/-! ## Facts on chains and blocks -/

theorem forall₂_append {α β : Type} (R : α → β → Prop) {l1 l2 : List α} {m1 m2 : List β}
    (h1 : List.Forall₂ R l1 m1) (h2 : List.Forall₂ R l2 m2) :
    List.Forall₂ R (l1 ++ l2) (m1 ++ m2) := by
  induction h1 with
  | nil => exact h2
  | cons hxy _ ih => exact List.Forall₂.cons hxy ih

theorem forall₂_getElem? {α β : Type} (R : α → β → Prop) {l : List α} {m : List β}
    (h : List.Forall₂ R l m) :
    l.length = m.length ∧ ∀ (i : Nat) (x : α) (y : β), l[i]? = some x → m[i]? = some y → R x y := by
  induction h with
  | nil => exact ⟨rfl, fun i x y hx => by simp at hx⟩
  | cons hxy _ ih =>
    refine ⟨by simp [ih.1], ?_⟩
    intro i x y hx hy
    cases i with
    | zero =>
      simp only [List.getElem?_cons_zero, Option.some.injEq] at hx hy
      rw [← hx, ← hy]
      exact hxy
    | succ i =>
      simp only [List.getElem?_cons_succ] at hx hy
      exact ih.2 i x y hx hy

theorem ChainFrom.chain_paired {D A E : Type} (run : Int) (step : Int) (d : D)
    (decs : List (DecSample D A E)) (exps : List (ExpSample D E))
    (h : ChainFrom run step d decs exps) :
    List.Forall₂ (fun (x : DecSample D A E) (y : ExpSample D E) =>
      x.run = y.run ∧ x.step = y.step ∧ x.expstate_to = y.expstate_from ∧ y.weight = 1)
      decs exps := by
  induction decs generalizing step d exps with
  | nil =>
    cases exps with
    | nil => exact List.Forall₂.nil
    | cons e et => exact absurd h (by simp [ChainFrom])
  | cons x xt ih =>
    cases exps with
    | nil => exact absurd h (by simp [ChainFrom])
    | cons e et =>
      simp only [ChainFrom] at h
      obtain ⟨h1, h2, -, h4, h5, h6, h7, h8⟩ := h
      exact List.Forall₂.cons ⟨by rw [h1, h4], by rw [h2, h5], h6.symm, h7⟩ (ih _ _ _ h8)

theorem BlocksFrom.blocks_paired {D A E : Type} (horizon run : Int) (blocks : List (RunBlock D A E))
    (h : BlocksFrom horizon run blocks) :
    List.Forall₂ (fun (x : DecSample D A E) (y : ExpSample D E) =>
      x.run = y.run ∧ x.step = y.step ∧ x.expstate_to = y.expstate_from ∧ y.weight = 1)
      (blocks.map RunBlock.decs).flatten (blocks.map RunBlock.exps).flatten := by
  induction blocks generalizing run with
  | nil => exact List.Forall₂.nil
  | cons b bs ih =>
    simp only [BlocksFrom] at h
    simp only [List.map_cons, List.flatten_cons]
    exact forall₂_append _ (ChainFrom.chain_paired run 0 b.initial b.decs b.exps h.1) (ih _ h.2.2)

theorem ChainFrom.chain_getElem {D A E : Type} (run : Int) (step : Int) (d : D)
    (decs : List (DecSample D A E)) (exps : List (ExpSample D E))
    (h : ChainFrom run step d decs exps) :
    decs.length = exps.length ∧
    (∀ (k : Nat) (x : DecSample D A E), decs[k]? = some x → x.run = run ∧ x.step = step + k) ∧
    (∀ (k : Nat) (y : ExpSample D E), exps[k]? = some y → y.run = run ∧ y.step = step + k) ∧
    (∀ x : DecSample D A E, decs[0]? = some x → x.decstate_from = d) ∧
    (∀ (k : Nat) (x : DecSample D A E) (y : ExpSample D E),
      decs[k + 1]? = some x → exps[k]? = some y → x.decstate_from = y.decstate_to) := by
  induction decs generalizing step d exps with
  | nil =>
    cases exps with
    | nil => simp
    | cons e et => exact absurd h (by simp [ChainFrom])
  | cons x xt ih =>
    cases exps with
    | nil => exact absurd h (by simp [ChainFrom])
    | cons e et =>
      simp only [ChainFrom] at h
      obtain ⟨h1, h2, h3, h4, h5, -, -, h8⟩ := h
      obtain ⟨i1, i2, i3, i4, i5⟩ := ih _ _ _ h8
      refine ⟨by simp [i1], ?_, ?_, ?_, ?_⟩
      · intro k z hz
        cases k with
        | zero =>
          simp only [List.getElem?_cons_zero, Option.some.injEq] at hz
          rw [← hz]
          exact ⟨h1, by simp [h2]⟩
        | succ k =>
          simp only [List.getElem?_cons_succ] at hz
          have := i2 k z hz
          exact ⟨this.1, by rw [this.2]; push_cast; ring⟩
      · intro k z hz
        cases k with
        | zero =>
          simp only [List.getElem?_cons_zero, Option.some.injEq] at hz
          rw [← hz]
          exact ⟨h4, by simp [h5]⟩
        | succ k =>
          simp only [List.getElem?_cons_succ] at hz
          have := i3 k z hz
          exact ⟨this.1, by rw [this.2]; push_cast; ring⟩
      · intro z hz
        simp only [List.getElem?_cons_zero, Option.some.injEq] at hz
        rw [← hz]
        exact h3
      · intro k z y hz hy
        simp only [List.getElem?_cons_succ] at hz
        cases k with
        | zero =>
          simp only [List.getElem?_cons_zero, Option.some.injEq] at hy
          rw [← hy]
          exact i4 z hz
        | succ k =>
          simp only [List.getElem?_cons_succ] at hy
          exact i5 k z y hz hy

theorem BlocksFrom.block_chain {D A E : Type} (horizon run : Int) (blocks : List (RunBlock D A E))
    (h : BlocksFrom horizon run blocks) (r : Nat) (b : RunBlock D A E)
    (hb : blocks[r]? = some b) :
    ChainFrom (run + r) 0 b.initial b.decs b.exps ∧ b.exps.length ≤ horizon.toNat := by
  induction blocks generalizing run r with
  | nil => simp at hb
  | cons c cs ih =>
    simp only [BlocksFrom] at h
    cases r with
    | zero =>
      simp only [List.getElem?_cons_zero, Option.some.injEq] at hb
      rw [← hb]
      simpa using ⟨h.1, h.2.1⟩
    | succ r =>
      simp only [List.getElem?_cons_succ] at hb
      have := ih (run + 1) h.2.2 r hb
      have e : run + 1 + (r : Int) = run + ((r + 1 : Nat) : Int) := by push_cast; ring
      rw [e] at this
      exact this

theorem ChainFrom.run_eq {D A E : Type} (run : Int) (step : Int) (d : D)
    (decs : List (DecSample D A E)) (exps : List (ExpSample D E))
    (h : ChainFrom run step d decs exps) : ∀ y ∈ exps, y.run = run := by
  intro y hy
  obtain ⟨k, hk⟩ := List.mem_iff_getElem?.mp hy
  exact ((ChainFrom.chain_getElem run step d decs exps h).2.2.1 k y hk).1

theorem BlocksFrom.run_ge {D A E : Type} (horizon run : Int) (blocks : List (RunBlock D A E))
    (h : BlocksFrom horizon run blocks) :
    ∀ y ∈ (blocks.map RunBlock.exps).flatten, run ≤ y.run := by
  induction blocks generalizing run with
  | nil => intro y hy; simp at hy
  | cons b bs ih =>
    simp only [BlocksFrom] at h
    intro y hy
    simp only [List.map_cons, List.flatten_cons, List.mem_append] at hy
    rcases hy with hy | hy
    · rw [ChainFrom.run_eq run 0 b.initial b.decs b.exps h.1 y hy]
    · have := ih (run + 1) h.2.2 y hy
      omega

theorem BlocksFrom.count_le {D A E : Type} (horizon run : Int) (blocks : List (RunBlock D A E))
    (h : BlocksFrom horizon run blocks) (r : Int) :
    ((blocks.map RunBlock.exps).flatten.filter (fun y => decide (y.run = r))).length
      ≤ horizon.toNat := by
  induction blocks generalizing run with
  | nil => simp
  | cons b bs ih =>
    simp only [BlocksFrom] at h
    simp only [List.map_cons, List.flatten_cons, List.filter_append, List.length_append]
    by_cases hr : r = run
    · have hrest : (bs.map RunBlock.exps).flatten.filter (fun y => decide (y.run = r)) = [] := by
        rw [List.filter_eq_nil_iff]
        intro y hy
        have := BlocksFrom.run_ge horizon (run + 1) bs h.2.2 y hy
        simp only [decide_eq_true_eq]
        omega
      rw [hrest, List.length_nil, Nat.add_zero]
      exact le_trans (List.length_filter_le _ _) h.2.1
    · have hfirst : b.exps.filter (fun y => decide (y.run = r)) = [] := by
        rw [List.filter_eq_nil_iff]
        intro y hy
        have := ChainFrom.run_eq run 0 b.initial b.decs b.exps h.1 y hy
        simp only [decide_eq_true_eq]
        rw [this]
        exact fun hc => hr hc.symm
      rw [hfirst, List.length_nil, Nat.zero_add]
      exact ih (run + 1) h.2.2

/-! ## C18: the two sample streams are parallel -/

/-- C18. For every model provider, policy, sequence of random draws, outside
state, `horizon`, `runs`, `prob_term` and `tran_limit`, the result of
`simulate_stateless` has as many DecSamples as ExpSamples, and the DecSample
and the ExpSample at the same index have the same `run` and the same `step`,
the DecSample's `expstate_to` is the ExpSample's `expstate_from`, and the
ExpSample's `weight` is 1. -/
theorem simulate_stateless_parallel {W D A E : Type} (sim : Simulator W D A E)
    (policy : D → W → A × W) (draw : Nat → ℚ) (world : W) (horizon runs : Int) (prob_term : ℚ)
    (tran_limit : Int) :
    (simulate_stateless sim policy draw world horizon runs prob_term tran_limit).decsamples.length
      = (simulate_stateless sim policy draw world horizon runs prob_term tran_limit
          ).expsamples.length ∧
    ∀ (i : Nat) (x : DecSample D A E) (y : ExpSample D E),
      (simulate_stateless sim policy draw world horizon runs prob_term tran_limit
          ).decsamples[i]? = some x →
      (simulate_stateless sim policy draw world horizon runs prob_term tran_limit
          ).expsamples[i]? = some y →
      x.run = y.run ∧ x.step = y.step ∧ x.expstate_to = y.expstate_from ∧ y.weight = 1 := by
  obtain ⟨blocks, hs, hb, -⟩ :=
    simulate_stateless_blocks sim policy draw world horizon runs prob_term tran_limit
  rw [hs]
  exact forall₂_getElem? _ (BlocksFrom.blocks_paired horizon 0 blocks hb)

/-! ## C19: step contiguity and trajectory chaining -/

/-- C19. The result of `simulate_stateless` splits into one block per run, in
the order of the runs: `initial` holds the initial state of each block, and
`decsamples` and `expsamples` are the concatenations of the DecSamples and of
the ExpSamples of the blocks.  In the block of run `r` there are as many
DecSamples as ExpSamples, the `k`-th of either has `run = r` and `step = k`,
the first DecSample starts at the initial state recorded for the run, and
every later DecSample starts where the ExpSample before it ended. -/
theorem simulate_stateless_trajectories {W D A E : Type} (sim : Simulator W D A E)
    (policy : D → W → A × W) (draw : Nat → ℚ) (world : W) (horizon runs : Int) (prob_term : ℚ)
    (tran_limit : Int) :
    ∃ blocks : List (RunBlock D A E),
      (simulate_stateless sim policy draw world horizon runs prob_term tran_limit).decsamples
        = (blocks.map RunBlock.decs).flatten ∧
      (simulate_stateless sim policy draw world horizon runs prob_term tran_limit).initial
        = blocks.map RunBlock.initial ∧
      (simulate_stateless sim policy draw world horizon runs prob_term tran_limit).expsamples
        = (blocks.map RunBlock.exps).flatten ∧
      ∀ (r : Nat) (b : RunBlock D A E), blocks[r]? = some b →
        b.decs.length = b.exps.length ∧
        (∀ (k : Nat) (x : DecSample D A E), b.decs[k]? = some x →
          x.run = (r : Int) ∧ x.step = (k : Int)) ∧
        (∀ (k : Nat) (y : ExpSample D E), b.exps[k]? = some y →
          y.run = (r : Int) ∧ y.step = (k : Int)) ∧
        (∀ x : DecSample D A E, b.decs[0]? = some x → x.decstate_from = b.initial) ∧
        (∀ (k : Nat) (x : DecSample D A E) (y : ExpSample D E),
          b.decs[k + 1]? = some x → b.exps[k]? = some y → x.decstate_from = y.decstate_to) := by
  obtain ⟨blocks, hs, hb, -⟩ :=
    simulate_stateless_blocks sim policy draw world horizon runs prob_term tran_limit
  refine ⟨blocks, by rw [hs], by rw [hs], by rw [hs], ?_⟩
  intro r b hr
  have hc := (BlocksFrom.block_chain horizon 0 blocks hb r b hr).1
  obtain ⟨h1, h2, h3, h4, h5⟩ := ChainFrom.chain_getElem _ _ _ _ _ hc
  refine ⟨h1, ?_, ?_, h4, h5⟩
  · intro k x hx
    simpa using h2 k x hx
  · intro k y hy
    simpa using h3 k y hy

/-! ## C20: termination bounds -/

/-- C20. In the result of `simulate_stateless` every run has at most `horizon`
ExpSamples.  With `tran_limit > 0` the number of ExpSamples over all runs is
at most `tran_limit + 1` plus the number of runs started, and at most
`tran_limit + 1` if `prob_term ≤ 0`: the limit itself can be exceeded. -/
theorem simulate_stateless_bounds {W D A E : Type} (sim : Simulator W D A E)
    (policy : D → W → A × W) (draw : Nat → ℚ) (world : W) (horizon runs : Int) (prob_term : ℚ)
    (tran_limit : Int) :
    (∀ r : Int,
      (((simulate_stateless sim policy draw world horizon runs prob_term tran_limit
          ).expsamples.filter (fun y => decide (y.run = r))).length : Int) ≤ max horizon 0) ∧
    (tran_limit > 0 →
      ((simulate_stateless sim policy draw world horizon runs prob_term tran_limit
          ).expsamples.length : Int)
        ≤ tran_limit + 1 +
          (simulate_stateless sim policy draw world horizon runs prob_term tran_limit
            ).initial.length) ∧
    (tran_limit > 0 → prob_term ≤ 0 →
      ((simulate_stateless sim policy draw world horizon runs prob_term tran_limit
          ).expsamples.length : Int) ≤ tran_limit + 1) := by
  obtain ⟨blocks, hs, hb, -, h1, h2⟩ :=
    simulate_stateless_blocks sim policy draw world horizon runs prob_term tran_limit
  rw [hs]
  refine ⟨?_, ?_, h2⟩
  · intro r
    have := BlocksFrom.count_le horizon 0 blocks hb r
    simp only
    omega
  · intro hc
    simpa using h1 hc

/-- Witness for C20: a model that never ends a run, no random termination,
`horizon = 10`, one run, `tran_limit = 1`: two ExpSamples are emitted, one more
than the limit. -/
theorem simulate_stateless_bounds_witness :
    (simulate_stateless simulatorForever policyS6 (fun _ => 0) () 10 1 0 1).expsamples.length = 2 ∧
      (((simulate_stateless simulatorForever policyS6 (fun _ => 0) () 10 1 0 1
        ).expsamples.length : Nat) : Int) ≤ 1 + 1 :=
  ⟨by decide,
    (simulate_stateless_bounds simulatorForever policyS6 (fun _ => 0) () 10 1 0 1).2.2
      (by decide) (by norm_num)⟩

/-- With `prob_term = 1` every run stops at the random test after its first
transition, before that transition is counted: five runs emit five ExpSamples
under `tran_limit = 1`. -/
theorem simulate_stateless_uncounted_transitions :
    (simulate_stateless simulatorForever policyS6 (fun _ => 0) () 10 5 1 1).expsamples.length
      = 5 := by
  decide

/-! ## C21: a deterministic model and policy -/

theorem trajectory_zero {D A E : Type} (pol : D → A) (tdec : D → A → E) (texp : E → ℚ × D)
    (d : D) : trajectory pol tdec texp d 0 = d := rfl

theorem trajectory_succ {D A E : Type} (pol : D → A) (tdec : D → A → E) (texp : E → ℚ × D)
    (d : D) (k : Nat) :
    trajectory pol tdec texp d (k + 1)
      = trajectory pol tdec texp (next_decstate pol tdec texp d) k := by
  unfold trajectory
  rw [Function.iterate_succ_apply]

theorem trajectory_next {D A E : Type} (pol : D → A) (tdec : D → A → E) (texp : E → ℚ × D)
    (d : D) (k : Nat) :
    trajectory pol tdec texp d (k + 1)
      = next_decstate pol tdec texp (trajectory pol tdec texp d k) := by
  unfold trajectory
  rw [Function.iterate_succ_apply']

theorem map_range_succ {α : Type} (f : Nat → α) (n : Nat) :
    (List.range (n + 1)).map f = f 0 :: (List.range n).map (fun k => f (k + 1)) := by
  rw [List.range_succ_eq_map, List.map_cons, List.map_map]
  rfl

/-- With a deterministic model and policy, no random termination and no
transition limit, the inner loop emits the samples of the trajectory from
`decstate` until `end_condition` holds or the iterations are used up. -/
theorem step_loop_deterministic {W D A E : Type} (sim : Simulator W D A E)
    (policy : D → W → A × W) (draw : Nat → ℚ) (prob_term : ℚ) (tran_limit : Int) (run : Int)
    (pol : D → A) (tdec : D → A → E) (texp : E → ℚ × D) (endc : D → Bool)
    (hpol : ∀ d w, policy d w = (pol d, w))
    (hdec : ∀ d a w, sim.transition_dec d a w = (tdec d a, w))
    (hexp : ∀ e w, sim.transition_exp e w = (texp e, w))
    (hend : ∀ d w, sim.end_condition d w = (endc d, w))
    (hp : prob_term ≤ 0) (hl : tran_limit ≤ 0)
    (n : Nat) (step : Int) (decstate : D) (l : SimLocals W D A E) :
    (step_loop sim policy draw prob_term tran_limit run n step decstate l).samples
      = ⟨l.samples.decsamples ++
          (List.range (run_length endc pol tdec texp n decstate)).map (fun k =>
            (⟨trajectory pol tdec texp decstate k, pol (trajectory pol tdec texp decstate k),
              tdec (trajectory pol tdec texp decstate k)
                (pol (trajectory pol tdec texp decstate k)), step + k, run⟩ : DecSample D A E)),
        l.samples.initial,
        l.samples.expsamples ++
          (List.range (run_length endc pol tdec texp n decstate)).map (fun k =>
            (⟨tdec (trajectory pol tdec texp decstate k)
                (pol (trajectory pol tdec texp decstate k)),
              trajectory pol tdec texp decstate (k + 1),
              (texp (tdec (trajectory pol tdec texp decstate k)
                (pol (trajectory pol tdec texp decstate k)))).1,
              1, step + k, run⟩ : ExpSample D E))⟩ := by
  have hlim : ¬ (0 < tran_limit) := not_lt.mpr hl
  have hpt : ¬ (0 < prob_term) := not_lt.mpr hp
  induction n generalizing step decstate l with
  | zero => simp [step_loop, run_length]
  | succ n ih =>
    unfold step_loop
    simp only [hend, hpol, hdec, hexp]
    cases hc : endc decstate with
    | true => simp [run_length, hc]
    | false =>
      simp only [gt_iff_lt, hlim, false_and, hpt, if_false, Bool.false_eq_true]
      rw [ih]
      have hrl : run_length endc pol tdec texp (n + 1) decstate
          = run_length endc pol tdec texp n (next_decstate pol tdec texp decstate) + 1 := by
        simp [run_length, hc]
      rw [hrl, map_range_succ, map_range_succ]
      simp only [Samples.add_dec, Samples.add_exp, List.append_assoc, List.singleton_append,
        trajectory_zero, trajectory_succ, Nat.cast_zero, add_zero, Nat.cast_add, Nat.cast_one]
      have hn : (texp (tdec decstate (pol decstate))).2
          = next_decstate pol tdec texp decstate := rfl
      rw [hn]
      have hs : ∀ k : Nat, step + 1 + (k : Int) = step + ((k : Int) + 1) := fun k => by ring
      simp only [hs, trajectory_zero]

theorem run_loop_deterministic {W D A E : Type} (sim : Simulator W D A E)
    (policy : D → W → A × W) (draw : Nat → ℚ) (horizon : Int) (prob_term : ℚ)
    (tran_limit : Int) (d0 : D) (pol : D → A) (tdec : D → A → E) (texp : E → ℚ × D)
    (endc : D → Bool)
    (hinit : ∀ w, sim.init_state w = (d0, w))
    (hpol : ∀ d w, policy d w = (pol d, w))
    (hdec : ∀ d a w, sim.transition_dec d a w = (tdec d a, w))
    (hexp : ∀ e w, sim.transition_exp e w = (texp e, w))
    (hend : ∀ d w, sim.end_condition d w = (endc d, w))
    (hp : prob_term ≤ 0) (hl : tran_limit ≤ 0)
    (n : Nat) (run : Int) (l : SimLocals W D A E) :
    (run_loop sim policy draw horizon prob_term tran_limit n run l).samples
      = ⟨l.samples.decsamples ++
          ((List.range n).map fun (i : Nat) =>
            (List.range (run_length endc pol tdec texp horizon.toNat d0)).map
              (trajectory_dec pol tdec texp d0 (run + (i : Int)))).flatten,
        l.samples.initial ++ List.replicate n d0,
        l.samples.expsamples ++
          ((List.range n).map fun (i : Nat) =>
            (List.range (run_length endc pol tdec texp horizon.toNat d0)).map
              (trajectory_exp pol tdec texp d0 (run + (i : Int)))).flatten⟩ := by
  have hlim : ¬ (0 < tran_limit) := not_lt.mpr hl
  induction n generalizing run l with
  | zero => simp [run_loop]
  | succ n ih =>
    unfold run_loop
    simp only [hinit, gt_iff_lt, hlim, false_and, if_false]
    rw [ih, step_loop_deterministic sim policy draw prob_term tran_limit run pol tdec texp endc
      hpol hdec hexp hend hp hl]
    rw [map_range_succ, map_range_succ]
    have hs : ∀ k : Nat, run + 1 + (k : Int) = run + ((k + 1 : Nat) : Int) := fun k => by
      push_cast; ring
    simp only [Samples.add_initial, List.append_assoc, List.singleton_append, List.flatten_cons,
      List.replicate_succ, zero_add, Nat.cast_zero, add_zero, hs]
    rfl

theorem run_length_spec {D A E : Type} (endc : D → Bool) (pol : D → A) (tdec : D → A → E)
    (texp : E → ℚ × D) (n : Nat) (d : D) :
    run_length endc pol tdec texp n d ≤ n ∧
    (∀ k, k < run_length endc pol tdec texp n d → endc (trajectory pol tdec texp d k) = false) ∧
    (run_length endc pol tdec texp n d < n →
      endc (trajectory pol tdec texp d (run_length endc pol tdec texp n d)) = true) := by
  induction n generalizing d with
  | zero => simp [run_length]
  | succ n ih =>
    cases hc : endc d with
    | true =>
      have h0 : run_length endc pol tdec texp (n + 1) d = 0 := by simp [run_length, hc]
      rw [h0]
      exact ⟨Nat.zero_le _, fun k hk => absurd hk (Nat.not_lt_zero k), fun _ => hc⟩
    | false =>
      have h1 : run_length endc pol tdec texp (n + 1) d
          = run_length endc pol tdec texp n (next_decstate pol tdec texp d) + 1 := by
        simp [run_length, hc]
      obtain ⟨i1, i2, i3⟩ := ih (next_decstate pol tdec texp d)
      rw [h1]
      refine ⟨by omega, ?_, ?_⟩
      · intro k hk
        cases k with
        | zero => exact hc
        | succ k =>
          rw [trajectory_succ]
          exact i2 k (by omega)
      · intro hlt
        rw [trajectory_succ]
        exact i3 (by omega)

theorem filter_run_blocks {α : Type} (runOf : α → Int) (g : Int → Nat → α)
    (hg : ∀ r k, runOf (g r k) = r) (m n : Nat) (r0 : Nat) (h : r0 < n) :
    (((List.range n).map fun (i : Nat) => (List.range m).map (g (i : Int))).flatten.filter
      (fun x => decide (runOf x = (r0 : Int)))) = (List.range m).map (g (r0 : Int)) := by
  induction n with
  | zero => exact absurd h (Nat.not_lt_zero r0)
  | succ n ih =>
    rw [List.range_succ, List.map_append, List.flatten_append, List.filter_append]
    simp only [List.map_cons, List.map_nil, List.flatten_cons, List.flatten_nil, List.append_nil]
    by_cases hr : r0 < n
    · rw [ih hr]
      have hnil : ((List.range m).map (g (n : Int))).filter
          (fun x => decide (runOf x = (r0 : Int))) = [] := by
        rw [List.filter_eq_nil_iff]
        intro x hx
        obtain ⟨k, -, rfl⟩ := List.mem_map.mp hx
        simp only [decide_eq_true_eq, hg]
        omega
      rw [hnil, List.append_nil]
    · have hn : r0 = n := by omega
      subst hn
      have hnil : (((List.range r0).map fun (i : Nat) => (List.range m).map (g (i : Int))).flatten
          ).filter (fun x => decide (runOf x = (r0 : Int))) = [] := by
        rw [List.filter_eq_nil_iff]
        intro x hx
        obtain ⟨b, hb, hxb⟩ := List.mem_flatten.mp hx
        obtain ⟨i, hi, rfl⟩ := List.mem_map.mp hb
        obtain ⟨k, -, rfl⟩ := List.mem_map.mp hxb
        have := List.mem_range.mp hi
        simp only [decide_eq_true_eq, hg]
        omega
      rw [hnil, List.nil_append, List.filter_eq_self]
      intro x hx
      obtain ⟨k, -, rfl⟩ := List.mem_map.mp hx
      simp only [decide_eq_true_eq, hg]

/-- C21. For a deterministic model and policy (the provider's methods and the
policy return the same value for the same argument and leave the outside state
as it is), `prob_term ≤ 0` (in particular 0) and `tran_limit ≤ 0`:
`simulate_stateless` records the initial state once per run, `runs` times, and
every run emits the DecSamples and ExpSamples of the first `m` steps of the
trajectory from the initial state, where `m` is the smaller of `horizon` and
the least number of steps after which `end_condition` holds: `m ≤ horizon`,
`end_condition` is false at the first `m` states of the trajectory, and true at
state `m` if `m < horizon`.  So every run has exactly `m` DecSamples and `m`
ExpSamples. -/
theorem simulate_stateless_deterministic {W D A E : Type} (sim : Simulator W D A E)
    (policy : D → W → A × W) (draw : Nat → ℚ) (world : W) (horizon runs : Int) (prob_term : ℚ)
    (tran_limit : Int) (d0 : D) (pol : D → A) (tdec : D → A → E) (texp : E → ℚ × D)
    (endc : D → Bool)
    (hinit : ∀ w, sim.init_state w = (d0, w))
    (hpol : ∀ d w, policy d w = (pol d, w))
    (hdec : ∀ d a w, sim.transition_dec d a w = (tdec d a, w))
    (hexp : ∀ e w, sim.transition_exp e w = (texp e, w))
    (hend : ∀ d w, sim.end_condition d w = (endc d, w))
    (hp : prob_term ≤ 0) (hl : tran_limit ≤ 0) :
    (simulate_stateless sim policy draw world horizon runs prob_term tran_limit).initial
      = List.replicate runs.toNat d0 ∧
    (simulate_stateless sim policy draw world horizon runs prob_term tran_limit).decsamples
      = ((List.range runs.toNat).map fun (r : Nat) =>
          (List.range (run_length endc pol tdec texp horizon.toNat d0)).map
            (trajectory_dec pol tdec texp d0 (r : Int))).flatten ∧
    (simulate_stateless sim policy draw world horizon runs prob_term tran_limit).expsamples
      = ((List.range runs.toNat).map fun (r : Nat) =>
          (List.range (run_length endc pol tdec texp horizon.toNat d0)).map
            (trajectory_exp pol tdec texp d0 (r : Int))).flatten ∧
    run_length endc pol tdec texp horizon.toNat d0 ≤ horizon.toNat ∧
    (∀ k, k < run_length endc pol tdec texp horizon.toNat d0 →
      endc (trajectory pol tdec texp d0 k) = false) ∧
    (run_length endc pol tdec texp horizon.toNat d0 < horizon.toNat →
      endc (trajectory pol tdec texp d0 (run_length endc pol tdec texp horizon.toNat d0))
        = true) ∧
    (∀ r : Nat, r < runs.toNat →
      ((simulate_stateless sim policy draw world horizon runs prob_term tran_limit
          ).decsamples.filter (fun x => decide (x.run = (r : Int)))).length
        = run_length endc pol tdec texp horizon.toNat d0 ∧
      ((simulate_stateless sim policy draw world horizon runs prob_term tran_limit
          ).expsamples.filter (fun y => decide (y.run = (r : Int)))).length
        = run_length endc pol tdec texp horizon.toNat d0) := by
  have hs : simulate_stateless sim policy draw world horizon runs prob_term tran_limit
      = ⟨((List.range runs.toNat).map fun (r : Nat) =>
          (List.range (run_length endc pol tdec texp horizon.toNat d0)).map
            (trajectory_dec pol tdec texp d0 (r : Int))).flatten,
        List.replicate runs.toNat d0,
        ((List.range runs.toNat).map fun (r : Nat) =>
          (List.range (run_length endc pol tdec texp horizon.toNat d0)).map
            (trajectory_exp pol tdec texp d0 (r : Int))).flatten⟩ := by
    unfold simulate_stateless
    rw [run_loop_deterministic sim policy draw horizon prob_term tran_limit d0 pol tdec texp endc
      hinit hpol hdec hexp hend hp hl]
    simp
  obtain ⟨r1, r2, r3⟩ := run_length_spec endc pol tdec texp horizon.toNat d0
  rw [hs]
  refine ⟨rfl, rfl, rfl, r1, r2, r3, ?_⟩
  intro r hr
  simp only
  rw [filter_run_blocks DecSample.run (fun i k => trajectory_dec pol tdec texp d0 i k)
      (fun _ _ => rfl) _ _ r hr,
    filter_run_blocks ExpSample.run (fun i k => trajectory_exp pol tdec texp d0 i k)
      (fun _ _ => rfl) _ _ r hr]
  simp

/-- Witness for C21: scenario S6 (`init_state` 0, `d → d + 1` with reward 1.0,
end at `d ≥ 3`, `horizon = 10`, `runs = 2`, `prob_term = 0`, no transition
limit).  Each run has the three DecSamples and the three ExpSamples of the
states 0, 1, 2, every reward is 1 and the last `decstate_to` is 3. -/
theorem simulate_stateless_deterministic_witness :
    (simulate_stateless simulatorS6 policyS6 (fun _ => 0) () 10 2 0 (-1)).initial = [0, 0] ∧
    (simulate_stateless simulatorS6 policyS6 (fun _ => 0) () 10 2 0 (-1)).decsamples
      = [⟨0, 0, (0, 0), 0, 0⟩, ⟨1, 0, (1, 0), 1, 0⟩, ⟨2, 0, (2, 0), 2, 0⟩,
         ⟨0, 0, (0, 0), 0, 1⟩, ⟨1, 0, (1, 0), 1, 1⟩, ⟨2, 0, (2, 0), 2, 1⟩] ∧
    (simulate_stateless simulatorS6 policyS6 (fun _ => 0) () 10 2 0 (-1)).expsamples
      = [⟨(0, 0), 1, 1, 1, 0, 0⟩, ⟨(1, 0), 2, 1, 1, 1, 0⟩, ⟨(2, 0), 3, 1, 1, 2, 0⟩,
         ⟨(0, 0), 1, 1, 1, 0, 1⟩, ⟨(1, 0), 2, 1, 1, 1, 1⟩, ⟨(2, 0), 3, 1, 1, 2, 1⟩] :=
  have h := simulate_stateless_deterministic simulatorS6 policyS6 (fun _ => 0) () 10 2 0 (-1)
    0 (fun _ => 0) (fun d a => (d, a)) (fun e => (1, e.1 + 1)) (fun d => decide (d ≥ 3))
    (fun _ => rfl) (fun _ _ => rfl) (fun _ _ _ => rfl) (fun _ _ => rfl) (fun _ _ => rfl)
    (le_refl 0) (by decide)
  ⟨h.1.trans (by decide), h.2.1.trans (by decide), h.2.2.1.trans (by decide)⟩

/-! ## C22: frame of `add_transition` -/

end craam
